import Mathlib

/-!
# AdbManager: the session client and the batch manager

A shallow embedding of the device-bridge session layer of the repository
(`src/internal/adb/adb.go`) and of its batch manager
(`src/internal/batch/batch.go`), together with theorems about the incremental
registry reconciliation performed by `ADBManager.ListDevices`, about text
normalisation and command execution, and about the batch operations.

Modelling conventions

* A Go `string` that went through `ensureUTF8` is valid UTF-8, so it is a
  sequence of Unicode scalar values: a Lean `String`.  The helpers of package
  `strings` are written over `List Char`, rune by rune.
* `time.Time` values produced by `time.Now()` carry a monotonic reading; they
  are modelled by that reading, an `Int` number of nanoseconds.  `time.Duration`
  is an `Int` number of nanoseconds and `Time.Sub` saturates as in Go.
* `int` is the 64-bit two's-complement integer; `FailedChecks++` wraps.
* `map[string]*Device` is an association list without duplicate keys
  (`AList`).  Go fixes no iteration order for maps; loops over a map are folds
  over the entry list, whose order stands for the order in which the runtime
  happens to visit the map.  The statements below are about lookups or about
  lists up to permutation; the one statement about the order of a snapshot
  compares two entry lists of the same map.
* The subprocess `adb devices -l` is an input: its normalised combined output
  and whether the invocation failed.  Printing, sleeping and the
  `kill-server` / `start-server` subprocesses do not touch the registry and
  are left out.
* The raw output of a subprocess and the content of a file are arbitrary
  bytes (`Bytes`); package `unicode/utf8` is written over them.  The decoders
  of `golang.org/x/text` are parameters.
* The other subprocesses are answered by a `Bridge`, which sees the
  invocations made so far; every function that runs subprocesses returns the
  log of its invocations.
* Goroutines, channels and wait groups are modelled by step functions over an
  explicit state; a run is a list of events that the step function accepts,
  so a statement about every run covers every interleaving.
-/

namespace AdbManager

/-! ## Package `strings` / `unicode` -/

/-- Go `unicode.IsSpace`: the Latin-1 spaces `\t \n \v \f \r ' ' U+0085 U+00A0`
and, above Latin-1, the `White_Space` table. -/
def isSpace (c : Char) : Bool :=
  let n := c.toNat
  n == 0x09 || n == 0x0A || n == 0x0B || n == 0x0C || n == 0x0D || n == 0x20 ||
  n == 0x85 || n == 0xA0 || n == 0x1680 || (0x2000 ≤ n && n ≤ 0x200A) ||
  n == 0x2028 || n == 0x2029 || n == 0x202F || n == 0x205F || n == 0x3000

/-- Go `strings.TrimSpace` on the runes of a string. -/
def trimSpaceChars (s : List Char) : List Char :=
  ((s.dropWhile isSpace).reverse.dropWhile isSpace).reverse

/-- Go `strings.TrimSpace`. -/
def TrimSpace (s : String) : String := ⟨trimSpaceChars s.data⟩

/-- Worker of `Fields`: `acc` holds the current token, reversed. -/
def fieldsAux : List Char → List Char → List String
  | [], acc => if acc.isEmpty then [] else [⟨acc.reverse⟩]
  | c :: cs, acc =>
    if isSpace c then
      if acc.isEmpty then fieldsAux cs [] else ⟨acc.reverse⟩ :: fieldsAux cs []
    else fieldsAux cs (c :: acc)

/-- Go `strings.Fields`: the maximal runs of non-space runes. -/
def Fields (s : String) : List String := fieldsAux s.data []

/-- Worker of `Split`: `acc` holds the current piece, reversed. -/
def splitAux (sep : Char) : List Char → List Char → List String
  | [], acc => [⟨acc.reverse⟩]
  | c :: cs, acc =>
    if c = sep then ⟨acc.reverse⟩ :: splitAux sep cs [] else splitAux sep cs (c :: acc)

/-- Go `strings.Split(s, "\n")`: the pieces between line feeds (always at least
one piece). -/
def SplitLines (s : String) : List String := splitAux '\n' s.data []

/-- Go `strings.HasPrefix`. -/
def HasPrefix (s pre : String) : Bool := pre.data.isPrefixOf s.data

/-- Go `strings.TrimPrefix`. -/
def TrimPrefix (s pre : String) : String :=
  if HasPrefix s pre then ⟨s.data.drop pre.data.length⟩ else s

/-- Go `strings.Contains`. -/
def Contains (s sub : String) : Bool := decide (sub.data <:+: s.data)

/-! ## Package `time` -/

/-- Largest `time.Duration` (`1<<63 - 1` nanoseconds). -/
def maxDuration : Int := 2 ^ 63 - 1

/-- Smallest `time.Duration` (`-1 << 63` nanoseconds). -/
def minDuration : Int := -(2 ^ 63)

/-- Go `time.Minute` in nanoseconds. -/
def Minute : Int := 60 * 1000000000

/-- Go `Time.Sub` on monotonic readings: the difference, saturated to the range
of `time.Duration`. -/
def Sub (t u : Int) : Int :=
  if t - u > maxDuration then maxDuration
  else if t - u < minDuration then minDuration
  else t - u

/-- Go `x++` on an `int`: addition of one in 64-bit two's complement. -/
def incrInt (x : Int) : Int := (x + 1 + 2 ^ 63) % 2 ^ 64 - 2 ^ 63

/-! ## Data model -/

/-- Go `type Device struct`. -/
structure Device where
  Serial : String
  Status : String
  Model : String
  LastSeen : Int
  FailedChecks : Int
  deriving DecidableEq, Repr

/-- Go `map[string]*Device`. -/
abbrev DeviceMap := AList (fun _ : String => Device)

/-- Go `type ADBManager struct` (the two locks carry no data). -/
structure ADBManager where
  adbPath : String
  managedDevices : DeviceMap
  lastDeviceListTime : Int
  deviceOfflineTimeout : Int
  useBusybox : Bool
  deriving DecidableEq

/-- Go `NewADBManager`; the zero `time.Time` of `lastDeviceListTime` is `0`. -/
def NewADBManager : ADBManager :=
  { adbPath := "adb"
    managedDevices := ∅
    lastDeviceListTime := 0
    deviceOfflineTimeout := 5 * Minute
    useBusybox := false }

/-- The readings `time.Now()` returns during one call of `ListDevices`. -/
structure Clock where
  /-- Line 160: the reading taken while the line with this index is parsed. -/
  parsed : Nat → Int
  /-- Line 182: the reading taken while the entry of this serial is updated. -/
  updated : String → Int
  /-- Line 193: `now`, against which staleness is measured. -/
  now : Int
  /-- Line 209: the reading stored in `lastDeviceListTime`. -/
  finished : Int

/-- A clock that does not advance during the call. -/
def Clock.const (t : Int) : Clock :=
  { parsed := fun _ => t, updated := fun _ => t, now := t, finished := t }

/-- What `exec.Command(adbPath, "devices", "-l").CombinedOutput()` gave:
`outputStr` is `ensureUTF8(string(output))`, `failed` is `err != nil`. -/
structure PollOutcome where
  outputStr : String
  failed : Bool
  deriving DecidableEq

/-- The three errors `ListDevices` can return. -/
inductive ListError where
  /-- Line 99: the output contains the version-mismatch text. -/
  | versionConflict
  /-- Line 104: running `adb devices` failed. -/
  | execFailed
  /-- Lines 132 and 147: the bridge server was restarted. -/
  | serverRestarted
  deriving DecidableEq, Repr

/-! ## Parsing the discovery output -/

/-- What one line of the discovery output makes the parse loop do. -/
inductive LineAction where
  /-- The loop goes on without a record (`continue`, or fewer than two fields). -/
  | skip
  /-- Lines 121 to 133: the sentinel line `adb [server]`; the loop returns `nil`
  and an error. -/
  | sentinel
  /-- Lines 136 to 148: a line with the version-conflict text; the loop returns
  `nil` and an error. -/
  | versionLine
  /-- The line is a device record `serial status model`. -/
  | record (serial status model : String)
  deriving DecidableEq, Repr

/-- The model of a record: lines 164 to 169, the first field that starts with
`model:` without that prefix, empty when there is none. -/
def extractModel : List String → String
  | [] => ""
  | part :: rest => if HasPrefix part "model:" then TrimPrefix part "model:" else extractModel rest

/-- The body of the parse loop, lines 113 to 172, for one line. -/
def parseLine (rawLine : String) : LineAction :=
  let line := TrimSpace rawLine
  if line = "" || HasPrefix line "List of devices" then .skip
  else
    match Fields line with
    | p0 :: p1 :: rest =>
      if rest.isEmpty && p0 = "adb" && p1 = "[server]" then .sentinel
      else if Contains line "server version" && Contains line "doesn't match" then
        .versionLine
      else if p0 = "*" || p0 = "adb" || HasPrefix p1 "[" then .skip
      else .record p0 p1 (extractModel rest)
    | _ => .skip

/-- The parse loop, lines 112 to 173: `idx` is the index of the first line of
`lines`, `current` is `currentDevices` so far.  A later record of a serial
replaces an earlier one. -/
def parseLines (clk : Clock) : Nat → List String → DeviceMap → Except ListError DeviceMap
  | _, [], current => .ok current
  | idx, l :: ls, current =>
    match parseLine l with
    | .skip => parseLines clk (idx + 1) ls current
    | .sentinel => .error .serverRestarted
    | .versionLine => .error .serverRestarted
    | .record serial status model =>
      parseLines clk (idx + 1) ls
        (current.insert serial
          { Serial := serial, Status := status, Model := model,
            LastSeen := clk.parsed idx, FailedChecks := 0 })

/-! ## Reconciliation -/

/-- One iteration of the loop of lines 177 to 190. -/
def updateStep (clk : Clock) (managed : DeviceMap) (serial : String) (dev : Device) : DeviceMap :=
  match managed.lookup serial with
  | some existingDev =>
    managed.insert serial
      { existingDev with
        Status := dev.Status, Model := dev.Model,
        LastSeen := clk.updated serial, FailedChecks := 0 }
  | none => managed.insert serial dev

/-- Lines 177 to 190: every discovered device is updated in, or added to, the
registry. -/
def updateDiscovered (clk : Clock) (current managed : DeviceMap) : DeviceMap :=
  current.foldl (updateStep clk) managed

/-- The eviction test of line 201 on an entry whose counter was incremented. -/
def shouldEvict (timeout now : Int) (dev : Device) : Bool :=
  decide (dev.FailedChecks ≥ 3) || decide (Sub now dev.LastSeen > timeout)

/-- One iteration of the loop of lines 194 to 207. -/
def missStep (timeout now : Int) (current : DeviceMap) (managed : DeviceMap)
    (serial : String) (dev : Device) : DeviceMap :=
  if serial ∈ current then managed
  else
    let dev1 := { dev with FailedChecks := incrInt dev.FailedChecks }
    if shouldEvict timeout now dev1 then managed.erase serial
    else managed.insert serial dev1

/-- Lines 194 to 207: every registry entry that was not discovered has its miss
counter incremented and is deleted when the eviction test holds. -/
def markMissing (timeout now : Int) (current managed : DeviceMap) : DeviceMap :=
  managed.foldl (missStep timeout now current) managed

/-- Lines 175 to 207: the two phases in order. -/
def reconcile (clk : Clock) (timeout : Int) (current managed : DeviceMap) : DeviceMap :=
  markMissing timeout clk.now current (updateDiscovered clk current managed)

/-- Go `getDeviceList`: a copy of every entry without its miss counter. -/
def getDeviceList (m : ADBManager) : List Device :=
  m.managedDevices.entries.map fun e =>
    { Serial := e.2.Serial, Status := e.2.Status, Model := e.2.Model,
      LastSeen := e.2.LastSeen, FailedChecks := 0 }

/-- What a call of `ListDevices` leaves: the manager after the call, the
returned slice (`nil` is the empty list) and the returned error. -/
structure ListResult where
  mgr : ADBManager
  devices : List Device
  err : Option ListError

/-- Go `ADBManager.ListDevices`. -/
def ListDevices (m : ADBManager) (o : PollOutcome) (clk : Clock) : ListResult :=
  if Contains o.outputStr "doesn't match" then
    { mgr := m, devices := getDeviceList m, err := some .versionConflict }
  else if o.failed then
    { mgr := m, devices := getDeviceList m, err := some .execFailed }
  else
    match parseLines clk 0 (SplitLines o.outputStr) ∅ with
    | .error e => { mgr := m, devices := [], err := some e }
    | .ok currentDevices =>
      let m1 : ADBManager :=
        { m with
          managedDevices := reconcile clk m.deviceOfflineTimeout currentDevices m.managedDevices
          lastDeviceListTime := clk.finished }
      { mgr := m1, devices := getDeviceList m1, err := none }

/-- The map `currentDevices` of a call that reaches line 175 (empty when the
parse loop returned early). -/
def currentDevices (o : PollOutcome) (clk : Clock) : DeviceMap :=
  match parseLines clk 0 (SplitLines o.outputStr) ∅ with
  | .ok current => current
  | .error _ => ∅

/-- Go `ADBManager.RemoveDevice`: the manager after the call and whether an
error was returned. -/
def RemoveDevice (m : ADBManager) (serial : String) : ADBManager × Bool :=
  if serial ∈ m.managedDevices then
    ({ m with managedDevices := m.managedDevices.erase serial }, false)
  else (m, true)

/-- The registry entry of a discovered serial after lines 177 to 190. -/
def updatedEntry (clk : Clock) (serial : String) (dev : Device) : Option Device → Device
  | some existingDev =>
    { existingDev with
      Status := dev.Status, Model := dev.Model,
      LastSeen := clk.updated serial, FailedChecks := 0 }
  | none => dev

/-- The entry with its miss counter incremented (line 196). -/
def missed (dev : Device) : Device := { dev with FailedChecks := incrInt dev.FailedChecks }

/-! ## Invariant of the registry -/

/-- The invariant of a manager: the offline timeout is a non-negative duration
below the largest one, every entry is stored under its own `Serial`, and every
miss counter is 0, 1 or 2.  `NewADBManager` establishes it and `ListDevices`
and `RemoveDevice` preserve it (`Inv_NewADBManager`, `Inv_ListDevices`,
`Inv_RemoveDevice`), so it holds in every state the program reaches. -/
def Inv (m : ADBManager) : Prop :=
  0 ≤ m.deviceOfflineTimeout ∧ m.deviceOfflineTimeout < maxDuration ∧
  ∀ e ∈ m.managedDevices.entries,
    e.2.Serial = e.1 ∧ 0 ≤ e.2.FailedChecks ∧ e.2.FailedChecks < 3

instance (m : ADBManager) : Decidable (Inv m) := by
  unfold Inv
  infer_instance

/-- All readings of the clock of a call lie between `lo` and `hi`. -/
def Clock.Within (clk : Clock) (lo hi : Int) : Prop :=
  (∀ i, lo ≤ clk.parsed i ∧ clk.parsed i ≤ hi) ∧
  (∀ s, lo ≤ clk.updated s ∧ clk.updated s ≤ hi) ∧
  (lo ≤ clk.now ∧ clk.now ≤ hi) ∧ (lo ≤ clk.finished ∧ clk.finished ≤ hi)

/-- Two maps of discovered devices with the same serials and, for each serial,
the same status and model. -/
def SameRecords (a b : DeviceMap) : Prop :=
  ∀ s, (a.lookup s).map (fun x => (x.Status, x.Model)) =
    (b.lookup s).map (fun x => (x.Status, x.Model))

/-- Every record of a map of discovered devices is stored under its serial, has
miss counter 0 and was stamped with a reading of `clk` taken while parsing. -/
def FreshRecords (clk : Clock) (a : DeviceMap) : Prop :=
  ∀ s c, a.lookup s = some c →
    c.Serial = s ∧ c.FailedChecks = 0 ∧ ∃ i, c.LastSeen = clk.parsed i

/-! ## Sequences of calls -/

/-- The results of a sequence of calls of `ListDevices`, each call given the
outcome of its subprocess and its clock, each starting from the manager the
previous call left. -/
def pollTrace (m : ADBManager) : List (PollOutcome × Clock) → List ListResult
  | [] => []
  | p :: ps => ListDevices m p.1 p.2 :: pollTrace (ListDevices m p.1 p.2).mgr ps

/-- The manager a sequence of calls of `ListDevices` leaves. -/
def runCalls (m : ADBManager) : List (PollOutcome × Clock) → ADBManager
  | [] => m
  | p :: ps => runCalls (ListDevices m p.1 p.2).mgr ps

/-- The calls of a sequence are made at non-decreasing clock times from `t` on:
every reading of a call lies between the last reading before the call and the
last reading of the call (`finished`). -/
def NonDecreasing : Int → List (PollOutcome × Clock) → Prop
  | _, [] => True
  | t, p :: ps => p.2.Within t p.2.finished ∧ NonDecreasing p.2.finished ps

/-- No entry of the registry was seen after `t`. -/
def SeenBy (t : Int) (m : ADBManager) : Prop :=
  ∀ e ∈ m.managedDevices.entries, e.2.LastSeen ≤ t

instance (t : Int) (m : ADBManager) : Decidable (SeenBy t m) := by
  unfold SeenBy
  infer_instance

/-- The output of `adb devices -l` when no device is attached. -/
def noDevices : PollOutcome := ⟨"List of devices attached\n\n", false⟩

/-! ## Sample states -/

/-- A device as the first poll of `ABC123  device model:Pixel6` at reading `5`
leaves it. -/
def sampleDevice : Device :=
  { Serial := "ABC123", Status := "device", Model := "Pixel6", LastSeen := 5, FailedChecks := 0 }

/-- A manager whose registry holds `sampleDevice`. -/
def sampleManager : ADBManager :=
  { NewADBManager with managedDevices := AList.singleton "ABC123" sampleDevice }

/-! ## Package `unicode/utf8` -/

/-- A byte. -/
abbrev Byte := Fin 256

/-- A Go `string` or `[]byte` as it comes from a subprocess or a file: its
bytes, valid UTF-8 or not. -/
abbrev Bytes := List Byte

/-- The byte with value `n % 256` (Go `byte(n)`). -/
def byte (n : Nat) : Byte := ⟨n % 256, Nat.mod_lt _ (by decide)⟩

/-- Go `utf8.RuneError`, the replacement character U+FFFD. -/
def RuneError : Nat := 0xFFFD

/-- The size entry of the table `first` of package `utf8` for a leading byte:
1 for ASCII, 2, 3 or 4 for the leading bytes `C2..DF`, `E0..EF`, `F0..F4`, and
0 for the bytes that start no encoding (`xx`). -/
def firstSize (x : Nat) : Nat :=
  if x < 0x80 then 1
  else if x < 0xC2 then 0
  else if x < 0xE0 then 2
  else if x < 0xF0 then 3
  else if x < 0xF5 then 4
  else 0

/-- Lower bound of `acceptRanges` for the second byte after leading byte `x`. -/
def acceptLo (x : Nat) : Nat := if x = 0xE0 then 0xA0 else if x = 0xF0 then 0x90 else 0x80

/-- Upper bound of `acceptRanges` for the second byte after leading byte `x`. -/
def acceptHi (x : Nat) : Nat := if x = 0xED then 0x9F else if x = 0xF4 then 0x8F else 0xBF

/-- A continuation byte, between `locb = 0x80` and `hicb = 0xBF`. -/
def isCont (c : Nat) : Bool := decide (0x80 ≤ c) && decide (c ≤ 0xBF)

/-- Go `utf8.DecodeRuneInString`: the first rune of `s` and its width in bytes;
`(RuneError, 0)` for the empty string and `(RuneError, 1)` for an encoding
error.  The masks and shifts of the source are written as remainders and
products (`s0 & 0x1F` is `s0 % 32`, `<< 6` is `* 64`, and `|` joins disjoint
bits). -/
def DecodeRuneInString : Bytes → Nat × Nat
  | [] => (RuneError, 0)
  | s0 :: rest =>
    if s0.val < 0x80 then (s0.val, 1)
    else if firstSize s0.val = 0 then (RuneError, 1)
    else if rest.length + 1 < firstSize s0.val then (RuneError, 1)
    else
      match rest with
      | [] => (RuneError, 1)
      | s1 :: rest1 =>
        if s1.val < acceptLo s0.val ∨ acceptHi s0.val < s1.val then (RuneError, 1)
        else if firstSize s0.val ≤ 2 then (s0.val % 32 * 64 + s1.val % 64, 2)
        else
          match rest1 with
          | [] => (RuneError, 1)
          | s2 :: rest2 =>
            if !isCont s2.val then (RuneError, 1)
            else if firstSize s0.val ≤ 3 then
              (s0.val % 16 * 4096 + s1.val % 64 * 64 + s2.val % 64, 3)
            else
              match rest2 with
              | [] => (RuneError, 1)
              | s3 :: _ =>
                if !isCont s3.val then (RuneError, 1)
                else
                  (s0.val % 8 * 262144 + s1.val % 64 * 4096 + s2.val % 64 * 64 + s3.val % 64, 4)

/-- The loop `for _, r := range s` over a string: the runes it yields.  `skip`
is the number of bytes still to pass over before the next rune starts (the
loop advances by the width of the rune it decoded). -/
def rangeRunes : Nat → Bytes → List Nat
  | _, [] => []
  | skip + 1, _ :: rest => rangeRunes skip rest
  | 0, b :: rest =>
    (DecodeRuneInString (b :: rest)).1 :: rangeRunes ((DecodeRuneInString (b :: rest)).2 - 1) rest

/-- The runes of a string, as `for _, r := range s` yields them. -/
def runes (s : Bytes) : List Nat := rangeRunes 0 s

/-- The loop of `utf8.ValidString`: it fails at the first position where the
bytes are no well-formed encoding, the positions where `DecodeRuneInString`
reports `(RuneError, 1)`, and otherwise advances by the width. -/
def validFrom : Nat → Bytes → Bool
  | _, [] => true
  | skip + 1, _ :: rest => validFrom skip rest
  | 0, b :: rest =>
    if DecodeRuneInString (b :: rest) = (RuneError, 1) then false
    else validFrom ((DecodeRuneInString (b :: rest)).2 - 1) rest

/-- Go `utf8.ValidString`. -/
def ValidString (s : Bytes) : Bool := validFrom 0 s

/-- Go `utf8.AppendRune` (the encoding `string([]rune)` uses for each rune):
surrogates and values above U+10FFFF are encoded as `RuneError`. -/
def encodeRune (r : Nat) : Bytes :=
  if r ≤ 0x7F then [byte r]
  else if r ≤ 0x7FF then [byte (0xC0 + r / 64), byte (0x80 + r % 64)]
  else if r > 0x10FFFF ∨ (0xD800 ≤ r ∧ r ≤ 0xDFFF) then [byte 0xEF, byte 0xBF, byte 0xBD]
  else if r ≤ 0xFFFF then
    [byte (0xE0 + r / 4096), byte (0x80 + r / 64 % 64), byte (0x80 + r % 64)]
  else
    [byte (0xF0 + r / 262144), byte (0x80 + r / 4096 % 64), byte (0x80 + r / 64 % 64),
      byte (0x80 + r % 64)]

/-- Go `string(v)` for a rune slice `v`. -/
def encodeRunes : List Nat → Bytes
  | [] => []
  | r :: rs => encodeRune r ++ encodeRunes rs

/-- The bytes of a Go string literal. -/
def lit (s : String) : Bytes := encodeRunes (s.data.map Char.toNat)

/-- A Unicode scalar value: at most U+10FFFF and no surrogate. -/
def ValidRune (r : Nat) : Prop := r ≤ 0x10FFFF ∧ ¬ (0xD800 ≤ r ∧ r ≤ 0xDFFF)

/-- Go `strings.Contains` on the bytes of two strings. -/
def ContainsBytes (s sub : Bytes) : Bool := decide (sub <:+: s)

/-! ## Text normalisation -/

/-- The two decoders of `golang.org/x/text/encoding/simplifiedchinese` that
`ensureUTF8` tries, as `transform.Bytes` runs them: the decoded bytes, or
`none` when `transform.Bytes` returns an error.  The package is not part of the
repository; the decoders are parameters of the model. -/
structure Decoders where
  gbk : Bytes → Option Bytes
  gb18030 : Bytes → Option Bytes

/-- Lines 385 to 391 of `ensureUTF8`: the runes of `s` other than `RuneError`,
encoded again. -/
def stripInvalid (s : Bytes) : Bytes :=
  encodeRunes ((runes s).filter (fun r => r ≠ RuneError))

/-- Go `ensureUTF8`. -/
def ensureUTF8 (dec : Decoders) (s : Bytes) : Bytes :=
  if ValidString s then s
  else
    match (dec.gbk s).filter ValidString with
    | some utf8Bytes => utf8Bytes
    | none =>
      match (dec.gb18030 s).filter ValidString with
      | some utf8Bytes => utf8Bytes
      | none => stripInvalid s

/-- What the GBK and the GB18030 decoder of `golang.org/x/text` answer on a
string of ASCII bytes and bytes `0xFF`: they return no error, an ASCII byte is
decoded as itself, and `0xFF`, which starts no sequence of either encoding, is
decoded as U+FFFD.  The bytes `0x80` to `0xFE` go through the tables of the
package, which the repository does not hold; this stand-in writes U+FFFD for
them as well, and below the decoders are consulted on no string that holds
one. -/
def decodeReplacing (s : Bytes) : Option Bytes :=
  some (s.flatMap fun b => if b.val < 0x80 then [b] else encodeRune RuneError)

/-- Decoders that answer as `decodeReplacing` says. -/
def replaceFF : Decoders := { gbk := decodeReplacing, gb18030 := decodeReplacing }

/-! ## Subprocesses -/

/-- A Go `error` value, by the way it was built. -/
inductive GoError where
  /-- An error of the standard library, with its message: of package `os/exec`
  (the process could not be started, exited with a non-zero status, could not
  be killed), of `os.Open`, of `bufio.Scanner`. -/
  | exec (msg : String)
  /-- Line 337: the version-conflict error of `ExecuteCommand`, built from the
  error of the subprocess. -/
  | versionConflict (cause : GoError)
  /-- Line 724: the error of `TryEnableRoot`, built from the error of the
  subprocess and its normalised output. -/
  | enableRootFailed (cause : GoError) (output : Bytes)
  /-- Line 419: the command timed out and could not be killed. -/
  | killFailed (cause : GoError)
  /-- Line 421: the command timed out. -/
  | timedOut
  /-- Line 56 of `batch.go`: the error of `ImportTargetsFromFile` built from the
  error of the scanner. -/
  | readFailed (cause : GoError)
  deriving DecidableEq

/-- A subprocess as `exec.Command(path, args...)` describes it. -/
structure Invocation where
  path : String
  args : List String
  deriving DecidableEq

/-- What a subprocess that ran to its end did: the chunks it wrote, in order,
each to standard error (`true`) or to standard output (`false`), and the error
of `Wait` (`none` for exit status 0). -/
structure ProcResult where
  writes : List (Bool × Bytes)
  err : Option GoError
  deriving DecidableEq

/-- What `CombinedOutput` collects: both streams in one buffer, in the order
written. -/
def ProcResult.combined (r : ProcResult) : Bytes :=
  r.writes.foldr (fun w acc => w.2 ++ acc) []

/-- What a buffer set as `cmd.Stdout` collects. -/
def ProcResult.stdout (r : ProcResult) : Bytes :=
  r.writes.foldr (fun w acc => if w.1 then acc else w.2 ++ acc) []

/-- What a buffer set as `cmd.Stderr` collects. -/
def ProcResult.stderr (r : ProcResult) : Bytes :=
  r.writes.foldr (fun w acc => if w.1 then w.2 ++ acc else acc) []

/-- The ways the `select` of `ExecuteCommandWithTimeout` can go. -/
inductive TimedRun where
  /-- Line 407: `cmd.Start()` returned an error. -/
  | startFailed (err : GoError)
  /-- Line 417: the timer fired first; `killErr` is what `Process.Kill` returned. -/
  | timedOut (killErr : Option GoError)
  /-- Line 422: `cmd.Wait()` returned before the timer fired. -/
  | finished (r : ProcResult)

/-- The device bridge, the external `adb` binary: what a subprocess does, given
the subprocesses run before it.  `run` is a subprocess run to its end
(`CombinedOutput`), `runTimed` one raced against a timer of the given
duration. -/
structure Bridge where
  run : List Invocation → Invocation → ProcResult
  runTimed : List Invocation → Invocation → Int → TimedRun

/-! ## The session client -/

/-- Go `ADBManager.SetBusyboxEnabled`. -/
def SetBusyboxEnabled (m : ADBManager) (enabled : Bool) : ADBManager :=
  { m with useBusybox := enabled }

/-- Go `ADBManager.IsBusyboxEnabled`. -/
def IsBusyboxEnabled (m : ADBManager) : Bool := m.useBusybox

/-- Go `ADBManager.wrapCommandWithBusybox`. -/
def wrapCommandWithBusybox (m : ADBManager) (command : String) : String :=
  if m.useBusybox && !HasPrefix command "busybox " then "busybox " ++ command else command

/-- The subprocess `adb [-s serial] shell command` of lines 322 to 326 (and 397
to 401). -/
def shellInvocation (m : ADBManager) (serial command : String) : Invocation :=
  if serial ≠ "" then { path := m.adbPath, args := ["-s", serial, "shell", command] }
  else { path := m.adbPath, args := ["shell", command] }

/-- The subprocess `adb [-s serial] root` of lines 716 to 720. -/
def rootInvocation (m : ADBManager) (serial : String) : Invocation :=
  if serial ≠ "" then { path := m.adbPath, args := ["-s", serial, "root"] }
  else { path := m.adbPath, args := ["root"] }

/-- What a command execution returns, and the subprocesses run so far. -/
structure ExecResult where
  output : Bytes
  err : Option GoError
  log : List Invocation
  deriving DecidableEq

/-- Go `ADBManager.ExecuteCommand`; `log` holds the subprocesses run before the
call. -/
def ExecuteCommand (dec : Decoders) (br : Bridge) (m : ADBManager) (log : List Invocation)
    (serial command : String) : ExecResult :=
  let wrappedCommand := wrapCommandWithBusybox m command
  let cmd := shellInvocation m serial wrappedCommand
  let r := br.run log cmd
  match r.err with
  | some err =>
    let outputStr := ensureUTF8 dec r.combined
    if ContainsBytes outputStr (lit "doesn't match") then
      { output := [], err := some (.versionConflict err), log := log ++ [cmd] }
    else if ContainsBytes outputStr (lit "device not found") ||
        ContainsBytes outputStr (lit "unauthorized") ||
        ContainsBytes outputStr (lit "offline") then
      { output := outputStr, err := some err, log := log ++ [cmd] }
    else
      { output := outputStr, err := some err, log := log ++ [cmd] }
  | none => { output := ensureUTF8 dec r.combined, err := none, log := log ++ [cmd] }

/-- Go `ADBManager.ExecuteCommandWithTimeout`. -/
def ExecuteCommandWithTimeout (br : Bridge) (m : ADBManager) (log : List Invocation)
    (serial command : String) (timeout : Int) : ExecResult :=
  let cmd := shellInvocation m serial command
  match br.runTimed log cmd timeout with
  | .startFailed err => { output := [], err := some err, log := log ++ [cmd] }
  | .timedOut (some killErr) =>
    { output := [], err := some (.killFailed killErr), log := log ++ [cmd] }
  | .timedOut none => { output := [], err := some .timedOut, log := log ++ [cmd] }
  | .finished r =>
    match r.err with
    | some err => { output := r.stderr, err := some err, log := log ++ [cmd] }
    | none => { output := r.stdout, err := none, log := log ++ [cmd] }

/-- Go `ADBManager.TryEnableRoot`: the returned error and the subprocesses run
so far. -/
def TryEnableRoot (dec : Decoders) (br : Bridge) (m : ADBManager) (log : List Invocation)
    (serial : String) : Option GoError × List Invocation :=
  let cmd := rootInvocation m serial
  let r := br.run log cmd
  match r.err with
  | some err => (some (.enableRootFailed err (ensureUTF8 dec r.combined)), log ++ [cmd])
  | none => (none, log ++ [cmd])

/-- Go `ADBManager.ExecuteAsRoot`. -/
def ExecuteAsRoot (dec : Decoders) (br : Bridge) (m : ADBManager) (log : List Invocation)
    (serial command : String) : ExecResult :=
  let rootCmd := "su -c \"" ++ command ++ "\""
  let r1 := ExecuteCommand dec br m log serial rootCmd
  match r1.err with
  | some _ =>
    match TryEnableRoot dec br m r1.log serial with
    | (none, log2) => ExecuteCommand dec br m log2 serial command
    | (some _, log2) => { r1 with log := log2 }
  | none => r1

/-- A bridge on which every subprocess does the same thing. -/
def constBridge (r : ProcResult) : Bridge :=
  { run := fun _ _ => r, runTimed := fun _ _ _ => .finished r }

/-- A subprocess that fails with the version warning of `adb` on standard
error. -/
def versionWarning : ProcResult :=
  { writes := [(true, lit "adb server version (39) doesn't match this client (41)\n")]
    err := some (.exec "exit status 1") }

/-- A subprocess that prints a listing and exits with status 0. -/
def listing : ProcResult := { writes := [(false, lit "data\nsdcard\n")], err := none }

/-- A bridge on which `su` is missing and `adb root` works: a subprocess with
an argument that starts with `su ` fails, every other subprocess succeeds. -/
def noSuBridge : Bridge :=
  { run := fun _ cmd =>
      if cmd.args.any (fun a => HasPrefix a "su ") then
        { writes := [(true, lit "/system/bin/sh: su: not found\n")],
          err := some (.exec "exit status 127") }
      else if "shell" ∈ cmd.args then listing
      else { writes := [], err := none }
    runTimed := fun _ _ _ => .timedOut none }

/-! ## Packages `strings` and `bufio` on bytes -/

/-- Go `unicode.IsSpace` on a rune value. -/
def IsSpace (r : Nat) : Bool :=
  r == 0x09 || r == 0x0A || r == 0x0B || r == 0x0C || r == 0x0D || r == 0x20 ||
  r == 0x85 || r == 0xA0 || r == 0x1680 || (0x2000 ≤ r && r ≤ 0x200A) ||
  r == 0x2028 || r == 0x2029 || r == 0x202F || r == 0x205F || r == 0x3000

/-- The table `asciiSpace` of package `strings`: `\t \n \v \f \r` and space. -/
def asciiSpace (b : Byte) : Bool :=
  b.val == 0x09 || b.val == 0x0A || b.val == 0x0B || b.val == 0x0C || b.val == 0x0D ||
  b.val == 0x20

/-- Go `utf8.RuneStart`: the byte is no continuation byte (`b & 0xC0 != 0x80`). -/
def RuneStart (b : Byte) : Bool := b.val / 64 != 2

/-- The backward search of `DecodeLastRuneInString` for the start of the last
rune: `before` holds the bytes before the ones in `acc`, last byte first, and
`steps` is the number of bytes the search may still step back (`UTFMax - 1` at
first).  The result is the candidate encoding, from the start byte found to the
end of the string. -/
def lastRuneCandidate : List Byte → Bytes → Nat → Option Bytes
  | _, _, 0 => none
  | [], _, _ + 1 => none
  | b :: before, acc, steps + 1 =>
    if RuneStart b then some (b :: acc) else lastRuneCandidate before (b :: acc) steps

/-- Go `utf8.DecodeLastRuneInString`: the last rune of `s` and its width. -/
def DecodeLastRuneInString (s : Bytes) : Nat × Nat :=
  match s.reverse with
  | [] => (RuneError, 0)
  | last :: before =>
    if last.val < 0x80 then (last.val, 1)
    else
      match lastRuneCandidate before [last] 3 with
      | some cand =>
        if (DecodeRuneInString cand).2 = cand.length then DecodeRuneInString cand
        else (RuneError, 1)
      | none => (RuneError, 1)

/-- Go `strings.TrimLeftFunc(s, unicode.IsSpace)`: the string from its first
rune that is no space (`skip` as in `rangeRunes`). -/
def trimLeftSpace : Nat → Bytes → Bytes
  | _, [] => []
  | skip + 1, _ :: rest => trimLeftSpace skip rest
  | 0, b :: rest =>
    if IsSpace (DecodeRuneInString (b :: rest)).1 then
      trimLeftSpace ((DecodeRuneInString (b :: rest)).2 - 1) rest
    else b :: rest

/-- The loop of `lastIndexFunc(s, unicode.IsSpace, false)`: the index at which
the last rune of `s[0:i]` that is no space starts, `none` for `-1`.  `fuel`
bounds the number of iterations (each one lowers `i`). -/
def lastIndexNonSpace (s : Bytes) : Nat → Nat → Option Nat
  | _, 0 => none
  | i, fuel + 1 =>
    if i = 0 then none
    else if IsSpace (DecodeLastRuneInString (s.take i)).1 then
      lastIndexNonSpace s (i - (DecodeLastRuneInString (s.take i)).2) fuel
    else some (i - (DecodeLastRuneInString (s.take i)).2)

/-- Go `strings.TrimRightFunc(s, unicode.IsSpace)`. -/
def trimRightSpace (s : Bytes) : Bytes :=
  match lastIndexNonSpace s s.length s.length with
  | none => []
  | some i =>
    match s.drop i with
    | [] => s.take (i + 1)
    | b :: rest =>
      if 0x80 ≤ b.val then s.take (i + (DecodeRuneInString (b :: rest)).2) else s.take (i + 1)

/-- Go `strings.TrimSpace` on the bytes of a string: the fast path over ASCII
from both ends, and the rune-wise functions from the first byte that is not
ASCII. -/
def TrimSpaceBytes (s : Bytes) : Bytes :=
  match s.dropWhile (fun b => decide (b.val < 0x80) && asciiSpace b) with
  | [] => []
  | c :: rest =>
    if 0x80 ≤ c.val then trimRightSpace (trimLeftSpace 0 (c :: rest))
    else
      match (c :: rest).reverse.dropWhile (fun b => decide (b.val < 0x80) && asciiSpace b) with
      | [] => []
      | d :: before =>
        if 0x80 ≤ d.val then trimRightSpace (d :: before).reverse else (d :: before).reverse

/-- Go `strings.HasPrefix` on bytes. -/
def HasPrefixBytes (s pre : Bytes) : Bool := pre.isPrefixOf s

/-- Worker of `SplitBytes`: `acc` holds the current piece, reversed. -/
def splitBytesAux (sep : Byte) : Bytes → Bytes → List Bytes
  | [], acc => [acc.reverse]
  | b :: rest, acc =>
    if b = sep then acc.reverse :: splitBytesAux sep rest [] else splitBytesAux sep rest (b :: acc)

/-- Go `strings.Split(s, sep)` for a separator of one byte. -/
def SplitBytes (s : Bytes) (sep : Byte) : List Bytes := splitBytesAux sep s []

/-- Go `bufio.MaxScanTokenSize`, the size of the largest buffer of a
`bufio.Scanner`. -/
def maxScanTokenSize : Nat := 64 * 1024

/-- The helper `dropCR` of `bufio.ScanLines`: a final `\r` is dropped. -/
def dropCR (data : Bytes) : Bytes :=
  match data.reverse with
  | [] => data
  | c :: before => if c.val = 0x0D then before.reverse else data

/-- The loop `for scanner.Scan() { ... scanner.Text() ... }` of a
`bufio.Scanner` with the split function `ScanLines` over a file of the given
bytes: the lines it yields (without the line feed and without a final `\r`;
no line for the empty rest after the last line feed), and whether it stopped
with `ErrTooLong`, which it does at the first line of `maxScanTokenSize` bytes
or more, since such a line and its end do not fit into the buffer.  `acc` holds
the bytes of the current line, reversed. -/
def scanLinesAux : Bytes → Bytes → List Bytes × Bool
  | [], acc =>
    if acc.isEmpty then ([], false)
    else if maxScanTokenSize ≤ acc.length then ([], true)
    else ([dropCR acc.reverse], false)
  | b :: rest, acc =>
    if b.val = 0x0A then
      if maxScanTokenSize ≤ acc.length then ([], true)
      else (dropCR acc.reverse :: (scanLinesAux rest []).1, (scanLinesAux rest []).2)
    else scanLinesAux rest (b :: acc)

/-- The lines of a file: the pieces between line feeds, without an empty piece
after the last line feed.  `acc` holds the bytes of the current line,
reversed. -/
def rawLinesAux : Bytes → Bytes → List Bytes
  | [], acc => if acc.isEmpty then [] else [acc.reverse]
  | b :: rest, acc =>
    if b.val = 0x0A then acc.reverse :: rawLinesAux rest [] else rawLinesAux rest (b :: acc)

/-- The lines of a file, each without a final `\r`. -/
def fileLines (content : Bytes) : List Bytes := (rawLinesAux content []).map dropCR

/-! ## The batch manager: the target list -/

/-- The body of the loop of `ImportTargetsFromFile`, lines 40 to 52 of
`batch.go`, for one line of the file. -/
def importLine (targets : List Bytes) (text : Bytes) : List Bytes :=
  let line := TrimSpaceBytes text
  if line = [] ∨ HasPrefixBytes line (lit "#") then targets
  else if ContainsBytes line (lit ":") then
    if (SplitBytes line (byte 0x3A)).length = 2 then targets ++ [line] else targets
  else targets

/-- Go `BatchManager.ImportTargetsFromFile` on a file that could be opened and
read, given the target list and the bytes of the file: the target list
afterwards and the returned error. -/
def ImportTargetsFromFile (targets : List Bytes) (content : Bytes) :
    List Bytes × Option GoError :=
  ((scanLinesAux content []).1.foldl importLine targets,
    if (scanLinesAux content []).2 then
      some (.readFailed (.exec "bufio.Scanner: token too long"))
    else none)

/-- The shape of a line that `ImportTargetsFromFile` keeps: not empty, not
starting with `#`, with exactly one `:`. -/
def isTargetLine (line : Bytes) : Bool :=
  decide (line ≠ []) && !HasPrefixBytes line (lit "#") && decide (line.count (byte 0x3A) = 1)

/-! ## The batch manager: fan-out and delivery

A batch operation starts one goroutine per entry of its target list.  A
goroutine gets its target as the argument of its function literal
(`go func(t string) { ... }(target)`) and keeps what the operation returns in
local variables; what it hands on is built from these alone.  The outcome of
the operation on an entry comes from the bridge; here every entry carries it,
as the value that is handed to the callback for the entry (its *result*).  The goroutines run in any interleaving: a run of the operation is
a list of events, each the next step of one goroutine, and `chanStep` and
`workStep` say what a step does and when it can be taken. -/

/-- Go `batch.BatchConnectResult`. -/
structure BatchConnectResult where
  Target : String
  Success : Bool
  Error : Option GoError
  deriving DecidableEq

/-- Go `batch.CommandResult`. -/
structure CommandResult where
  Device : String
  Output : Bytes
  Error : Option GoError
  deriving DecidableEq

/-- The goroutines of `BatchConnect` and `BatchExecuteCommand`. -/
structure ChanState (α : Type) where
  /-- Entries the loop of the caller has not reached yet. -/
  unspawned : List α
  /-- Goroutines started that have not sent their result yet. -/
  running : List α
  /-- The buffer of `resultChan`, oldest result first. -/
  chan : List α
  /-- `close(resultChan)` was executed. -/
  closed : Bool
  /-- The result with which the delivery goroutine is inside `callback`. -/
  inCallback : Option α
  /-- The results whose `callback` call has returned, in order. -/
  delivered : List α
  /-- The delivery goroutine has left its `range` loop. -/
  consumerDone : Bool
  /-- The batch function has returned to its caller. -/
  returned : Bool

/-- The steps of the goroutines of `BatchConnect` and `BatchExecuteCommand`. -/
inductive ChanEvent where
  /-- The caller: `wg.Add(1)` and `go func(t)` for the next entry (lines 135 to
  147, 177 to 189). -/
  | spawn
  /-- The goroutine at this position among the running ones: the operation
  ends and its result is sent to `resultChan` (lines 140 to 145, 182 to 187). -/
  | send (k : Nat)
  /-- The caller: `wg.Wait()` is passed and `close(resultChan)` executed. -/
  | close
  /-- The delivery goroutine: the next result is received and `callback` is
  called with it (lines 127 to 129, 169 to 171). -/
  | recv
  /-- The delivery goroutine: the `callback` call returns. -/
  | callbackReturn
  /-- The delivery goroutine: the channel is closed and empty, the `range` loop
  ends. -/
  | consumerExit
  /-- The caller: the batch function returns. -/
  | ret
  deriving DecidableEq

/-- A batch operation that delivers through a channel: `waits` says whether the
caller waits for the delivery goroutine before it returns (`callbackWg.Wait()`,
line 152: `BatchConnect` does, `BatchExecuteCommand` does not), `hasCallback`
whether `callback != nil`, `jobs` are the results of the entries, in the order
of the target list. -/
structure ChanMachine (α : Type) where
  waits : Bool
  hasCallback : Bool
  jobs : List α

/-- The state in which the batch function starts. -/
def ChanMachine.init {α : Type} (M : ChanMachine α) : ChanState α :=
  { unspawned := M.jobs, running := [], chan := [], closed := false, inCallback := none,
    delivered := [], consumerDone := false, returned := false }

/-- One step: the state after the event, or `none` when the event cannot be
taken in the state.  The channel has room for `len(targets)` results
(`make(chan ..., len(targets))`); a send needs room. -/
def chanStep {α : Type} (M : ChanMachine α) (s : ChanState α) : ChanEvent → Option (ChanState α)
  | .spawn =>
    match s.unspawned with
    | j :: js => some { s with unspawned := js, running := s.running ++ [j] }
    | [] => none
  | .send k =>
    match s.running[k]? with
    | some j =>
      if s.chan.length < M.jobs.length then
        some { s with running := s.running.eraseIdx k, chan := s.chan ++ [j] }
      else none
    | none => none
  | .close =>
    if s.unspawned.isEmpty && s.running.isEmpty && !s.closed then some { s with closed := true }
    else none
  | .recv =>
    if s.consumerDone || s.inCallback.isSome then none
    else
      match s.chan with
      | j :: js =>
        if M.hasCallback then some { s with chan := js, inCallback := some j }
        else some { s with chan := js }
      | [] => none
  | .callbackReturn =>
    match s.inCallback with
    | some j => some { s with inCallback := none, delivered := s.delivered ++ [j] }
    | none => none
  | .consumerExit =>
    if s.closed && s.chan.isEmpty && s.inCallback.isNone && !s.consumerDone then
      some { s with consumerDone := true }
    else none
  | .ret =>
    if s.closed && !s.returned && (!M.waits || s.consumerDone) then
      some { s with returned := true }
    else none

/-- The state after a list of events, `none` when one of them cannot be taken. -/
def chanRun {α : Type} (M : ChanMachine α) : ChanState α → List ChanEvent → Option (ChanState α)
  | s, [] => some s
  | s, e :: es =>
    match chanStep M s e with
    | some s1 => chanRun M s1 es
    | none => none

/-- No goroutine can take a step. -/
def ChanState.Terminal {α : Type} (M : ChanMachine α) (s : ChanState α) : Prop :=
  ∀ e, chanStep M s e = none

/-- The goroutines of `BatchInstallApp`, `BatchUninstallApp`, `BatchPushFile`
and `BatchScreenshot`, which call `callback` themselves. -/
structure WorkState (α : Type) where
  /-- Entries the loop of the caller has not reached yet. -/
  unspawned : List α
  /-- Goroutines started whose operation has not ended yet. -/
  running : List α
  /-- Goroutines inside `callback`, each with its result. -/
  inCallback : List α
  /-- The results whose `callback` call has returned, in order. -/
  delivered : List α
  /-- The batch function has returned to its caller. -/
  returned : Bool

/-- The steps of the goroutines of the four operations without a channel. -/
inductive WorkEvent where
  /-- The caller: `wg.Add(1)` and `go func(dev)` for the next entry. -/
  | spawn
  /-- The goroutine at this position among the running ones: the operation
  ends and `callback` is called with its result (lines 204 to 207). -/
  | call (k : Nat)
  /-- The goroutine at this position among those inside `callback`: the call
  returns and the goroutine ends (`wg.Done()`). -/
  | callbackReturn (k : Nat)
  /-- The caller: `wg.Wait()` is passed and the batch function returns. -/
  | ret
  deriving DecidableEq

/-- A batch operation whose goroutines call `callback` themselves. -/
structure WorkMachine (α : Type) where
  hasCallback : Bool
  jobs : List α

/-- The state in which the batch function starts. -/
def WorkMachine.init {α : Type} (M : WorkMachine α) : WorkState α :=
  { unspawned := M.jobs, running := [], inCallback := [], delivered := [], returned := false }

/-- One step of the goroutines of an operation without a channel. -/
def workStep {α : Type} (M : WorkMachine α) (s : WorkState α) : WorkEvent → Option (WorkState α)
  | .spawn =>
    match s.unspawned with
    | j :: js => some { s with unspawned := js, running := s.running ++ [j] }
    | [] => none
  | .call k =>
    match s.running[k]? with
    | some j =>
      if M.hasCallback then
        some { s with running := s.running.eraseIdx k, inCallback := s.inCallback ++ [j] }
      else some { s with running := s.running.eraseIdx k }
    | none => none
  | .callbackReturn k =>
    match s.inCallback[k]? with
    | some j =>
      some { s with inCallback := s.inCallback.eraseIdx k, delivered := s.delivered ++ [j] }
    | none => none
  | .ret =>
    if s.unspawned.isEmpty && s.running.isEmpty && s.inCallback.isEmpty && !s.returned then
      some { s with returned := true }
    else none

/-- The state after a list of events, `none` when one of them cannot be taken. -/
def workRun {α : Type} (M : WorkMachine α) : WorkState α → List WorkEvent → Option (WorkState α)
  | s, [] => some s
  | s, e :: es =>
    match workStep M s e with
    | some s1 => workRun M s1 es
    | none => none

/-- No goroutine can take a step. -/
def WorkState.Terminal {α : Type} (M : WorkMachine α) (s : WorkState α) : Prop :=
  ∀ e, workStep M s e = none

/-- Go `BatchManager.BatchConnect` on a target list whose entries carry the
error `Connect` returns for them. -/
def BatchConnect (ops : List (String × Option GoError)) (hasCallback : Bool) :
    ChanMachine BatchConnectResult :=
  { waits := true, hasCallback := hasCallback
    jobs := ops.map fun o => { Target := o.1, Success := o.2.isNone, Error := o.2 } }

/-- Go `BatchManager.BatchExecuteCommand` on a device list whose entries carry
the output and the error `ExecuteCommand` returns for them. -/
def BatchExecuteCommand (ops : List (String × Bytes × Option GoError)) (hasCallback : Bool) :
    ChanMachine CommandResult :=
  { waits := false, hasCallback := hasCallback
    jobs := ops.map fun o => { Device := o.1, Output := o.2.1, Error := o.2.2 } }

/-- Go `BatchManager.BatchInstallApp` on a device list whose entries carry the
error `InstallApp` returns for them; the callback gets `(dev, err)`. -/
def BatchInstallApp (ops : List (String × Option GoError)) (hasCallback : Bool) :
    WorkMachine (String × Option GoError) :=
  { hasCallback := hasCallback, jobs := ops }

/-- Go `BatchManager.BatchUninstallApp`, in the same way. -/
def BatchUninstallApp (ops : List (String × Option GoError)) (hasCallback : Bool) :
    WorkMachine (String × Option GoError) :=
  { hasCallback := hasCallback, jobs := ops }

/-- Go `BatchManager.BatchPushFile`, in the same way. -/
def BatchPushFile (ops : List (String × Option GoError)) (hasCallback : Bool) :
    WorkMachine (String × Option GoError) :=
  { hasCallback := hasCallback, jobs := ops }

/-- The file name of line 262 of `batch.go`:
`outputDir/<dev with every ':' replaced by '_'>_screenshot.png`. -/
def screenshotPath (outputDir dev : String) : String :=
  outputDir ++ "/" ++ String.mk (dev.data.map fun c => if c = ':' then '_' else c) ++
    "_screenshot.png"

/-- Go `BatchManager.BatchScreenshot` on a device list whose entries carry the
error `Screenshot` returns for them; the callback gets `(dev, filename, err)`. -/
def BatchScreenshot (ops : List (String × Option GoError)) (outputDir : String)
    (hasCallback : Bool) : WorkMachine (String × String × Option GoError) :=
  { hasCallback := hasCallback
    jobs := ops.map fun o => (o.1, screenshotPath outputDir o.1, o.2) }

/-- A batch operation through a channel delivers the results `expected`, each
once.  Along every run the callbacks made so far, the one that is running and
those that have returned, are among `expected`, none more often than it occurs
there, and the run has at most `4 * N + 3` steps, `N` the length of `expected`;
when no goroutine can take a step any more no callback is running and the
callbacks that have returned are `expected`, in some order; and every run can
be continued until no goroutine can take a step. -/
def ChanMachine.Delivers {α : Type} (M : ChanMachine α) (expected : List α) : Prop :=
  ∀ (events : List ChanEvent) (s : ChanState α), chanRun M M.init events = some s →
    (s.inCallback.toList ++ s.delivered).Subperm expected ∧
    events.length ≤ 4 * expected.length + 3 ∧
    (s.Terminal M → s.delivered.Perm expected ∧ s.inCallback = none) ∧
    ∃ more t, chanRun M s more = some t ∧ t.Terminal M

/-- The same for a batch operation whose goroutines call the callback
themselves; a run has at most `3 * N + 1` steps. -/
def WorkMachine.Delivers {α : Type} (M : WorkMachine α) (expected : List α) : Prop :=
  ∀ (events : List WorkEvent) (s : WorkState α), workRun M M.init events = some s →
    (s.inCallback ++ s.delivered).Subperm expected ∧
    events.length ≤ 3 * expected.length + 1 ∧
    (s.Terminal M → s.delivered.Perm expected ∧ s.inCallback = []) ∧
    ∃ more t, workRun M s more = some t ∧ t.Terminal M

/-- What holds in every state of a run of an operation through a channel with a
callback: every entry is in exactly one place (not started, running, in the
channel, in its callback, delivered), and the flags were set in order. -/
structure ChanInv {α : Type} (M : ChanMachine α) (s : ChanState α) : Prop where
  conserve : (↑s.unspawned + ↑s.running + ↑s.chan + ↑s.inCallback.toList + ↑s.delivered :
    Multiset α) = ↑M.jobs
  closed_imp : s.closed = true → s.unspawned = [] ∧ s.running = []
  done_imp : s.consumerDone = true → s.closed = true ∧ s.chan = [] ∧ s.inCallback = none
  ret_imp : s.returned = true → s.closed = true ∧ (M.waits = true → s.consumerDone = true)

/-- The number of steps the goroutines of an operation through a channel can
still take, at most. -/
def chanMeasure {α : Type} (s : ChanState α) : Nat :=
  4 * s.unspawned.length + 3 * s.running.length + 2 * s.chan.length +
    s.inCallback.toList.length + (if s.closed then 0 else 1) +
    (if s.consumerDone then 0 else 1) + (if s.returned then 0 else 1)

/-- What holds in every state of a run of an operation whose goroutines call
the callback themselves. -/
structure WorkInv {α : Type} (M : WorkMachine α) (s : WorkState α) : Prop where
  conserve : (↑s.unspawned + ↑s.running + ↑s.inCallback + ↑s.delivered : Multiset α) = ↑M.jobs
  ret_imp : s.returned = true → s.unspawned = [] ∧ s.running = [] ∧ s.inCallback = []

/-- The number of steps the goroutines of such an operation can still take, at
most. -/
def workMeasure {α : Type} (s : WorkState α) : Nat :=
  3 * s.unspawned.length + 2 * s.running.length + s.inCallback.length +
    (if s.returned then 0 else 1)

/-! ## The per-line parser as the specification words it -/

/-- The device record a line makes the parse loop store, if any: serial,
status and model. -/
def LineAction.device : LineAction → Option (String × String × String)
  | .record serial status model => some (serial, status, model)
  | _ => none

/-- The model of a line as the specification words it: the text after `model:`
in the first token that starts with `model:`, empty when there is none. -/
def specModel (tokens : List String) : String :=
  match tokens.find? (fun t => HasPrefix t "model:") with
  | some t => ⟨t.data.drop "model:".length⟩
  | none => ""

/-- The device of a line as the specification words it: none when the trimmed
line is empty, starts with the banner, has fewer than two tokens, has first
token `*` or `adb`, or has a second token that starts with `[`; otherwise the
first token, the second token and the model. -/
def specLineDevice (rawLine : String) : Option (String × String × String) :=
  match Fields (TrimSpace rawLine) with
  | p0 :: p1 :: rest =>
    if TrimSpace rawLine = "" ∨ HasPrefix (TrimSpace rawLine) "List of devices" ∨
        p0 = "*" ∨ p0 = "adb" ∨ HasPrefix p1 "[" then none
    else some (p0, p1, specModel rest)
  | _ => none

/-! ## The batch manager: adding and exporting targets -/

/-- The loop of lines 68 to 72 of `batch.go`: whether an element of the target
list equals `target`. -/
def targetExists (target : Bytes) : List Bytes → Bool
  | [] => false
  | t :: rest => if t = target then true else targetExists target rest

/-- Go `BatchManager.AddTarget`: the target list afterwards. -/
def AddTarget (targets : List Bytes) (target : Bytes) : List Bytes :=
  if targetExists target targets then targets else targets ++ [target]

/-- Go `BatchManager.ExportTargetsToFile` when the file could be created and
written: the bytes of the file, every target followed by a line feed. -/
def ExportTargetsToFile : List Bytes → Bytes
  | [] => []
  | target :: rest => target ++ [byte 0x0A] ++ ExportTargetsToFile rest

/-! ## Samples for the order of a snapshot -/

/-- A registry entry with the given serial. -/
def deviceNamed (serial : String) : Device :=
  { Serial := serial, Status := "device", Model := "", LastSeen := 0, FailedChecks := 0 }

/-- The registry with the entries `a` and `b`, which a loop over the map visits
in the order `a`, `b`. -/
def registryAB : ADBManager :=
  { NewADBManager with
    managedDevices := ((∅ : DeviceMap).insert "b" (deviceNamed "b")).insert "a" (deviceNamed "a") }

/-- The same registry, which a loop over the map visits in the order `b`,
`a`. -/
def registryBA : ADBManager :=
  { NewADBManager with
    managedDevices := ((∅ : DeviceMap).insert "a" (deviceNamed "a")).insert "b" (deviceNamed "b") }

/-- A discovery output without the version-conflict text and without a line
that takes the sentinel branch of lines 121 to 133. -/
def CleanOutput (o : PollOutcome) : Prop :=
  Contains o.outputStr "doesn't match" = false ∧
  ∀ l ∈ SplitLines o.outputStr, parseLine l ≠ .sentinel

instance (o : PollOutcome) : Decidable (CleanOutput o) := by
  unfold CleanOutput
  infer_instance

/-- A manager whose registry holds an entry under the identifier `adb`, seen at
reading `5`. -/
def adbNamedManager : ADBManager :=
  { NewADBManager with
    managedDevices := AList.singleton "adb" ⟨"adb", "device", "X", 5, 0⟩ }

/-- A target of 65538 bytes: `h:` followed by 65536 times the letter `a`. -/
def longTarget : Bytes := lit "h:" ++ List.replicate 65536 (byte 0x61)

/-! # Theorems -/

/-! ## Lookups after a loop over a map -/

/-- A loop over the entries of a map whose iteration for `(s, d)` only touches
key `s`, and there maps the old lookup through `g s d`: the lookup of `k`
afterwards. -/
theorem lookup_foldl_local (step : DeviceMap → String → Device → DeviceMap)
    (g : String → Device → Option Device → Option Device)
    (hself : ∀ m s d, (step m s d).lookup s = g s d (m.lookup s))
    (hother : ∀ m s d k, k ≠ s → (step m s d).lookup k = m.lookup k)
    (l : List (Sigma fun _ : String => Device)) (hl : l.NodupKeys) (m : DeviceMap) (k : String) :
    (l.foldl (fun r a => step r a.1 a.2) m).lookup k =
      match l.dlookup k with
      | some d => g k d (m.lookup k)
      | none => m.lookup k := by
  induction l generalizing m with
  | nil => simp
  | cons e l ih =>
    obtain ⟨hnot, hl1⟩ := List.nodupKeys_cons.mp hl
    rw [List.foldl_cons, ih hl1]
    by_cases hk : k = e.1
    · subst hk
      have hnone : l.dlookup e.1 = none := List.dlookup_eq_none.mpr hnot
      rw [hnone, List.dlookup_cons_eq]
      exact hself m e.1 e.2
    · rw [List.dlookup_cons_ne _ _ hk, hother m e.1 e.2 k hk]

theorem lookup_updateStep_self (clk : Clock) (m : DeviceMap) (s : String) (d : Device) :
    (updateStep clk m s d).lookup s = some (updatedEntry clk s d (m.lookup s)) := by
  unfold updateStep
  cases h : m.lookup s <;> simp [updatedEntry]

theorem lookup_updateStep_other (clk : Clock) (m : DeviceMap) (s : String) (d : Device)
    (k : String) (hk : k ≠ s) : (updateStep clk m s d).lookup k = m.lookup k := by
  unfold updateStep
  cases h : m.lookup s <;> simp [AList.lookup_insert_ne hk]

/-- Lookup after the first phase. -/
theorem lookup_updateDiscovered (clk : Clock) (current managed : DeviceMap) (k : String) :
    (updateDiscovered clk current managed).lookup k =
      match current.lookup k with
      | some c => some (updatedEntry clk k c (managed.lookup k))
      | none => managed.lookup k := by
  unfold updateDiscovered AList.foldl
  rw [lookup_foldl_local (updateStep clk) (fun s d old => some (updatedEntry clk s d old))
    (lookup_updateStep_self clk) (lookup_updateStep_other clk) current.entries current.nodupKeys]
  rfl

theorem lookup_missStep_self (timeout now : Int) (current m : DeviceMap) (s : String)
    (d : Device) :
    (missStep timeout now current m s d).lookup s =
      if s ∈ current then m.lookup s
      else if shouldEvict timeout now (missed d) then none else some (missed d) := by
  unfold missStep
  by_cases hs : s ∈ current
  · simp [hs]
  · by_cases he : shouldEvict timeout now (missed d) = true
    · simp [hs, missed] at he ⊢
      simp [he]
    · simp [hs, missed] at he ⊢
      simp [he]

theorem lookup_missStep_other (timeout now : Int) (current m : DeviceMap) (s : String)
    (d : Device) (k : String) (hk : k ≠ s) :
    (missStep timeout now current m s d).lookup k = m.lookup k := by
  unfold missStep
  split
  · rfl
  · dsimp only
    split
    · exact AList.lookup_erase_ne hk
    · exact AList.lookup_insert_ne hk

/-- Lookup after the second phase. -/
theorem lookup_markMissing (timeout now : Int) (current managed : DeviceMap) (k : String) :
    (markMissing timeout now current managed).lookup k =
      match managed.lookup k with
      | some d =>
        if k ∈ current then some d
        else if shouldEvict timeout now (missed d) then none else some (missed d)
      | none => none := by
  unfold markMissing AList.foldl
  rw [lookup_foldl_local (missStep timeout now current)
    (fun s d old => if s ∈ current then old
      else if shouldEvict timeout now (missed d) then none else some (missed d))
    (lookup_missStep_self timeout now current) (lookup_missStep_other timeout now current)
    managed.entries managed.nodupKeys]
  show (match managed.lookup k with
    | some d => if k ∈ current then managed.lookup k
      else if shouldEvict timeout now (missed d) then none else some (missed d)
    | none => managed.lookup k) = _
  cases h : managed.lookup k <;> simp

/-- Lookup after both phases: a discovered serial holds its updated entry, any
other serial keeps its entry with one more miss unless the eviction test
removes it. -/
theorem lookup_reconcile (clk : Clock) (timeout : Int) (current managed : DeviceMap)
    (k : String) :
    (reconcile clk timeout current managed).lookup k =
      match current.lookup k with
      | some c => some (updatedEntry clk k c (managed.lookup k))
      | none =>
        match managed.lookup k with
        | some d => if shouldEvict timeout clk.now (missed d) then none else some (missed d)
        | none => none := by
  unfold reconcile
  rw [lookup_markMissing, lookup_updateDiscovered]
  cases hc : current.lookup k with
  | some c =>
    have hmem : k ∈ current := AList.lookup_isSome.mp (by simp [hc])
    simp [hmem]
  | none =>
    have hmem : k ∉ current := AList.lookup_eq_none.mp hc
    simp [hmem]

/-! ## The two outcomes of `ListDevices` -/

/-- A call that returns an error returns the manager it was given. -/
theorem ListDevices_mgr_of_err (m : ADBManager) (o : PollOutcome) (clk : Clock)
    (h : (ListDevices m o clk).err ≠ none) : (ListDevices m o clk).mgr = m := by
  unfold ListDevices at h ⊢
  by_cases hc : Contains o.outputStr "doesn't match" = true
  · rw [if_pos hc]
  · rw [if_neg hc] at h ⊢
    by_cases hf : o.failed = true
    · rw [if_pos hf]
    · rw [if_neg hf] at h ⊢
      cases hp : parseLines clk 0 (SplitLines o.outputStr) ∅ with
      | error e => rfl
      | ok cur =>
        rw [hp] at h
        exact absurd rfl h

/-- A call that returns no error has reconciled the registry with
`currentDevices`. -/
theorem ListDevices_mgr_of_ok (m : ADBManager) (o : PollOutcome) (clk : Clock)
    (h : (ListDevices m o clk).err = none) :
    (ListDevices m o clk).mgr.managedDevices =
      reconcile clk m.deviceOfflineTimeout (currentDevices o clk) m.managedDevices := by
  unfold ListDevices at h ⊢
  by_cases hc : Contains o.outputStr "doesn't match" = true
  · rw [if_pos hc] at h
    exact absurd h (by simp)
  · rw [if_neg hc] at h ⊢
    by_cases hf : o.failed = true
    · rw [if_pos hf] at h
      exact absurd h (by simp)
    · rw [if_neg hf] at h ⊢
      cases hp : parseLines clk 0 (SplitLines o.outputStr) ∅ with
      | error e =>
        rw [hp] at h
        exact absurd h (by simp)
      | ok cur => simp only [currentDevices, hp]

/-- Whether a call returns an error does not depend on the registry. -/
theorem ListDevices_err_indep (m m1 : ADBManager) (o : PollOutcome) (clk : Clock) :
    (ListDevices m o clk).err = (ListDevices m1 o clk).err := by
  unfold ListDevices
  split
  · rfl
  · split
    · rfl
    · split <;> rfl

/-! ## Machine arithmetic inside the invariant -/

theorem incrInt_eq (x : Int) (h0 : 0 ≤ x) (h3 : x < 3) : incrInt x = x + 1 := by
  unfold incrInt
  have h : (x + 1 + 2 ^ 63) % 2 ^ 64 = x + 1 + 2 ^ 63 :=
    Int.emod_eq_of_lt (by omega) (by omega)
  omega

theorem Sub_gt_iff (now last timeout : Int) (h0 : 0 ≤ timeout) (h1 : timeout < maxDuration) :
    Sub now last > timeout ↔ now - last > timeout := by
  unfold Sub
  unfold maxDuration at h1 ⊢
  unfold minDuration
  split_ifs <;> constructor <;> intro h <;> omega

theorem Inv_lookup {m : ADBManager} (h : Inv m) {s : String} {d : Device}
    (hd : m.managedDevices.lookup s = some d) :
    d.Serial = s ∧ 0 ≤ d.FailedChecks ∧ d.FailedChecks < 3 := by
  have hmem : (⟨s, d⟩ : Sigma fun _ : String => Device) ∈ m.managedDevices.entries :=
    AList.mem_lookup_iff.mp (by simp [hd])
  exact h.2.2 _ hmem

theorem Inv_of_lookup {m : ADBManager} (h0 : 0 ≤ m.deviceOfflineTimeout)
    (h1 : m.deviceOfflineTimeout < maxDuration)
    (h : ∀ s d, m.managedDevices.lookup s = some d →
      d.Serial = s ∧ 0 ≤ d.FailedChecks ∧ d.FailedChecks < 3) : Inv m := by
  refine ⟨h0, h1, ?_⟩
  rintro ⟨s, d⟩ hmem
  have hl : d ∈ m.managedDevices.lookup s := AList.mem_lookup_iff.mpr hmem
  exact h s d (by simpa using hl)

/-! ## The parse loop -/

theorem FreshRecords_empty (clk : Clock) : FreshRecords clk ∅ := by
  intro s c h
  simp at h

theorem FreshRecords_insert (clk : Clock) (a : DeviceMap) (h : FreshRecords clk a)
    (serial status model : String) (idx : Nat) :
    FreshRecords clk (a.insert serial
      { Serial := serial, Status := status, Model := model,
        LastSeen := clk.parsed idx, FailedChecks := 0 }) := by
  intro s c hc
  by_cases hs : s = serial
  · subst hs
    rw [AList.lookup_insert] at hc
    cases hc
    exact ⟨rfl, rfl, idx, rfl⟩
  · rw [AList.lookup_insert_ne hs] at hc
    exact h s c hc

theorem parseLines_fresh (clk : Clock) (ls : List String) (idx : Nat) (a cur : DeviceMap)
    (ha : FreshRecords clk a) (h : parseLines clk idx ls a = .ok cur) :
    FreshRecords clk cur := by
  induction ls generalizing idx a with
  | nil =>
    simp only [parseLines, Except.ok.injEq] at h
    exact h ▸ ha
  | cons l ls ih =>
    unfold parseLines at h
    cases hp : parseLine l with
    | skip =>
      rw [hp] at h
      exact ih (idx + 1) a ha h
    | sentinel =>
      rw [hp] at h
      cases h
    | versionLine =>
      rw [hp] at h
      cases h
    | record serial status model =>
      rw [hp] at h
      exact ih (idx + 1) _ (FreshRecords_insert clk a ha serial status model idx) h

theorem currentDevices_fresh (o : PollOutcome) (clk : Clock) :
    FreshRecords clk (currentDevices o clk) := by
  unfold currentDevices
  cases hp : parseLines clk 0 (SplitLines o.outputStr) ∅ with
  | error e => exact FreshRecords_empty clk
  | ok cur => exact parseLines_fresh clk _ 0 ∅ cur (FreshRecords_empty clk) hp

/-- Every record of `currentDevices` comes from a line of the output: the line
with index `i` parses to a record of that serial, and the record carries its
status, its model and the reading taken while it was parsed. -/
theorem parseLines_lookup_line (clk : Clock) (ls : List String) (idx : Nat) (a cur : DeviceMap)
    (h : parseLines clk idx ls a = .ok cur) (s : String) (c : Device)
    (hc : cur.lookup s = some c) :
    a.lookup s = some c ∨
      ∃ i l status model, ls[i]? = some l ∧ parseLine l = .record s status model ∧
        c = ⟨s, status, model, clk.parsed (idx + i), 0⟩ := by
  induction ls generalizing idx a with
  | nil =>
    simp only [parseLines, Except.ok.injEq] at h
    subst h
    exact Or.inl hc
  | cons l ls ih =>
    have lift : (∃ i l1 status model, ls[i]? = some l1 ∧ parseLine l1 = .record s status model ∧
        c = ⟨s, status, model, clk.parsed (idx + 1 + i), 0⟩) →
        ∃ i l1 status model, (l :: ls)[i]? = some l1 ∧
          parseLine l1 = .record s status model ∧
          c = ⟨s, status, model, clk.parsed (idx + i), 0⟩ := by
      rintro ⟨i, l1, status, model, hi, hl, hceq⟩
      refine ⟨i + 1, l1, status, model, by simpa using hi, hl, ?_⟩
      rw [hceq, show idx + 1 + i = idx + (i + 1) by omega]
    unfold parseLines at h
    cases hp : parseLine l with
    | skip =>
      rw [hp] at h
      exact (ih (idx + 1) a h).imp_right lift
    | sentinel =>
      rw [hp] at h
      cases h
    | versionLine =>
      rw [hp] at h
      cases h
    | record serial status model =>
      rw [hp] at h
      rcases ih (idx + 1) _ h with hins | hex
      · by_cases hs : s = serial
        · subst hs
          rw [AList.lookup_insert] at hins
          simp only [Option.some.injEq] at hins
          exact Or.inr ⟨0, l, status, model, by simp, hp, by simpa using hins.symm⟩
        · rw [AList.lookup_insert_ne hs] at hins
          exact Or.inl hins
      · exact Or.inr (lift hex)

theorem currentDevices_lookup_line (o : PollOutcome) (clk : Clock) (s : String) (c : Device)
    (hc : (currentDevices o clk).lookup s = some c) :
    ∃ i l status model, (SplitLines o.outputStr)[i]? = some l ∧
      parseLine l = .record s status model ∧ c = ⟨s, status, model, clk.parsed i, 0⟩ := by
  unfold currentDevices at hc
  cases hp : parseLines clk 0 (SplitLines o.outputStr) ∅ with
  | error e =>
    rw [hp] at hc
    simp at hc
  | ok cur =>
    rw [hp] at hc
    rcases parseLines_lookup_line clk _ 0 ∅ cur hp s c hc with h0 | hex
    · simp at h0
    · simpa using hex

theorem SameRecords_insert (a b : DeviceMap) (h : SameRecords a b)
    (serial status model : String) (t1 t2 : Int) :
    SameRecords
      (a.insert serial
        { Serial := serial, Status := status, Model := model, LastSeen := t1, FailedChecks := 0 })
      (b.insert serial
        { Serial := serial, Status := status, Model := model, LastSeen := t2, FailedChecks := 0 }) := by
  intro s
  by_cases hs : s = serial
  · subst hs
    simp [AList.lookup_insert]
  · rw [AList.lookup_insert_ne hs, AList.lookup_insert_ne hs]
    exact h s

/-- The parse loop run with two clocks: the same early return, or maps with the
same records. -/
theorem parseLines_two_clocks (clk1 clk2 : Clock) (ls : List String) (idx : Nat)
    (a b : DeviceMap) (h : SameRecords a b) :
    match parseLines clk1 idx ls a, parseLines clk2 idx ls b with
    | .ok a1, .ok b1 => SameRecords a1 b1
    | .error e1, .error e2 => e1 = e2
    | _, _ => False := by
  induction ls generalizing idx a b with
  | nil => simpa [parseLines] using h
  | cons l ls ih =>
    unfold parseLines
    cases hp : parseLine l with
    | skip => exact ih (idx + 1) a b h
    | sentinel => simp
    | versionLine => simp
    | record serial status model =>
      exact ih (idx + 1) _ _ (SameRecords_insert a b h serial status model _ _)

theorem currentDevices_two_clocks (o : PollOutcome) (clk1 clk2 : Clock) :
    SameRecords (currentDevices o clk1) (currentDevices o clk2) := by
  have h := parseLines_two_clocks clk1 clk2 (SplitLines o.outputStr) 0 ∅ ∅ (fun _ => rfl)
  unfold currentDevices
  cases h1 : parseLines clk1 0 (SplitLines o.outputStr) ∅ <;>
    cases h2 : parseLines clk2 0 (SplitLines o.outputStr) ∅ <;>
    rw [h1, h2] at h
  · exact fun _ => rfl
  · exact absurd h id
  · exact absurd h id
  · exact h

/-- Whether a call returns an error depends neither on the registry nor on the
clock. -/
theorem ListDevices_ok_indep (m m1 : ADBManager) (o : PollOutcome) (clk clk1 : Clock)
    (h : (ListDevices m o clk).err = none) : (ListDevices m1 o clk1).err = none := by
  have hp := parseLines_two_clocks clk clk1 (SplitLines o.outputStr) 0 ∅ ∅ (fun _ => rfl)
  unfold ListDevices at h ⊢
  by_cases hc : Contains o.outputStr "doesn't match" = true
  · rw [if_pos hc] at h
    exact absurd h (by simp)
  · rw [if_neg hc] at h ⊢
    by_cases hf : o.failed = true
    · rw [if_pos hf] at h
      exact absurd h (by simp)
    · rw [if_neg hf] at h ⊢
      cases h1 : parseLines clk 0 (SplitLines o.outputStr) ∅ <;>
        cases h2 : parseLines clk1 0 (SplitLines o.outputStr) ∅ <;>
        rw [h1, h2] at hp
      all_goals first
        | rfl
        | exact absurd hp id
        | (rw [h1] at h; exact absurd h (by simp))

theorem ListDevices_timeout (m : ADBManager) (o : PollOutcome) (clk : Clock) :
    (ListDevices m o clk).mgr.deviceOfflineTimeout = m.deviceOfflineTimeout := by
  unfold ListDevices
  split
  · rfl
  · split
    · rfl
    · split <;> rfl

/-- Lookup in the registry after a call that returned no error. -/
theorem lookup_ListDevices_ok (m : ADBManager) (o : PollOutcome) (clk : Clock)
    (h : (ListDevices m o clk).err = none) (k : String) :
    (ListDevices m o clk).mgr.managedDevices.lookup k =
      match (currentDevices o clk).lookup k with
      | some c => some (updatedEntry clk k c (m.managedDevices.lookup k))
      | none =>
        match m.managedDevices.lookup k with
        | some d =>
          if shouldEvict m.deviceOfflineTimeout clk.now (missed d) then none
          else some (missed d)
        | none => none := by
  rw [ListDevices_mgr_of_ok m o clk h, lookup_reconcile]

/-- A discovered serial holds its updated entry after the call. -/
theorem lookup_ListDevices_discovered (m : ADBManager) (o : PollOutcome) (clk : Clock)
    (h : (ListDevices m o clk).err = none) (k : String) (c : Device)
    (hc : (currentDevices o clk).lookup k = some c) :
    (ListDevices m o clk).mgr.managedDevices.lookup k =
      some (updatedEntry clk k c (m.managedDevices.lookup k)) := by
  rw [lookup_ListDevices_ok m o clk h, hc]

/-- A registry entry that was not discovered is missed once more, or evicted. -/
theorem lookup_ListDevices_missing (m : ADBManager) (o : PollOutcome) (clk : Clock)
    (h : (ListDevices m o clk).err = none) (k : String) (d : Device)
    (hc : (currentDevices o clk).lookup k = none) (hd : m.managedDevices.lookup k = some d) :
    (ListDevices m o clk).mgr.managedDevices.lookup k =
      if shouldEvict m.deviceOfflineTimeout clk.now (missed d) then none
      else some (missed d) := by
  rw [lookup_ListDevices_ok m o clk h, hc, hd]

/-- A serial that is neither discovered nor in the registry stays out of it. -/
theorem lookup_ListDevices_unknown (m : ADBManager) (o : PollOutcome) (clk : Clock)
    (h : (ListDevices m o clk).err = none) (k : String)
    (hc : (currentDevices o clk).lookup k = none) (hd : m.managedDevices.lookup k = none) :
    (ListDevices m o clk).mgr.managedDevices.lookup k = none := by
  rw [lookup_ListDevices_ok m o clk h, hc, hd]

/-- The eviction test inside the invariant, in plain arithmetic. -/
theorem shouldEvict_missed_iff (timeout now : Int) (d : Device) (ht0 : 0 ≤ timeout)
    (ht1 : timeout < maxDuration) (h0 : 0 ≤ d.FailedChecks) (h3 : d.FailedChecks < 3) :
    shouldEvict timeout now (missed d) = true ↔
      (d.FailedChecks + 1 ≥ 3 ∨ now - d.LastSeen > timeout) := by
  simp only [shouldEvict, missed, Bool.or_eq_true, decide_eq_true_eq]
  rw [incrInt_eq _ h0 h3, Sub_gt_iff now d.LastSeen timeout ht0 ht1]

/-! ## The invariant is established and preserved -/

theorem Inv_NewADBManager : Inv NewADBManager := by decide

theorem Inv_ListDevices (m : ADBManager) (o : PollOutcome) (clk : Clock) (h : Inv m) :
    Inv (ListDevices m o clk).mgr := by
  by_cases herr : (ListDevices m o clk).err = none
  · refine Inv_of_lookup ?_ ?_ ?_
    · rw [ListDevices_timeout]
      exact h.1
    · rw [ListDevices_timeout]
      exact h.2.1
    · intro s d hd
      cases hc : (currentDevices o clk).lookup s with
      | some c =>
        rw [lookup_ListDevices_discovered m o clk herr s c hc] at hd
        obtain ⟨hser, hfc, _⟩ := currentDevices_fresh o clk s c hc
        cases hm : m.managedDevices.lookup s with
        | some ex =>
          rw [hm] at hd
          simp only [updatedEntry, Option.some.injEq] at hd
          subst hd
          exact ⟨(Inv_lookup h hm).1, le_refl _, by norm_num⟩
        | none =>
          rw [hm] at hd
          simp only [updatedEntry, Option.some.injEq] at hd
          subst hd
          exact ⟨hser, by omega, by omega⟩
      | none =>
        cases hm : m.managedDevices.lookup s with
        | none =>
          rw [lookup_ListDevices_unknown m o clk herr s hc hm] at hd
          cases hd
        | some ex =>
          rw [lookup_ListDevices_missing m o clk herr s ex hc hm] at hd
          obtain ⟨hser, h0, h3⟩ := Inv_lookup h hm
          by_cases he : shouldEvict m.deviceOfflineTimeout clk.now (missed ex) = true
          · rw [if_pos he] at hd
            cases hd
          · rw [if_neg he] at hd
            simp only [Option.some.injEq] at hd
            subst hd
            rw [shouldEvict_missed_iff _ _ _ h.1 h.2.1 h0 h3] at he
            refine ⟨hser, ?_, ?_⟩
            · show 0 ≤ incrInt ex.FailedChecks
              rw [incrInt_eq _ h0 h3]
              omega
            · show incrInt ex.FailedChecks < 3
              rw [incrInt_eq _ h0 h3]
              omega
  · rw [ListDevices_mgr_of_err m o clk herr]
    exact h

theorem Inv_RemoveDevice (m : ADBManager) (serial : String) (h : Inv m) :
    Inv (RemoveDevice m serial).1 := by
  unfold RemoveDevice
  split
  · refine Inv_of_lookup h.1 h.2.1 ?_
    intro s d hd
    by_cases hs : s = serial
    · subst hs
      simp at hd
    · rw [show (AList.lookup s (AList.erase serial m.managedDevices)) =
        AList.lookup s m.managedDevices from AList.lookup_erase_ne hs] at hd
      exact Inv_lookup h hd
  · exact h

/-! ## Error paths -/

/-- C1: whenever `ListDevices` returns a non-nil error (version-mismatch text
in the output, a failed invocation of `adb devices`, or the `adb [server]`
sentinel line), the registry `managedDevices` after the call is the registry
before the call. -/
theorem C1_error_keeps_registry (m : ADBManager) (o : PollOutcome) (clk : Clock)
    (h : (ListDevices m o clk).err ≠ none) :
    (ListDevices m o clk).mgr.managedDevices = m.managedDevices := by
  rw [ListDevices_mgr_of_err m o clk h]

theorem C1_error_keeps_registry_witness :
    (ListDevices sampleManager ⟨"", true⟩ (Clock.const 9)).err ≠ none ∧
    (ListDevices sampleManager ⟨"", true⟩ (Clock.const 9)).mgr.managedDevices =
      sampleManager.managedDevices :=
  ⟨by decide, C1_error_keeps_registry sampleManager ⟨"", true⟩ (Clock.const 9) (by decide)⟩

/-- C2: when the discovery output contains the version-mismatch text
`doesn't match`, `ListDevices` returns a non-nil error and a snapshot holding
exactly the devices (Serial, Status, Model, LastSeen) of the snapshot of the
registry taken before the poll; the snapshot of the registry after the poll is
that same snapshot. -/
theorem C2_version_mismatch_snapshot (m : ADBManager) (o : PollOutcome) (clk : Clock)
    (h : Contains o.outputStr "doesn't match" = true) :
    (ListDevices m o clk).err ≠ none ∧
    List.Perm (ListDevices m o clk).devices (getDeviceList m) ∧
    List.Perm (getDeviceList (ListDevices m o clk).mgr) (getDeviceList m) := by
  have hr : ListDevices m o clk =
      { mgr := m, devices := getDeviceList m, err := some .versionConflict } := by
    unfold ListDevices
    rw [if_pos h]
  rw [hr]
  exact ⟨by simp, List.Perm.refl _, List.Perm.refl _⟩

theorem C2_version_mismatch_snapshot_witness :
    Contains "adb server version (39) doesn't match this client (41); killing..."
      "doesn't match" = true ∧
    (ListDevices sampleManager
      ⟨"adb server version (39) doesn't match this client (41); killing...", false⟩
      (Clock.const 9)).err ≠ none ∧
    List.Perm
      (ListDevices sampleManager
        ⟨"adb server version (39) doesn't match this client (41); killing...", false⟩
        (Clock.const 9)).devices
      (getDeviceList sampleManager) ∧
    List.Perm
      (getDeviceList (ListDevices sampleManager
        ⟨"adb server version (39) doesn't match this client (41); killing...", false⟩
        (Clock.const 9)).mgr)
      (getDeviceList sampleManager) :=
  ⟨by decide,
    C2_version_mismatch_snapshot sampleManager
      ⟨"adb server version (39) doesn't match this client (41); killing...", false⟩
      (Clock.const 9) (by decide)⟩

/-- C3: on the sentinel line `adb [server]` the registry is left as it was and
an error is returned, but the returned snapshot is `nil`, not the snapshot of
the registry: with `ABC123` in the registry, the poll `adb [server]` returns no
device while the registry still holds `ABC123`. -/
theorem C3_sentinel_returns_nil_snapshot :
    (ListDevices sampleManager ⟨"adb [server]\n", false⟩ (Clock.const 9)).err =
      some ListError.serverRestarted ∧
    (ListDevices sampleManager ⟨"adb [server]\n", false⟩ (Clock.const 9)).devices = [] ∧
    (ListDevices sampleManager ⟨"adb [server]\n", false⟩
      (Clock.const 9)).mgr.managedDevices.lookup "ABC123" = some sampleDevice ∧
    getDeviceList sampleManager = [sampleDevice] := by
  decide

/-! ## Reconciliation -/

theorem updatedEntry_fields (clk : Clock) (s : String) (c : Device) (old : Option Device)
    (hfc : c.FailedChecks = 0) :
    (updatedEntry clk s c old).Status = c.Status ∧ (updatedEntry clk s c old).Model = c.Model ∧
    (updatedEntry clk s c old).FailedChecks = 0 := by
  cases old with
  | none => exact ⟨rfl, rfl, hfc⟩
  | some ex => exact ⟨rfl, rfl, rfl⟩

/-- C4: in a successful poll evaluated at `clk.now`, a device `d` that was in
the registry (in a state satisfying the invariant) is absent from the registry
afterwards if and only if it does not appear in the poll and, its miss counter
incremented, `FailedChecks >= 3` or `now - LastSeen > deviceOfflineTimeout`. -/
theorem C4_evicted_iff (m : ADBManager) (hinv : Inv m) (o : PollOutcome) (clk : Clock)
    (hok : (ListDevices m o clk).err = none) (s : String) (d : Device)
    (hd : m.managedDevices.lookup s = some d) :
    s ∉ (ListDevices m o clk).mgr.managedDevices ↔
      s ∉ currentDevices o clk ∧
        (d.FailedChecks + 1 ≥ 3 ∨ clk.now - d.LastSeen > m.deviceOfflineTimeout) := by
  obtain ⟨_, h0, h3⟩ := Inv_lookup hinv hd
  rw [← AList.lookup_eq_none, ← AList.lookup_eq_none]
  cases hc : (currentDevices o clk).lookup s with
  | some c =>
    rw [lookup_ListDevices_discovered m o clk hok s c hc]
    simp
  | none =>
    rw [lookup_ListDevices_missing m o clk hok s d hc hd,
      ← shouldEvict_missed_iff _ clk.now d hinv.1 hinv.2.1 h0 h3]
    by_cases he : shouldEvict m.deviceOfflineTimeout clk.now (missed d) = true
    · simp [he]
    · simp [he]

theorem C4_evicted_iff_witness :
    Inv sampleManager ∧ (ListDevices sampleManager noDevices (Clock.const 9)).err = none ∧
    sampleManager.managedDevices.lookup "ABC123" = some sampleDevice ∧
    ("ABC123" ∉ (ListDevices sampleManager noDevices (Clock.const 9)).mgr.managedDevices ↔
      "ABC123" ∉ currentDevices noDevices (Clock.const 9) ∧
        (sampleDevice.FailedChecks + 1 ≥ 3 ∨
          (Clock.const 9).now - sampleDevice.LastSeen > sampleManager.deviceOfflineTimeout)) :=
  ⟨by decide, by decide, by decide,
    C4_evicted_iff sampleManager (by decide) noDevices (Clock.const 9) (by decide)
      "ABC123" sampleDevice (by decide)⟩

/-- C5: along every finite sequence of successful discovery polls, from any
registry state, a device whose identifier appears in every poll of the sequence
is in the registry with `FailedChecks = 0` after each poll of the sequence. -/
theorem C5_present_never_missed (m : ADBManager) (polls : List (PollOutcome × Clock))
    (s : String) (hok : ∀ r ∈ pollTrace m polls, r.err = none)
    (hs : ∀ p ∈ polls, s ∈ currentDevices p.1 p.2) :
    ∀ r ∈ pollTrace m polls, ∃ d, r.mgr.managedDevices.lookup s = some d ∧ d.FailedChecks = 0 := by
  induction polls generalizing m with
  | nil =>
    intro r hr
    simp [pollTrace] at hr
  | cons p ps ih =>
    intro r hr
    simp only [pollTrace, List.mem_cons] at hr hok
    rcases hr with hr | hr
    · subst hr
      have herr := hok _ (Or.inl rfl)
      have hmem := hs p (List.mem_cons_self _ _)
      obtain ⟨c, hc⟩ := Option.isSome_iff_exists.mp (AList.lookup_isSome.mpr hmem)
      refine ⟨_, lookup_ListDevices_discovered m p.1 p.2 herr s c hc, ?_⟩
      exact (updatedEntry_fields p.2 s c _ (currentDevices_fresh p.1 p.2 s c hc).2.1).2.2
    · exact ih (ListDevices m p.1 p.2).mgr (fun r1 hr1 => hok r1 (Or.inr hr1))
        (fun q hq => hs q (List.mem_cons_of_mem _ hq)) r hr

theorem C5_present_never_missed_witness :
    (∀ r ∈ pollTrace sampleManager
        [(⟨"ABC123 device\n", false⟩, Clock.const 9), (⟨"ABC123 offline\n", false⟩, Clock.const 12)],
      r.err = none) ∧
    (∀ p ∈ [((⟨"ABC123 device\n", false⟩ : PollOutcome), Clock.const 9),
        (⟨"ABC123 offline\n", false⟩, Clock.const 12)],
      "ABC123" ∈ currentDevices p.1 p.2) ∧
    ∀ r ∈ pollTrace sampleManager
        [(⟨"ABC123 device\n", false⟩, Clock.const 9), (⟨"ABC123 offline\n", false⟩, Clock.const 12)],
      ∃ d, r.mgr.managedDevices.lookup "ABC123" = some d ∧ d.FailedChecks = 0 :=
  ⟨by decide, by decide,
    C5_present_never_missed sampleManager
      [(⟨"ABC123 device\n", false⟩, Clock.const 9), (⟨"ABC123 offline\n", false⟩, Clock.const 12)]
      "ABC123" (by decide) (by decide)⟩

/-- C8: after a successful poll, every identifier with a record `c` in the poll
is in the registry with the Status and Model of `c`, `FailedChecks = 0`, and
`LastSeen` a reading of the clock taken during the poll (the reading of the
update when the identifier was already in the registry, the reading of the
parse when it is inserted): whenever all readings of the poll lie in
`[lo, hi]`, so does `LastSeen`, and it is the poll time when the clock does not
advance during the poll. -/
theorem C8_discovered_entry (m : ADBManager) (o : PollOutcome) (clk : Clock)
    (hok : (ListDevices m o clk).err = none) (s : String) (c : Device)
    (hc : (currentDevices o clk).lookup s = some c) :
    ∃ d, (ListDevices m o clk).mgr.managedDevices.lookup s = some d ∧
      d.Status = c.Status ∧ d.Model = c.Model ∧ d.FailedChecks = 0 ∧
      d.LastSeen = (if s ∈ m.managedDevices then clk.updated s else c.LastSeen) ∧
      ∀ lo hi, clk.Within lo hi → lo ≤ d.LastSeen ∧ d.LastSeen ≤ hi := by
  obtain ⟨_, hfc, i, hseen⟩ := currentDevices_fresh o clk s c hc
  refine ⟨_, lookup_ListDevices_discovered m o clk hok s c hc, ?_⟩
  obtain ⟨h1, h2, h3⟩ := updatedEntry_fields clk s c (m.managedDevices.lookup s) hfc
  refine ⟨h1, h2, h3, ?_⟩
  cases hm : m.managedDevices.lookup s with
  | some ex =>
    have hmem : s ∈ m.managedDevices := AList.lookup_isSome.mp (by simp [hm])
    refine ⟨by simp [updatedEntry, hmem], ?_⟩
    intro lo hi hw
    exact hw.2.1 s
  | none =>
    have hmem : s ∉ m.managedDevices := AList.lookup_eq_none.mp hm
    refine ⟨by simp [updatedEntry, hmem], ?_⟩
    intro lo hi hw
    show lo ≤ c.LastSeen ∧ c.LastSeen ≤ hi
    rw [hseen]
    exact hw.1 i

theorem C8_discovered_entry_witness :
    (ListDevices sampleManager ⟨"ABC123 offline model:Pixel7\n", false⟩ (Clock.const 9)).err = none ∧
    (currentDevices ⟨"ABC123 offline model:Pixel7\n", false⟩ (Clock.const 9)).lookup "ABC123" =
      some ⟨"ABC123", "offline", "Pixel7", 9, 0⟩ ∧
    ∃ d, (ListDevices sampleManager ⟨"ABC123 offline model:Pixel7\n", false⟩
        (Clock.const 9)).mgr.managedDevices.lookup "ABC123" = some d ∧
      d.Status = "offline" ∧ d.Model = "Pixel7" ∧ d.FailedChecks = 0 ∧
      d.LastSeen = (if "ABC123" ∈ sampleManager.managedDevices then (Clock.const 9).updated "ABC123"
        else 9) ∧
      ∀ lo hi, (Clock.const 9).Within lo hi → lo ≤ d.LastSeen ∧ d.LastSeen ≤ hi :=
  ⟨by decide, by decide,
    C8_discovered_entry sampleManager ⟨"ABC123 offline model:Pixel7\n", false⟩ (Clock.const 9)
      (by decide) "ABC123" ⟨"ABC123", "offline", "Pixel7", 9, 0⟩ (by decide)⟩

/-- C9: after a successful poll on a registry satisfying the invariant, a
registry device that is not in the poll and is not evicted by it has
`FailedChecks` increased by exactly 1 and its Serial, Status, Model and
LastSeen unchanged. -/
theorem C9_missed_entry (m : ADBManager) (hinv : Inv m) (o : PollOutcome) (clk : Clock)
    (hok : (ListDevices m o clk).err = none) (s : String) (d d1 : Device)
    (hd : m.managedDevices.lookup s = some d) (hnot : s ∉ currentDevices o clk)
    (hd1 : (ListDevices m o clk).mgr.managedDevices.lookup s = some d1) :
    d1.FailedChecks = d.FailedChecks + 1 ∧ d1.Serial = d.Serial ∧ d1.Status = d.Status ∧
      d1.Model = d.Model ∧ d1.LastSeen = d.LastSeen := by
  obtain ⟨_, h0, h3⟩ := Inv_lookup hinv hd
  rw [lookup_ListDevices_missing m o clk hok s d (AList.lookup_eq_none.mpr hnot) hd] at hd1
  by_cases he : shouldEvict m.deviceOfflineTimeout clk.now (missed d) = true
  · rw [if_pos he] at hd1
    cases hd1
  · rw [if_neg he] at hd1
    simp only [Option.some.injEq] at hd1
    subst hd1
    exact ⟨incrInt_eq _ h0 h3, rfl, rfl, rfl, rfl⟩

theorem C9_missed_entry_witness :
    Inv sampleManager ∧ (ListDevices sampleManager ⟨"", false⟩ (Clock.const 11)).err = none ∧
    sampleManager.managedDevices.lookup "ABC123" = some sampleDevice ∧
    "ABC123" ∉ currentDevices ⟨"", false⟩ (Clock.const 11) ∧
    (ListDevices sampleManager ⟨"", false⟩ (Clock.const 11)).mgr.managedDevices.lookup "ABC123" =
      some ⟨"ABC123", "device", "Pixel6", 5, 1⟩ ∧
    ((1 : Int) = sampleDevice.FailedChecks + 1 ∧ "ABC123" = sampleDevice.Serial ∧
      "device" = sampleDevice.Status ∧ "Pixel6" = sampleDevice.Model ∧
      (5 : Int) = sampleDevice.LastSeen) :=
  ⟨by decide, by decide, by decide, by decide, by decide,
    C9_missed_entry sampleManager (by decide) ⟨"", false⟩ (Clock.const 11) (by decide)
      "ABC123" sampleDevice ⟨"ABC123", "device", "Pixel6", 5, 1⟩ (by decide) (by decide)
      (by decide)⟩

/-- A missed entry that passes the eviction test stays, with one more miss. -/
theorem lookup_missing_kept (m : ADBManager) (hinv : Inv m) (o : PollOutcome) (clk : Clock)
    (hok : (ListDevices m o clk).err = none) (s : String) (d : Device)
    (hc : (currentDevices o clk).lookup s = none) (hd : m.managedDevices.lookup s = some d)
    (hfc : d.FailedChecks + 1 < 3) (ht : clk.now - d.LastSeen ≤ m.deviceOfflineTimeout) :
    (ListDevices m o clk).mgr.managedDevices.lookup s =
      some { d with FailedChecks := d.FailedChecks + 1 } := by
  obtain ⟨_, h0, h3⟩ := Inv_lookup hinv hd
  have he : ¬ shouldEvict m.deviceOfflineTimeout clk.now (missed d) = true := by
    rw [shouldEvict_missed_iff _ _ _ hinv.1 hinv.2.1 h0 h3]
    omega
  rw [lookup_ListDevices_missing m o clk hok s d hc hd, if_neg he, missed, incrInt_eq _ h0 h3]

/-- A missed entry that fails the eviction test is deleted. -/
theorem lookup_missing_evicted (m : ADBManager) (hinv : Inv m) (o : PollOutcome) (clk : Clock)
    (hok : (ListDevices m o clk).err = none) (s : String) (d : Device)
    (hc : (currentDevices o clk).lookup s = none) (hd : m.managedDevices.lookup s = some d)
    (h : d.FailedChecks + 1 ≥ 3 ∨ clk.now - d.LastSeen > m.deviceOfflineTimeout) :
    (ListDevices m o clk).mgr.managedDevices.lookup s = none := by
  obtain ⟨_, h0, h3⟩ := Inv_lookup hinv hd
  have he : shouldEvict m.deviceOfflineTimeout clk.now (missed d) = true :=
    (shouldEvict_missed_iff _ _ _ hinv.1 hinv.2.1 h0 h3).mpr h
  rw [lookup_ListDevices_missing m o clk hok s d hc hd, if_pos he]

theorem lookup_none_of_keys_nil (a : DeviceMap) (h : a.keys = []) (s : String) :
    a.lookup s = none := by
  rw [AList.lookup_eq_none, AList.mem_keys, h]
  exact List.not_mem_nil s

theorem NewADBManager_timeout : NewADBManager.deviceOfflineTimeout = 5 * Minute := rfl

/-- C6: from the empty registry, a successful poll with output
`ABC123  device model:Pixel6` followed by three successful polls that list no
device, the first two of them within the offline timeout of the sighting (the
hypothesis is not needed for the third), leaves `ABC123` in the registry after
the first and the second empty poll, with `FailedChecks` 1 and 2, and removes
it in the third. -/
theorem C6_evicted_at_third_miss (clk0 clk1 clk2 clk3 : Clock) (e1 e2 e3 : PollOutcome)
    (hok : ∀ r ∈ pollTrace NewADBManager
        [(⟨"ABC123  device model:Pixel6\n", false⟩, clk0), (e1, clk1), (e2, clk2), (e3, clk3)],
      r.err = none)
    (h1 : (currentDevices e1 clk1).keys = []) (h2 : (currentDevices e2 clk2).keys = [])
    (h3 : (currentDevices e3 clk3).keys = [])
    (t1 : clk1.now - clk0.parsed 0 ≤ 5 * Minute) (t2 : clk2.now - clk0.parsed 0 ≤ 5 * Minute) :
    (pollTrace NewADBManager
        [(⟨"ABC123  device model:Pixel6\n", false⟩, clk0), (e1, clk1), (e2, clk2),
          (e3, clk3)]).map (fun r => r.mgr.managedDevices.lookup "ABC123") =
      [some ⟨"ABC123", "device", "Pixel6", clk0.parsed 0, 0⟩,
        some ⟨"ABC123", "device", "Pixel6", clk0.parsed 0, 1⟩,
        some ⟨"ABC123", "device", "Pixel6", clk0.parsed 0, 2⟩, none] := by
  simp only [pollTrace, List.mem_cons, List.mem_singleton, List.not_mem_nil, or_false,
    forall_eq_or_imp, forall_eq] at hok
  obtain ⟨ok0, ok1, ok2, ok3⟩ := hok
  have hcur : (currentDevices ⟨"ABC123  device model:Pixel6\n", false⟩ clk0).lookup "ABC123" =
      some ⟨"ABC123", "device", "Pixel6", clk0.parsed 0, 0⟩ := by rfl
  have inv0 := Inv_ListDevices NewADBManager ⟨"ABC123  device model:Pixel6\n", false⟩ clk0
    Inv_NewADBManager
  have l0 := lookup_ListDevices_discovered NewADBManager _ clk0 ok0 "ABC123" _ hcur
  have hnew : NewADBManager.managedDevices.lookup "ABC123" = none := by decide
  rw [hnew] at l0
  simp only [updatedEntry] at l0
  have to0 := (ListDevices_timeout NewADBManager ⟨"ABC123  device model:Pixel6\n", false⟩
    clk0).trans NewADBManager_timeout
  have inv1 := Inv_ListDevices _ e1 clk1 inv0
  have l1 := lookup_missing_kept _ inv0 e1 clk1 ok1 "ABC123" _
    (lookup_none_of_keys_nil _ h1 _) l0 (by norm_num) (by rw [to0]; exact t1)
  have to1 := (ListDevices_timeout _ e1 clk1).trans to0
  have inv2 := Inv_ListDevices _ e2 clk2 inv1
  have l2 := lookup_missing_kept _ inv1 e2 clk2 ok2 "ABC123" _
    (lookup_none_of_keys_nil _ h2 _) l1 (by norm_num) (by rw [to1]; exact t2)
  have l3 := lookup_missing_evicted _ inv2 e3 clk3 ok3 "ABC123" _
    (lookup_none_of_keys_nil _ h3 _) l2 (Or.inl (by norm_num))
  simp only [pollTrace, List.map_cons, List.map_nil, l0, l1, l2, l3]
  norm_num

theorem C6_evicted_at_third_miss_witness :
    (∀ r ∈ pollTrace NewADBManager
        [(⟨"ABC123  device model:Pixel6\n", false⟩, Clock.const 5), (noDevices, Clock.const 10),
          (noDevices, Clock.const 15), (noDevices, Clock.const 20)],
      r.err = none) ∧
    (currentDevices noDevices (Clock.const 10)).keys = [] ∧
    (currentDevices noDevices (Clock.const 15)).keys = [] ∧
    (currentDevices noDevices (Clock.const 20)).keys = [] ∧
    (Clock.const 10).now - (Clock.const 5).parsed 0 ≤ 5 * Minute ∧
    (Clock.const 15).now - (Clock.const 5).parsed 0 ≤ 5 * Minute ∧
    (pollTrace NewADBManager
        [(⟨"ABC123  device model:Pixel6\n", false⟩, Clock.const 5), (noDevices, Clock.const 10),
          (noDevices, Clock.const 15), (noDevices, Clock.const 20)]).map
        (fun r => r.mgr.managedDevices.lookup "ABC123") =
      [some ⟨"ABC123", "device", "Pixel6", (Clock.const 5).parsed 0, 0⟩,
        some ⟨"ABC123", "device", "Pixel6", (Clock.const 5).parsed 0, 1⟩,
        some ⟨"ABC123", "device", "Pixel6", (Clock.const 5).parsed 0, 2⟩, none] :=
  ⟨by decide, by decide, by decide, by decide, by decide, by decide,
    C6_evicted_at_third_miss (Clock.const 5) (Clock.const 10) (Clock.const 15) (Clock.const 20)
      noDevices noDevices noDevices (by decide) (by decide) (by decide) (by decide) (by decide)
      (by decide)⟩

/-- C7, as stated, fails: with `ABC123` in the registry (no miss so far), the
poll that lists no device applied twice leaves `ABC123` with `FailedChecks` 1
after the first application and 2 after the second. -/
theorem C7_counterexample :
    ¬ (∀ s : String,
      ((ListDevices (ListDevices sampleManager noDevices (Clock.const 9)).mgr noDevices
          (Clock.const 9)).mgr.managedDevices.lookup s).map
          (fun d => (d.Status, d.Model, d.FailedChecks)) =
        ((ListDevices sampleManager noDevices (Clock.const 9)).mgr.managedDevices.lookup s).map
          (fun d => (d.Status, d.Model, d.FailedChecks))) := by
  intro h
  exact absurd (h "ABC123") (by decide)

/-- C7, amended: a successful poll `P` applied twice in a row (on a registry
satisfying the invariant) succeeds the second time too; every identifier that
appears in `P` is in the registry after both applications with the same
Serial, Status, Model and FailedChecks (only LastSeen may differ); every other
device in the registry after the second application was in it after the first
with the same Serial, Status, Model and LastSeen, and its FailedChecks is one
more than after the first. -/
theorem C7_repeated_poll (m : ADBManager) (hinv : Inv m) (o : PollOutcome) (clk1 clk2 : Clock)
    (hok : (ListDevices m o clk1).err = none) (s : String) :
    (ListDevices (ListDevices m o clk1).mgr o clk2).err = none ∧
    (s ∈ currentDevices o clk1 →
      ∃ d1 d2, (ListDevices m o clk1).mgr.managedDevices.lookup s = some d1 ∧
        (ListDevices (ListDevices m o clk1).mgr o clk2).mgr.managedDevices.lookup s = some d2 ∧
        d2.Serial = d1.Serial ∧ d2.Status = d1.Status ∧ d2.Model = d1.Model ∧
        d2.FailedChecks = d1.FailedChecks) ∧
    (s ∉ currentDevices o clk1 →
      ∀ d2, (ListDevices (ListDevices m o clk1).mgr o clk2).mgr.managedDevices.lookup s = some d2 →
        ∃ d1, (ListDevices m o clk1).mgr.managedDevices.lookup s = some d1 ∧
          d2.Serial = d1.Serial ∧ d2.Status = d1.Status ∧ d2.Model = d1.Model ∧
          d2.LastSeen = d1.LastSeen ∧ d2.FailedChecks = d1.FailedChecks + 1) := by
  have hok2 : (ListDevices (ListDevices m o clk1).mgr o clk2).err = none :=
    ListDevices_ok_indep m _ o clk1 clk2 hok
  have hsame := currentDevices_two_clocks o clk1 clk2 s
  have hinv1 := Inv_ListDevices m o clk1 hinv
  refine ⟨hok2, ?_, ?_⟩
  · intro hmem
    obtain ⟨c1, hc1⟩ := Option.isSome_iff_exists.mp (AList.lookup_isSome.mpr hmem)
    rw [hc1] at hsame
    cases hc2 : (currentDevices o clk2).lookup s with
    | none =>
      rw [hc2] at hsame
      simp at hsame
    | some c2 =>
      rw [hc2] at hsame
      simp only [Option.map_some', Option.some.injEq, Prod.mk.injEq] at hsame
      have l1 := lookup_ListDevices_discovered m o clk1 hok s c1 hc1
      have l2 := lookup_ListDevices_discovered _ o clk2 hok2 s c2 hc2
      rw [l1] at l2
      obtain ⟨f1, f2, f3⟩ := updatedEntry_fields clk1 s c1 (m.managedDevices.lookup s)
        (currentDevices_fresh o clk1 s c1 hc1).2.1
      refine ⟨_, _, l1, l2, rfl, ?_, ?_, ?_⟩
      · show c2.Status = _
        rw [f1, hsame.1]
      · show c2.Model = _
        rw [f2, hsame.2]
      · show (0 : Int) = _
        rw [f3]
  · intro hmem d2 hd2
    have hc1 : (currentDevices o clk1).lookup s = none := AList.lookup_eq_none.mpr hmem
    rw [hc1] at hsame
    have hc2 : (currentDevices o clk2).lookup s = none := by
      cases hc : (currentDevices o clk2).lookup s with
      | none => rfl
      | some c2 =>
        rw [hc] at hsame
        simp at hsame
    cases hd1 : (ListDevices m o clk1).mgr.managedDevices.lookup s with
    | none =>
      rw [lookup_ListDevices_unknown _ o clk2 hok2 s hc2 hd1] at hd2
      cases hd2
    | some d1 =>
      obtain ⟨_, h0, h3⟩ := Inv_lookup hinv1 hd1
      rw [lookup_ListDevices_missing _ o clk2 hok2 s d1 hc2 hd1] at hd2
      split at hd2
      · cases hd2
      · simp only [Option.some.injEq] at hd2
        subst hd2
        exact ⟨d1, rfl, rfl, rfl, rfl, rfl, incrInt_eq _ h0 h3⟩

theorem C7_repeated_poll_witness :
    Inv sampleManager ∧
    (ListDevices sampleManager ⟨"XYZ unauthorized\n", false⟩ (Clock.const 9)).err = none ∧
    ((ListDevices (ListDevices sampleManager ⟨"XYZ unauthorized\n", false⟩ (Clock.const 9)).mgr
        ⟨"XYZ unauthorized\n", false⟩ (Clock.const 14)).err = none ∧
      ("XYZ" ∈ currentDevices ⟨"XYZ unauthorized\n", false⟩ (Clock.const 9) →
        ∃ d1 d2,
          (ListDevices sampleManager ⟨"XYZ unauthorized\n", false⟩
            (Clock.const 9)).mgr.managedDevices.lookup "XYZ" = some d1 ∧
          (ListDevices
            (ListDevices sampleManager ⟨"XYZ unauthorized\n", false⟩ (Clock.const 9)).mgr
            ⟨"XYZ unauthorized\n", false⟩ (Clock.const 14)).mgr.managedDevices.lookup "XYZ" =
              some d2 ∧
          d2.Serial = d1.Serial ∧ d2.Status = d1.Status ∧ d2.Model = d1.Model ∧
          d2.FailedChecks = d1.FailedChecks) ∧
      ("XYZ" ∉ currentDevices ⟨"XYZ unauthorized\n", false⟩ (Clock.const 9) →
        ∀ d2,
          (ListDevices
            (ListDevices sampleManager ⟨"XYZ unauthorized\n", false⟩ (Clock.const 9)).mgr
            ⟨"XYZ unauthorized\n", false⟩ (Clock.const 14)).mgr.managedDevices.lookup "XYZ" =
              some d2 →
          ∃ d1,
            (ListDevices sampleManager ⟨"XYZ unauthorized\n", false⟩
              (Clock.const 9)).mgr.managedDevices.lookup "XYZ" = some d1 ∧
            d2.Serial = d1.Serial ∧ d2.Status = d1.Status ∧ d2.Model = d1.Model ∧
            d2.LastSeen = d1.LastSeen ∧ d2.FailedChecks = d1.FailedChecks + 1)) :=
  ⟨by decide, by decide,
    C7_repeated_poll sampleManager (by decide) ⟨"XYZ unauthorized\n", false⟩ (Clock.const 9)
      (Clock.const 14) (by decide) "XYZ"⟩

/-! ## Monotonicity of `LastSeen` -/

theorem SeenBy_lookup {t : Int} {m : ADBManager} (h : SeenBy t m) {s : String} {d : Device}
    (hd : m.managedDevices.lookup s = some d) : d.LastSeen ≤ t := by
  have hmem : (⟨s, d⟩ : Sigma fun _ : String => Device) ∈ m.managedDevices.entries :=
    AList.mem_lookup_iff.mp (by simp [hd])
  exact h _ hmem

theorem SeenBy_of_lookup {t : Int} {m : ADBManager}
    (h : ∀ s d, m.managedDevices.lookup s = some d → d.LastSeen ≤ t) : SeenBy t m := by
  rintro ⟨s, d⟩ hmem
  have hl : d ∈ m.managedDevices.lookup s := AList.mem_lookup_iff.mpr hmem
  exact h s d (by simpa using hl)

theorem Within_le {clk : Clock} {lo hi : Int} (h : clk.Within lo hi) : lo ≤ hi :=
  le_trans h.2.2.1.1 h.2.2.1.2

theorem Within_const (lo t : Int) (h : lo ≤ t) : (Clock.const t).Within lo t :=
  ⟨fun _ => ⟨h, le_refl t⟩, fun _ => ⟨h, le_refl t⟩, ⟨h, le_refl t⟩, ⟨h, le_refl t⟩⟩

/-- One call whose readings are not before `t`, on a registry seen by `t`:
the `LastSeen` of an entry that stays does not decrease. -/
theorem LastSeen_step (t hi : Int) (m : ADBManager) (hm : SeenBy t m) (o : PollOutcome)
    (clk : Clock) (hw : clk.Within t hi) (s : String) (d d1 : Device)
    (hd : m.managedDevices.lookup s = some d)
    (hd1 : (ListDevices m o clk).mgr.managedDevices.lookup s = some d1) :
    d.LastSeen ≤ d1.LastSeen := by
  by_cases herr : (ListDevices m o clk).err = none
  · cases hc : (currentDevices o clk).lookup s with
    | some c =>
      rw [lookup_ListDevices_discovered m o clk herr s c hc, hd] at hd1
      simp only [updatedEntry, Option.some.injEq] at hd1
      subst hd1
      exact le_trans (SeenBy_lookup hm hd) (hw.2.1 s).1
    | none =>
      rw [lookup_ListDevices_missing m o clk herr s d hc hd] at hd1
      split at hd1
      · cases hd1
      · simp only [Option.some.injEq] at hd1
        subst hd1
        exact le_refl _
  · rw [ListDevices_mgr_of_err m o clk herr, hd] at hd1
    cases hd1
    exact le_refl _

/-- After such a call the registry is seen by the upper bound of the readings. -/
theorem SeenBy_step (t hi : Int) (m : ADBManager) (hm : SeenBy t m) (o : PollOutcome)
    (clk : Clock) (hw : clk.Within t hi) : SeenBy hi (ListDevices m o clk).mgr := by
  have hle := Within_le hw
  by_cases herr : (ListDevices m o clk).err = none
  · apply SeenBy_of_lookup
    intro s d1 hd1
    cases hc : (currentDevices o clk).lookup s with
    | some c =>
      rw [lookup_ListDevices_discovered m o clk herr s c hc] at hd1
      obtain ⟨_, _, i, hseen⟩ := currentDevices_fresh o clk s c hc
      cases hmo : m.managedDevices.lookup s with
      | some ex =>
        rw [hmo] at hd1
        simp only [updatedEntry, Option.some.injEq] at hd1
        subst hd1
        exact (hw.2.1 s).2
      | none =>
        rw [hmo] at hd1
        simp only [updatedEntry, Option.some.injEq] at hd1
        subst hd1
        rw [hseen]
        exact (hw.1 i).2
    | none =>
      cases hmo : m.managedDevices.lookup s with
      | none =>
        rw [lookup_ListDevices_unknown m o clk herr s hc hmo] at hd1
        cases hd1
      | some ex =>
        rw [lookup_ListDevices_missing m o clk herr s ex hc hmo] at hd1
        split at hd1
        · cases hd1
        · simp only [Option.some.injEq] at hd1
          subst hd1
          have hex : ex.LastSeen ≤ t := SeenBy_lookup hm hmo
          exact le_trans hex hle
  · rw [ListDevices_mgr_of_err m o clk herr]
    intro e he
    exact le_trans (hm e he) hle

/-- After a sequence of calls at non-decreasing times, the registry is seen by
a time that is not after the readings of the next call. -/
theorem SeenBy_runCalls (t0 : Int) (m : ADBManager) (hm : SeenBy t0 m)
    (calls : List (PollOutcome × Clock)) (call : PollOutcome × Clock)
    (hnd : NonDecreasing t0 (calls ++ [call])) :
    ∃ t, SeenBy t (runCalls m calls) ∧ call.2.Within t call.2.finished := by
  induction calls generalizing t0 m with
  | nil => exact ⟨t0, hm, hnd.1⟩
  | cons p ps ih =>
    obtain ⟨hw, hrest⟩ := hnd
    exact ih p.2.finished (ListDevices m p.1 p.2).mgr (SeenBy_step t0 _ m hm p.1 p.2 hw) hrest

/-- C10: along every sequence of calls of `ListDevices` made at non-decreasing
clock times, starting from a registry none of whose devices was seen after the
starting time (the empty registry of `NewADBManager` in particular), a device
that stays in the registry across a call has a `LastSeen` after the call that
is not smaller than before it. -/
theorem C10_lastSeen_monotone (t0 : Int) (m : ADBManager) (hm : SeenBy t0 m)
    (calls : List (PollOutcome × Clock)) (call : PollOutcome × Clock)
    (hnd : NonDecreasing t0 (calls ++ [call])) (s : String) (d d1 : Device)
    (hd : (runCalls m calls).managedDevices.lookup s = some d)
    (hd1 : (ListDevices (runCalls m calls) call.1 call.2).mgr.managedDevices.lookup s = some d1) :
    d.LastSeen ≤ d1.LastSeen := by
  obtain ⟨t, hseen, hw⟩ := SeenBy_runCalls t0 m hm calls call hnd
  exact LastSeen_step t call.2.finished (runCalls m calls) hseen call.1 call.2 hw s d d1 hd hd1

theorem C10_lastSeen_monotone_witness :
    SeenBy 5 sampleManager ∧
    NonDecreasing 5 ([(noDevices, Clock.const 9)] ++ [(⟨"ABC123 device\n", false⟩, Clock.const 12)]) ∧
    (runCalls sampleManager [(noDevices, Clock.const 9)]).managedDevices.lookup "ABC123" =
      some ⟨"ABC123", "device", "Pixel6", 5, 1⟩ ∧
    (ListDevices (runCalls sampleManager [(noDevices, Clock.const 9)]) ⟨"ABC123 device\n", false⟩
        (Clock.const 12)).mgr.managedDevices.lookup "ABC123" =
      some ⟨"ABC123", "device", "", 12, 0⟩ ∧
    (5 : Int) ≤ 12 :=
  ⟨by decide,
    ⟨Within_const 5 9 (by decide), Within_const 9 12 (by decide), trivial⟩,
    by decide, by decide,
    C10_lastSeen_monotone 5 sampleManager (by decide) [(noDevices, Clock.const 9)]
      (⟨"ABC123 device\n", false⟩, Clock.const 12)
      ⟨Within_const 5 9 (by decide), Within_const 9 12 (by decide), trivial⟩
      "ABC123" ⟨"ABC123", "device", "Pixel6", 5, 1⟩ ⟨"ABC123", "device", "", 12, 0⟩
      (by decide) (by decide)⟩

/-! ## UTF-8: decoding what was encoded -/

theorem byte_val (n : Nat) : (byte n).val = n % 256 := rfl

theorem firstSize_two {x : Nat} (h0 : firstSize x ≠ 0) (h2 : firstSize x ≤ 2) (hx : ¬ x < 0x80) :
    0xC2 ≤ x ∧ x < 0xE0 := by
  unfold firstSize at h0 h2
  split_ifs at h0 h2 <;> omega

theorem firstSize_three {x : Nat} (h2 : ¬ firstSize x ≤ 2) (h3 : firstSize x ≤ 3) :
    0xE0 ≤ x ∧ x < 0xF0 := by
  unfold firstSize at h2 h3
  split_ifs at h2 h3 <;> omega

theorem firstSize_four {x : Nat} (h3 : ¬ firstSize x ≤ 3) : 0xF0 ≤ x ∧ x < 0xF5 := by
  unfold firstSize at h3
  split_ifs at h3 <;> omega

theorem accept_bounds {x c : Nat} (h : ¬ (c < acceptLo x ∨ acceptHi x < c)) :
    0x80 ≤ c ∧ c ≤ 0xBF ∧ (x = 0xE0 → 0xA0 ≤ c) ∧ (x = 0xF0 → 0x90 ≤ c) ∧
      (x = 0xED → c ≤ 0x9F) ∧ (x = 0xF4 → c ≤ 0x8F) := by
  unfold acceptLo acceptHi at h
  split_ifs at h <;> omega

theorem isCont_bounds {c : Nat} (h : ¬ (!isCont c) = true) : 0x80 ≤ c ∧ c ≤ 0xBF := by
  simpa [isCont] using h

/-- Every rune `DecodeRuneInString` returns is a Unicode scalar value. -/
theorem DecodeRuneInString_valid (s : Bytes) : ValidRune (DecodeRuneInString s).1 := by
  have herr : ValidRune RuneError := by unfold ValidRune RuneError; omega
  unfold DecodeRuneInString
  split
  · exact herr
  · rename_i s0 rest
    split
    · unfold ValidRune; dsimp only; omega
    · rename_i hx
      split
      · exact herr
      · rename_i hf0
        split
        · exact herr
        · split
          · exact herr
          · rename_i s1 rest1
            split
            · exact herr
            · rename_i hacc
              have hb := accept_bounds hacc
              split
              · unfold ValidRune; dsimp only; omega
              · rename_i hf2
                split
                · exact herr
                · rename_i s2 rest2
                  split
                  · exact herr
                  · rename_i hc2
                    have hb2 := isCont_bounds hc2
                    split
                    · rename_i hf3
                      have hr := firstSize_three hf2 hf3
                      unfold ValidRune; dsimp only; omega
                    · rename_i hf3
                      have hr := firstSize_four hf3
                      split
                      · exact herr
                      · rename_i s3 rest3
                        split
                        · exact herr
                        · rename_i hc3
                          have hb3 := isCont_bounds hc3
                          unfold ValidRune; dsimp only; omega

theorem firstSize_eq_two {x : Nat} (h : 0xC2 ≤ x ∧ x < 0xE0) : firstSize x = 2 := by
  unfold firstSize
  split_ifs <;> omega

theorem firstSize_eq_three {x : Nat} (h : 0xE0 ≤ x ∧ x < 0xF0) : firstSize x = 3 := by
  unfold firstSize
  split_ifs <;> omega

theorem firstSize_eq_four {x : Nat} (h : 0xF0 ≤ x ∧ x < 0xF5) : firstSize x = 4 := by
  unfold firstSize
  split_ifs <;> omega

theorem isCont_of_bounds {c : Nat} (h : 0x80 ≤ c ∧ c ≤ 0xBF) : isCont c = true := by
  simp [isCont, h.1, h.2]

theorem decode_one (s0 : Byte) (t : Bytes) (h : s0.val < 0x80) :
    DecodeRuneInString (s0 :: t) = (s0.val, 1) := by
  simp only [DecodeRuneInString, if_pos h]

theorem decode_two (s0 s1 : Byte) (t : Bytes) (h0 : 0xC2 ≤ s0.val ∧ s0.val < 0xE0)
    (h1 : 0x80 ≤ s1.val ∧ s1.val ≤ 0xBF) :
    DecodeRuneInString (s0 :: s1 :: t) = (s0.val % 32 * 64 + s1.val % 64, 2) := by
  have hx : ¬ s0.val < 0x80 := by omega
  have hacc : ¬ (s1.val < acceptLo s0.val ∨ acceptHi s0.val < s1.val) := by
    unfold acceptLo acceptHi
    split_ifs <;> omega
  simp only [DecodeRuneInString, if_neg hx, firstSize_eq_two h0, if_neg hacc, List.length_cons]
  simp

theorem decode_three (s0 s1 s2 : Byte) (t : Bytes) (h0 : 0xE0 ≤ s0.val ∧ s0.val < 0xF0)
    (h1 : 0x80 ≤ s1.val ∧ s1.val ≤ 0xBF) (hlo : s0.val = 0xE0 → 0xA0 ≤ s1.val)
    (hhi : s0.val = 0xED → s1.val ≤ 0x9F) (h2 : 0x80 ≤ s2.val ∧ s2.val ≤ 0xBF) :
    DecodeRuneInString (s0 :: s1 :: s2 :: t) =
      (s0.val % 16 * 4096 + s1.val % 64 * 64 + s2.val % 64, 3) := by
  have hx : ¬ s0.val < 0x80 := by omega
  have hacc : ¬ (s1.val < acceptLo s0.val ∨ acceptHi s0.val < s1.val) := by
    unfold acceptLo acceptHi
    split_ifs <;> omega
  simp only [DecodeRuneInString, if_neg hx, firstSize_eq_three h0, if_neg hacc, List.length_cons,
    isCont_of_bounds h2]
  simp

theorem decode_four (s0 s1 s2 s3 : Byte) (t : Bytes) (h0 : 0xF0 ≤ s0.val ∧ s0.val < 0xF5)
    (h1 : 0x80 ≤ s1.val ∧ s1.val ≤ 0xBF) (hlo : s0.val = 0xF0 → 0x90 ≤ s1.val)
    (hhi : s0.val = 0xF4 → s1.val ≤ 0x8F) (h2 : 0x80 ≤ s2.val ∧ s2.val ≤ 0xBF)
    (h3 : 0x80 ≤ s3.val ∧ s3.val ≤ 0xBF) :
    DecodeRuneInString (s0 :: s1 :: s2 :: s3 :: t) =
      (s0.val % 8 * 262144 + s1.val % 64 * 4096 + s2.val % 64 * 64 + s3.val % 64, 4) := by
  have hx : ¬ s0.val < 0x80 := by omega
  have hacc : ¬ (s1.val < acceptLo s0.val ∨ acceptHi s0.val < s1.val) := by
    unfold acceptLo acceptHi
    split_ifs <;> omega
  simp only [DecodeRuneInString, if_neg hx, firstSize_eq_four h0, if_neg hacc, List.length_cons,
    isCont_of_bounds h2, isCont_of_bounds h3]
  simp

/-- Decoding the encoding of a scalar value gives it back, with the width of
the encoding. -/
theorem decode_encodeRune (r : Nat) (hr : ValidRune r) (t : Bytes) :
    DecodeRuneInString (encodeRune r ++ t) = (r, (encodeRune r).length) := by
  obtain ⟨hmax, hsur⟩ := hr
  unfold encodeRune
  split_ifs with h1 h2 h3 h4
  · rw [List.singleton_append, decode_one _ _ (by rw [byte_val]; omega), byte_val]
    simp only [List.length_singleton, Prod.mk.injEq, and_true]
    omega
  · have e : [byte (0xC0 + r / 64), byte (0x80 + r % 64)] ++ t =
        byte (0xC0 + r / 64) :: byte (0x80 + r % 64) :: t := rfl
    rw [e, decode_two _ _ _ (by rw [byte_val]; omega) (by rw [byte_val]; omega), byte_val,
      byte_val]
    simp only [List.length_cons, List.length_nil, Prod.mk.injEq, and_true]
    omega
  · omega
  · have e : [byte (0xE0 + r / 4096), byte (0x80 + r / 64 % 64), byte (0x80 + r % 64)] ++ t =
        byte (0xE0 + r / 4096) :: byte (0x80 + r / 64 % 64) :: byte (0x80 + r % 64) :: t := rfl
    rw [e, decode_three _ _ _ _ (by rw [byte_val]; omega) (by rw [byte_val]; omega)
      (by rw [byte_val, byte_val]; omega) (by rw [byte_val, byte_val]; omega)
      (by rw [byte_val]; omega), byte_val, byte_val, byte_val]
    simp only [List.length_cons, List.length_nil, Prod.mk.injEq, and_true]
    omega
  · have e : [byte (0xF0 + r / 262144), byte (0x80 + r / 4096 % 64), byte (0x80 + r / 64 % 64),
          byte (0x80 + r % 64)] ++ t =
        byte (0xF0 + r / 262144) :: byte (0x80 + r / 4096 % 64) :: byte (0x80 + r / 64 % 64) ::
          byte (0x80 + r % 64) :: t := rfl
    rw [e, decode_four _ _ _ _ _ (by rw [byte_val]; omega) (by rw [byte_val]; omega)
      (by rw [byte_val, byte_val]; omega) (by rw [byte_val, byte_val]; omega)
      (by rw [byte_val]; omega) (by rw [byte_val]; omega), byte_val, byte_val, byte_val, byte_val]
    simp only [List.length_cons, List.length_nil, Prod.mk.injEq, and_true]
    omega

theorem encodeRune_eq_cons (r : Nat) : ∃ b l, encodeRune r = b :: l := by
  unfold encodeRune
  split_ifs <;> exact ⟨_, _, rfl⟩

theorem rangeRunes_skip (l t : Bytes) : rangeRunes l.length (l ++ t) = rangeRunes 0 t := by
  induction l with
  | nil => rfl
  | cons b l ih =>
    cases t with
    | nil => simpa [rangeRunes] using ih
    | cons c t => simpa [rangeRunes] using ih

theorem validFrom_skip (l t : Bytes) : validFrom l.length (l ++ t) = validFrom 0 t := by
  induction l with
  | nil => rfl
  | cons b l ih => simpa [validFrom] using ih

theorem rangeRunes_encodeRune (r : Nat) (hr : ValidRune r) (t : Bytes) :
    rangeRunes 0 (encodeRune r ++ t) = r :: rangeRunes 0 t := by
  have hd := decode_encodeRune r hr t
  obtain ⟨b, l, hbl⟩ := encodeRune_eq_cons r
  rw [hbl] at hd ⊢
  rw [List.cons_append] at hd ⊢
  rw [rangeRunes, hd]
  simp only [List.length_cons, Nat.add_sub_cancel]
  rw [rangeRunes_skip]

theorem validFrom_encodeRune (r : Nat) (hr : ValidRune r) (t : Bytes) :
    validFrom 0 (encodeRune r ++ t) = validFrom 0 t := by
  have hd := decode_encodeRune r hr t
  have hne : (r, (encodeRune r).length) ≠ (RuneError, 1) := by
    intro h
    simp only [Prod.mk.injEq] at h
    obtain ⟨h1, h2⟩ := h
    unfold encodeRune RuneError at *
    split_ifs at h2 <;> first | omega | simp at h2
  obtain ⟨b, l, hbl⟩ := encodeRune_eq_cons r
  rw [hbl] at hd hne ⊢
  rw [List.cons_append] at hd ⊢
  rw [validFrom, hd, if_neg hne]
  simp only [List.length_cons, Nat.add_sub_cancel]
  rw [validFrom_skip]

/-- The runes of the encoding of scalar values are those values. -/
theorem runes_encodeRunes (rs : List Nat) (h : ∀ r ∈ rs, ValidRune r) :
    runes (encodeRunes rs) = rs := by
  induction rs with
  | nil => rfl
  | cons r rs ih =>
    unfold runes at ih ⊢
    rw [encodeRunes, rangeRunes_encodeRune r (h r (List.mem_cons_self _ _)),
      ih (fun x hx => h x (List.mem_cons_of_mem _ hx))]

/-- The encoding of scalar values is valid UTF-8. -/
theorem ValidString_encodeRunes (rs : List Nat) (h : ∀ r ∈ rs, ValidRune r) :
    ValidString (encodeRunes rs) = true := by
  induction rs with
  | nil => rfl
  | cons r rs ih =>
    unfold ValidString at ih ⊢
    rw [encodeRunes, validFrom_encodeRune r (h r (List.mem_cons_self _ _)),
      ih (fun x hx => h x (List.mem_cons_of_mem _ hx))]

theorem rangeRunes_valid (k : Nat) (s : Bytes) : ∀ r ∈ rangeRunes k s, ValidRune r := by
  induction s generalizing k with
  | nil =>
    intro r hr
    cases k <;> simp [rangeRunes] at hr
  | cons b s ih =>
    intro r hr
    cases k with
    | succ k => exact ih k r (by simpa [rangeRunes] using hr)
    | zero =>
      rw [rangeRunes, List.mem_cons] at hr
      rcases hr with hr | hr
      · rw [hr]
        exact DecodeRuneInString_valid _
      · exact ih _ r hr

theorem stripInvalid_runes (s : Bytes) :
    runes (stripInvalid s) = (runes s).filter (fun r => r ≠ RuneError) := by
  unfold stripInvalid
  apply runes_encodeRunes
  intro r hr
  exact rangeRunes_valid 0 s r (List.mem_of_mem_filter hr)

theorem stripInvalid_valid (s : Bytes) : ValidString (stripInvalid s) = true := by
  unfold stripInvalid
  apply ValidString_encodeRunes
  intro r hr
  exact rangeRunes_valid 0 s r (List.mem_of_mem_filter hr)

theorem ValidString_of_filter {o : Option Bytes} {u : Bytes}
    (h : o.filter ValidString = some u) : ValidString u = true := by
  cases o with
  | none => simp [Option.filter] at h
  | some v =>
    simp only [Option.filter] at h
    split at h
    · cases h
      assumption
    · cases h

/-- The result of `ensureUTF8` is valid UTF-8, whatever the input and whatever
the decoders do. -/
theorem ensureUTF8_valid (dec : Decoders) (s : Bytes) : ValidString (ensureUTF8 dec s) = true := by
  unfold ensureUTF8
  split
  · assumption
  · split
    · rename_i u hu
      exact ValidString_of_filter hu
    · split
      · rename_i u hu
        exact ValidString_of_filter hu
      · exact stripInvalid_valid s

/-- When the GBK decoder returns valid UTF-8 without an error, `ensureUTF8`
returns what it decoded: neither the second decoder nor the stripping stage is
reached. -/
theorem ensureUTF8_of_gbk (dec : Decoders) (s u : Bytes) (hs : ValidString s = false)
    (hg : dec.gbk s = some u) (hu : ValidString u = true) : ensureUTF8 dec s = u := by
  unfold ensureUTF8
  rw [hs, hg]
  simp [Option.filter, hu]

/-- C12: a byte sequence that is valid UTF-8 passes through `ensureUTF8`
unchanged, whatever the decoders are. -/
theorem C12_valid_utf8_unchanged (dec : Decoders) (s : Bytes) (h : ValidString s = true) :
    ensureUTF8 dec s = s := by
  unfold ensureUTF8
  rw [if_pos h]

theorem C12_valid_utf8_unchanged_witness :
    ValidString (lit "设备 ABC123 online\n") = true ∧
    ensureUTF8 replaceFF (lit "设备 ABC123 online\n") = lit "设备 ABC123 online\n" :=
  ⟨by decide, C12_valid_utf8_unchanged replaceFF (lit "设备 ABC123 online\n") (by decide)⟩

/-- C13: `ensureUTF8` does not reach its last stage when the GBK decoder answers
without an error and with valid UTF-8, as the decoders of `golang.org/x/text`
do on every input: it returns the answer of the decoder, replacement characters
included.  The bytes `41 FF` are not valid UTF-8 and are valid neither as GBK
nor as GB18030; the decoder answers `A` followed by U+FFFD, `ensureUTF8`
returns that, and U+FFFD is among the runes of the result.  The last stage
(lines 385 to 391), which removes the invalid runes, would have returned `A`. -/
theorem C13_replacement_kept :
    (∀ (dec : Decoders) (s u : Bytes), ValidString s = false → dec.gbk s = some u →
      ValidString u = true → ensureUTF8 dec s = u) ∧
    ValidString [byte 0x41, byte 0xFF] = false ∧
    replaceFF.gbk [byte 0x41, byte 0xFF] = some (lit "A\uFFFD") ∧
    ensureUTF8 replaceFF [byte 0x41, byte 0xFF] = lit "A\uFFFD" ∧
    RuneError ∈ runes (ensureUTF8 replaceFF [byte 0x41, byte 0xFF]) ∧
    stripInvalid [byte 0x41, byte 0xFF] = lit "A" :=
  ⟨ensureUTF8_of_gbk, by decide, by decide, by decide, by decide, by decide⟩

/-! ## The session client -/

theorem ExecuteCommand_log (dec : Decoders) (br : Bridge) (m : ADBManager)
    (log : List Invocation) (serial command : String) :
    (ExecuteCommand dec br m log serial command).log =
      log ++ [shellInvocation m serial (wrapCommandWithBusybox m command)] := by
  unfold ExecuteCommand
  dsimp only
  split
  · split
    · rfl
    · split <;> rfl
  · rfl

/-- C11: after `SetBusyboxEnabled(true)`, `ExecuteCommand("", "ls")` runs the
bridge with the arguments `shell`, `busybox ls` (no `-s`); after
`SetBusyboxEnabled(false)` it runs it with `shell`, `ls`; and
`IsBusyboxEnabled` returns the value last set. -/
theorem C11_busybox_wrapping (dec : Decoders) (br : Bridge) (m : ADBManager)
    (log : List Invocation) :
    (ExecuteCommand dec br (SetBusyboxEnabled m true) log "" "ls").log =
      log ++ [{ path := m.adbPath, args := ["shell", "busybox ls"] }] ∧
    (ExecuteCommand dec br (SetBusyboxEnabled m false) log "" "ls").log =
      log ++ [{ path := m.adbPath, args := ["shell", "ls"] }] ∧
    (∀ enabled, IsBusyboxEnabled (SetBusyboxEnabled m enabled) = enabled) ∧
    ∀ a b, IsBusyboxEnabled (SetBusyboxEnabled (SetBusyboxEnabled m a) b) = b := by
  refine ⟨?_, ?_, fun _ => rfl, fun _ _ => rfl⟩
  · rw [ExecuteCommand_log]
    rfl
  · rw [ExecuteCommand_log]
    rfl

theorem ValidString_nil : ValidString [] = true := rfl

/-- C14: the string `ExecuteCommand` returns is valid UTF-8 for every output of
the subprocess and every exit status, on the success path and on each of the
failure paths. -/
theorem C14_output_valid_utf8 (dec : Decoders) (br : Bridge) (m : ADBManager)
    (log : List Invocation) (serial command : String) :
    ValidString (ExecuteCommand dec br m log serial command).output = true := by
  unfold ExecuteCommand
  dsimp only
  split
  · split
    · exact ValidString_nil
    · split <;> exact ensureUTF8_valid _ _
  · exact ensureUTF8_valid _ _

/-- C15, as stated, fails: a command that fails with the version warning
`doesn't match` in its output returns the empty string with its error, not the
normalised output of the tool. -/
theorem C15_counterexample :
    (ExecuteCommand replaceFF (constBridge versionWarning) NewADBManager [] "" "ls").err ≠ none ∧
    (ExecuteCommand replaceFF (constBridge versionWarning) NewADBManager [] "" "ls").output ≠
      ensureUTF8 replaceFF versionWarning.combined := by
  decide

/-- C15, amended: when `ExecuteCommand` returns an error, the string it returns
is the normalised combined output of the subprocess unless that output holds
the version-mismatch text `doesn't match`; in that case the returned string is
empty and the error is the version-conflict error. -/
theorem C15_error_output (dec : Decoders) (br : Bridge) (m : ADBManager)
    (log : List Invocation) (serial command : String)
    (h : (ExecuteCommand dec br m log serial command).err ≠ none) :
    (ContainsBytes
        (ensureUTF8 dec
          (br.run log (shellInvocation m serial (wrapCommandWithBusybox m command))).combined)
        (lit "doesn't match") = false →
      (ExecuteCommand dec br m log serial command).output =
        ensureUTF8 dec
          (br.run log (shellInvocation m serial (wrapCommandWithBusybox m command))).combined) ∧
    (ContainsBytes
        (ensureUTF8 dec
          (br.run log (shellInvocation m serial (wrapCommandWithBusybox m command))).combined)
        (lit "doesn't match") = true →
      (ExecuteCommand dec br m log serial command).output = [] ∧
      ∃ cause, (ExecuteCommand dec br m log serial command).err =
        some (GoError.versionConflict cause)) := by
  unfold ExecuteCommand at h ⊢
  dsimp only at h ⊢
  cases herr : (br.run log (shellInvocation m serial (wrapCommandWithBusybox m command))).err with
  | none =>
    rw [herr] at h
    exact absurd rfl h
  | some e =>
    simp only [herr]
    constructor
    · intro hc
      rw [if_neg (by simp [hc])]
      split <;> rfl
    · intro hc
      rw [if_pos hc]
      exact ⟨rfl, e, rfl⟩

theorem C15_error_output_witness :
    (ExecuteCommand replaceFF noSuBridge NewADBManager [] "ABC123" "su -c id").err ≠ none ∧
    ((ContainsBytes
        (ensureUTF8 replaceFF
          (noSuBridge.run [] (shellInvocation NewADBManager "ABC123"
            (wrapCommandWithBusybox NewADBManager "su -c id"))).combined)
        (lit "doesn't match") = false →
      (ExecuteCommand replaceFF noSuBridge NewADBManager [] "ABC123" "su -c id").output =
        ensureUTF8 replaceFF
          (noSuBridge.run [] (shellInvocation NewADBManager "ABC123"
            (wrapCommandWithBusybox NewADBManager "su -c id"))).combined) ∧
    (ContainsBytes
        (ensureUTF8 replaceFF
          (noSuBridge.run [] (shellInvocation NewADBManager "ABC123"
            (wrapCommandWithBusybox NewADBManager "su -c id"))).combined)
        (lit "doesn't match") = true →
      (ExecuteCommand replaceFF noSuBridge NewADBManager [] "ABC123" "su -c id").output = [] ∧
      ∃ cause, (ExecuteCommand replaceFF noSuBridge NewADBManager [] "ABC123" "su -c id").err =
        some (GoError.versionConflict cause))) :=
  ⟨by decide, C15_error_output replaceFF noSuBridge NewADBManager [] "ABC123" "su -c id" (by decide)⟩

theorem combined_eq_stdout_aux (ws : List (Bool × Bytes))
    (h : ws.foldr (fun w acc => if w.1 then w.2 ++ acc else acc) [] = []) :
    ws.foldr (fun w acc => w.2 ++ acc) [] =
      ws.foldr (fun w acc => if w.1 then acc else w.2 ++ acc) [] := by
  induction ws with
  | nil => rfl
  | cons w ws ih =>
    simp only [List.foldr_cons] at h ⊢
    by_cases hw : w.1 = true
    · rw [if_pos hw] at h ⊢
      obtain ⟨h1, h2⟩ := List.append_eq_nil.mp h
      rw [h1, List.nil_append, ih h2]
    · rw [if_neg hw] at h ⊢
      rw [ih h]

theorem combined_eq_stderr_aux (ws : List (Bool × Bytes))
    (h : ws.foldr (fun w acc => if w.1 then acc else w.2 ++ acc) [] = []) :
    ws.foldr (fun w acc => w.2 ++ acc) [] =
      ws.foldr (fun w acc => if w.1 then w.2 ++ acc else acc) [] := by
  induction ws with
  | nil => rfl
  | cons w ws ih =>
    simp only [List.foldr_cons] at h ⊢
    by_cases hw : w.1 = true
    · rw [if_pos hw] at h ⊢
      rw [ih h]
    · rw [if_neg hw] at h ⊢
      obtain ⟨h1, h2⟩ := List.append_eq_nil.mp h
      rw [h1, List.nil_append, ih h2]

/-- A subprocess that wrote nothing to standard error: the combined output is
the standard output. -/
theorem combined_eq_stdout (r : ProcResult) (h : r.stderr = []) : r.combined = r.stdout :=
  combined_eq_stdout_aux r.writes h

/-- A subprocess that wrote nothing to standard output: the combined output is
the standard error. -/
theorem combined_eq_stderr (r : ProcResult) (h : r.stdout = []) : r.combined = r.stderr :=
  combined_eq_stderr_aux r.writes h

theorem ensureUTF8_of_valid (dec : Decoders) (s : Bytes) (h : ValidString s = true) :
    ensureUTF8 dec s = s := by
  unfold ensureUTF8
  rw [if_pos h]

/-- C16: `ExecuteCommandWithTimeout` calls neither `wrapCommandWithBusybox` nor
`ensureUTF8`, which `ExecuteCommand` calls.  With the busybox flag set and the
command `ls`, on a bridge whose subprocess finishes before the timeout,
`ExecuteCommand` runs `adb shell "busybox ls"` and `ExecuteCommandWithTimeout`
runs `adb shell "ls"`, without an error.  And when the subprocess writes the
byte `FF`, `ExecuteCommandWithTimeout` returns that byte, which is not valid
UTF-8, where `ExecuteCommand` returns U+FFFD. -/
theorem C16_timeout_not_wrapped :
    (ExecuteCommand replaceFF (constBridge listing) (SetBusyboxEnabled NewADBManager true)
        [] "" "ls").log = [⟨"adb", ["shell", "busybox ls"]⟩] ∧
    (ExecuteCommandWithTimeout (constBridge listing) (SetBusyboxEnabled NewADBManager true) []
        "" "ls" (5 * 1000000000)).log = [⟨"adb", ["shell", "ls"]⟩] ∧
    (ExecuteCommandWithTimeout (constBridge listing) (SetBusyboxEnabled NewADBManager true) []
        "" "ls" (5 * 1000000000)).err = none ∧
    (ExecuteCommandWithTimeout (constBridge ⟨[(false, [byte 0xFF])], none⟩) NewADBManager []
        "" "ls" (5 * 1000000000)).output = [byte 0xFF] ∧
    ValidString [byte 0xFF] = false ∧
    (ExecuteCommand replaceFF (constBridge ⟨[(false, [byte 0xFF])], none⟩) NewADBManager
        [] "" "ls").output = lit "\uFFFD" := by
  decide

/-- Where the two functions agree.  When the subprocess finishes before the
timeout, `ExecuteCommandWithTimeout` returns the standard output of the
subprocess and no error when the subprocess succeeded, and its standard error
and its error when it failed.  When the busybox flag adds no prefix to the
command (the flag is off, or the command starts with `busybox `), it runs the
subprocess `ExecuteCommand` runs; and for the same behaviour `r` of that
subprocess both return the same output and the same error when the subprocess
wrote to that one stream only, what it wrote is valid UTF-8 and, on failure,
does not hold the version-mismatch text. -/
theorem ExecuteCommandWithTimeout_agrees (dec : Decoders) (br : Bridge) (m : ADBManager)
    (log : List Invocation) (serial command : String) (timeout : Int) (r : ProcResult)
    (hfin : br.runTimed log (shellInvocation m serial command) timeout = .finished r)
    (hrun : br.run log (shellInvocation m serial command) = r)
    (hwrap : wrapCommandWithBusybox m command = command) :
    (ExecuteCommandWithTimeout br m log serial command timeout).log =
      (ExecuteCommand dec br m log serial command).log ∧
    (r.err = none →
      (ExecuteCommandWithTimeout br m log serial command timeout).output = r.stdout ∧
      (ExecuteCommandWithTimeout br m log serial command timeout).err = none) ∧
    (∀ e, r.err = some e →
      (ExecuteCommandWithTimeout br m log serial command timeout).output = r.stderr ∧
      (ExecuteCommandWithTimeout br m log serial command timeout).err = some e) ∧
    (r.err = none → r.stderr = [] → ValidString r.stdout = true →
      ExecuteCommandWithTimeout br m log serial command timeout =
        ExecuteCommand dec br m log serial command) ∧
    (r.err ≠ none → r.stdout = [] → ValidString r.stderr = true →
      ContainsBytes r.stderr (lit "doesn't match") = false →
      ExecuteCommandWithTimeout br m log serial command timeout =
        ExecuteCommand dec br m log serial command) := by
  have hT : ExecuteCommandWithTimeout br m log serial command timeout =
      match r.err with
      | some err =>
        { output := r.stderr, err := some err, log := log ++ [shellInvocation m serial command] }
      | none =>
        { output := r.stdout, err := none, log := log ++ [shellInvocation m serial command] } := by
    unfold ExecuteCommandWithTimeout
    dsimp only
    rw [hfin]
  refine ⟨?_, ?_, ?_, ?_, ?_⟩
  · rw [ExecuteCommand_log, hwrap, hT]
    cases r.err <;> rfl
  · intro h
    rw [hT, h]
    exact ⟨rfl, rfl⟩
  · intro e h
    rw [hT, h]
    exact ⟨rfl, rfl⟩
  · intro h hs hv
    rw [hT, h]
    unfold ExecuteCommand
    dsimp only
    rw [hwrap, hrun, h]
    dsimp only
    rw [combined_eq_stdout r hs, ensureUTF8_of_valid dec _ hv]
  · intro h hs hv hc
    rw [hT]
    unfold ExecuteCommand
    dsimp only
    rw [hwrap, hrun]
    cases he : r.err with
    | none => exact absurd he h
    | some e =>
      dsimp only
      rw [combined_eq_stderr r hs, ensureUTF8_of_valid dec _ hv, if_neg (by simp [hc])]
      split <;> rfl

theorem ExecuteCommandWithTimeout_agrees_example :
    (constBridge listing).runTimed [] (shellInvocation NewADBManager "ABC123" "ls /") 7 =
      .finished listing ∧
    (constBridge listing).run [] (shellInvocation NewADBManager "ABC123" "ls /") = listing ∧
    wrapCommandWithBusybox NewADBManager "ls /" = "ls /" ∧
    listing.err = none ∧ listing.stderr = [] ∧ ValidString listing.stdout = true ∧
    ((ExecuteCommandWithTimeout (constBridge listing) NewADBManager [] "ABC123" "ls /" 7).log =
        (ExecuteCommand replaceFF (constBridge listing) NewADBManager [] "ABC123" "ls /").log ∧
      (listing.err = none →
        (ExecuteCommandWithTimeout (constBridge listing) NewADBManager [] "ABC123" "ls /"
          7).output = listing.stdout ∧
        (ExecuteCommandWithTimeout (constBridge listing) NewADBManager [] "ABC123" "ls /"
          7).err = none) ∧
      (∀ e, listing.err = some e →
        (ExecuteCommandWithTimeout (constBridge listing) NewADBManager [] "ABC123" "ls /"
          7).output = listing.stderr ∧
        (ExecuteCommandWithTimeout (constBridge listing) NewADBManager [] "ABC123" "ls /"
          7).err = some e) ∧
      (listing.err = none → listing.stderr = [] → ValidString listing.stdout = true →
        ExecuteCommandWithTimeout (constBridge listing) NewADBManager [] "ABC123" "ls /" 7 =
          ExecuteCommand replaceFF (constBridge listing) NewADBManager [] "ABC123" "ls /") ∧
      (listing.err ≠ none → listing.stdout = [] → ValidString listing.stderr = true →
        ContainsBytes listing.stderr (lit "doesn't match") = false →
        ExecuteCommandWithTimeout (constBridge listing) NewADBManager [] "ABC123" "ls /" 7 =
          ExecuteCommand replaceFF (constBridge listing) NewADBManager [] "ABC123" "ls /")) :=
  ⟨rfl, rfl, by decide, rfl, by decide, by decide,
    ExecuteCommandWithTimeout_agrees replaceFF (constBridge listing) NewADBManager [] "ABC123"
      "ls /" 7 listing
      rfl rfl (by decide)⟩

theorem TryEnableRoot_log (dec : Decoders) (br : Bridge) (m : ADBManager)
    (log : List Invocation) (serial : String) :
    (TryEnableRoot dec br m log serial).2 = log ++ [rootInvocation m serial] := by
  unfold TryEnableRoot
  dsimp only
  split <;> rfl

theorem shellInvocation_ne_rootInvocation (m : ADBManager) (serial command : String) :
    shellInvocation m serial command ≠ rootInvocation m serial := by
  unfold shellInvocation rootInvocation
  split <;> simp

/-- C17: `ExecuteAsRoot` first runs the command wrapped as `su -c "<command>"`
through `ExecuteCommand`.  If that returns no error, its result is returned and
nothing else is run.  If it returns an error, `TryEnableRoot` is called once;
when that succeeds the plain command is run once through `ExecuteCommand` and
its result returned, and when it fails the output and the error of the `su`
attempt are returned.  The subprocesses of a call are at most three, at most
two of them command executions. -/
theorem C17_root_fallback (dec : Decoders) (br : Bridge) (m : ADBManager)
    (log : List Invocation) (serial command : String) :
    ((ExecuteCommand dec br m log serial ("su -c \"" ++ command ++ "\"")).err = none →
      ExecuteAsRoot dec br m log serial command =
        ExecuteCommand dec br m log serial ("su -c \"" ++ command ++ "\"") ∧
      (ExecuteAsRoot dec br m log serial command).log =
        log ++ [shellInvocation m serial
          (wrapCommandWithBusybox m ("su -c \"" ++ command ++ "\""))]) ∧
    ((ExecuteCommand dec br m log serial ("su -c \"" ++ command ++ "\"")).err ≠ none →
      (TryEnableRoot dec br m
        (ExecuteCommand dec br m log serial ("su -c \"" ++ command ++ "\"")).log serial).1 = none →
      ExecuteAsRoot dec br m log serial command =
        ExecuteCommand dec br m
          (TryEnableRoot dec br m
            (ExecuteCommand dec br m log serial ("su -c \"" ++ command ++ "\"")).log serial).2
          serial command ∧
      (ExecuteAsRoot dec br m log serial command).log =
        log ++ [shellInvocation m serial
            (wrapCommandWithBusybox m ("su -c \"" ++ command ++ "\"")),
          rootInvocation m serial,
          shellInvocation m serial (wrapCommandWithBusybox m command)]) ∧
    ((ExecuteCommand dec br m log serial ("su -c \"" ++ command ++ "\"")).err ≠ none →
      (TryEnableRoot dec br m
        (ExecuteCommand dec br m log serial ("su -c \"" ++ command ++ "\"")).log serial).1 ≠ none →
      (ExecuteAsRoot dec br m log serial command).output =
        (ExecuteCommand dec br m log serial ("su -c \"" ++ command ++ "\"")).output ∧
      (ExecuteAsRoot dec br m log serial command).err =
        (ExecuteCommand dec br m log serial ("su -c \"" ++ command ++ "\"")).err ∧
      (ExecuteAsRoot dec br m log serial command).log =
        log ++ [shellInvocation m serial
            (wrapCommandWithBusybox m ("su -c \"" ++ command ++ "\"")),
          rootInvocation m serial]) ∧
    ∃ extra, (ExecuteAsRoot dec br m log serial command).log = log ++ extra ∧
      extra.length ≤ 3 ∧ (extra.filter (fun c => c ≠ rootInvocation m serial)).length ≤ 2 := by
  have hlog1 := ExecuteCommand_log dec br m log serial ("su -c \"" ++ command ++ "\"")
  have hlogT := TryEnableRoot_log dec br m
    (ExecuteCommand dec br m log serial ("su -c \"" ++ command ++ "\"")).log serial
  have hne1 := shellInvocation_ne_rootInvocation m serial
    (wrapCommandWithBusybox m ("su -c \"" ++ command ++ "\""))
  have hne2 := shellInvocation_ne_rootInvocation m serial (wrapCommandWithBusybox m command)
  cases h1 : (ExecuteCommand dec br m log serial ("su -c \"" ++ command ++ "\"")).err with
  | none =>
    have hA : ExecuteAsRoot dec br m log serial command =
        ExecuteCommand dec br m log serial ("su -c \"" ++ command ++ "\"") := by
      unfold ExecuteAsRoot
      dsimp only
      rw [h1]
    refine ⟨fun _ => ⟨hA, by rw [hA, hlog1]⟩, fun h => absurd rfl h, fun h => absurd rfl h, ?_⟩
    exact ⟨_, by rw [hA, hlog1], by simp, by simp [hne1]⟩
  | some e1 =>
    cases hT : TryEnableRoot dec br m
        (ExecuteCommand dec br m log serial ("su -c \"" ++ command ++ "\"")).log serial with
    | mk rootErr log2 =>
      rw [hT] at hlogT
      dsimp only at hlogT
      cases rootErr with
      | none =>
        have hA : ExecuteAsRoot dec br m log serial command =
            ExecuteCommand dec br m log2 serial command := by
          unfold ExecuteAsRoot
          dsimp only
          rw [h1]
          dsimp only
          rw [hT]
        have hL : (ExecuteAsRoot dec br m log serial command).log =
            log ++ [shellInvocation m serial
                (wrapCommandWithBusybox m ("su -c \"" ++ command ++ "\"")),
              rootInvocation m serial,
              shellInvocation m serial (wrapCommandWithBusybox m command)] := by
          rw [hA, ExecuteCommand_log, hlogT, hlog1]
          simp
        refine ⟨fun h => absurd h (by simp), fun _ _ => ⟨hA, hL⟩,
          fun _ h => absurd rfl h, ?_⟩
        exact ⟨_, hL, by simp, by simp [hne1, hne2]⟩
      | some e2 =>
        have hA : ExecuteAsRoot dec br m log serial command =
            { ExecuteCommand dec br m log serial ("su -c \"" ++ command ++ "\"") with
              log := log2 } := by
          unfold ExecuteAsRoot
          dsimp only
          rw [h1]
          dsimp only
          rw [hT]
        have hL : (ExecuteAsRoot dec br m log serial command).log =
            log ++ [shellInvocation m serial
                (wrapCommandWithBusybox m ("su -c \"" ++ command ++ "\"")),
              rootInvocation m serial] := by
          rw [hA]
          dsimp only
          rw [hlogT, hlog1]
          simp
        refine ⟨fun h => absurd h (by simp), fun _ h => absurd h (by simp),
          fun _ _ => ⟨by rw [hA], by rw [hA, h1], hL⟩, ?_⟩
        exact ⟨_, hL, by simp, by simp [hne1]⟩

/-! ## Importing targets -/

theorem splitBytesAux_length (sep : Byte) (s acc : Bytes) :
    (splitBytesAux sep s acc).length = s.count sep + 1 := by
  induction s generalizing acc with
  | nil => simp [splitBytesAux]
  | cons b s ih =>
    unfold splitBytesAux
    by_cases hb : b = sep
    · subst hb
      simp [ih]
    · have hne : ¬ (b == sep) = true := by simpa using hb
      simp [hb, ih, List.count_cons, hne]

theorem singleton_infix_iff_mem (a : Byte) (l : Bytes) : [a] <:+: l ↔ a ∈ l := by
  constructor
  · rintro ⟨s, t, h⟩
    rw [← h]
    simp
  · intro h
    obtain ⟨s, t, h⟩ := List.append_of_mem h
    exact ⟨s, t, by rw [h]; simp⟩

theorem lit_colon : lit ":" = [byte 0x3A] := by decide

/-- The test of lines 42 to 50 of `batch.go` on a trimmed line, as a shape. -/
theorem importLine_eq (targets : List Bytes) (text : Bytes) :
    importLine targets text =
      if isTargetLine (TrimSpaceBytes text) then targets ++ [TrimSpaceBytes text]
      else targets := by
  unfold importLine isTargetLine SplitBytes ContainsBytes
  dsimp only
  rw [splitBytesAux_length, lit_colon]
  have hcount := @List.one_le_count_iff _ _ _ (byte 0x3A) (TrimSpaceBytes text)
  have hinf := singleton_infix_iff_mem (byte 0x3A) (TrimSpaceBytes text)
  by_cases h1 : TrimSpaceBytes text = []
  · simp [h1]
  · by_cases h2 : HasPrefixBytes (TrimSpaceBytes text) (lit "#") = true
    · simp [h1, h2]
    · by_cases h3 : List.count (byte 0x3A) (TrimSpaceBytes text) = 1
      · have hmem : byte 0x3A ∈ TrimSpaceBytes text := hcount.mp (by omega)
        simp [h1, h2, h3, hinf.mpr hmem]
      · simp [h1, h2, h3]

theorem foldl_importLine (lines : List Bytes) (targets : List Bytes) :
    lines.foldl importLine targets =
      targets ++ (lines.map TrimSpaceBytes).filter isTargetLine := by
  induction lines generalizing targets with
  | nil => simp
  | cons l ls ih =>
    rw [List.foldl_cons, ih, importLine_eq]
    by_cases h : isTargetLine (TrimSpaceBytes l) = true
    · simp [h]
    · simp [h]

/-- When every line is shorter than the buffer of the scanner, the scanner
yields every line of the file and reports no error. -/
theorem scanLinesAux_short (s acc : Bytes)
    (h : ∀ l ∈ rawLinesAux s acc, l.length < maxScanTokenSize) :
    scanLinesAux s acc = ((rawLinesAux s acc).map dropCR, false) := by
  induction s generalizing acc with
  | nil =>
    rw [rawLinesAux] at h
    rw [scanLinesAux, rawLinesAux]
    by_cases he : acc.isEmpty = true
    · simp [he]
    · have hl := h acc.reverse (by simp [he])
      rw [List.length_reverse] at hl
      simp [he, Nat.not_le.mpr hl]
  | cons b s ih =>
    rw [rawLinesAux] at h
    rw [scanLinesAux, rawLinesAux]
    by_cases hb : b.val = 0x0A
    · rw [if_pos hb] at h
      rw [if_pos hb, if_pos hb]
      have hl := h acc.reverse (List.mem_cons_self _ _)
      rw [List.length_reverse] at hl
      rw [if_neg (Nat.not_le.mpr hl), ih [] (fun l hl1 => h l (List.mem_cons_of_mem _ hl1))]
      simp
    · rw [if_neg hb] at h
      rw [if_neg hb, if_neg hb]
      exact ih (b :: acc) h

/-- A run of `n` bytes other than the line feed goes to the current line. -/
theorem scanLinesAux_replicate (n : Nat) (a : Byte) (ha : a.val ≠ 0x0A) (rest acc : Bytes) :
    scanLinesAux (List.replicate n a ++ rest) acc =
      scanLinesAux rest (List.replicate n a ++ acc) := by
  induction n generalizing acc with
  | zero => rfl
  | succ n ih =>
    rw [List.replicate_succ, List.cons_append, scanLinesAux, if_neg ha, ih]
    congr 1
    rw [← List.replicate_succ, List.replicate_succ', List.append_assoc]
    rfl

/-- C20, as stated, fails: a file whose first line has 65536 bytes makes the
scanner stop with `ErrTooLong`; the line `host:1` after it has the shape of a
target and is not appended, and an error is returned. -/
theorem C20_counterexample :
    lit "host:1" ∈ (fileLines (List.replicate 65536 (byte 0x61) ++ lit "\nhost:1\n")).map
      TrimSpaceBytes ∧
    isTargetLine (lit "host:1") = true ∧
    ImportTargetsFromFile [] (List.replicate 65536 (byte 0x61) ++ lit "\nhost:1\n") =
      ([], some (.readFailed (.exec "bufio.Scanner: token too long"))) := by
  refine ⟨?_, by decide, ?_⟩
  · have hr : ∀ (n : Nat) (rest acc : Bytes),
        rawLinesAux (List.replicate n (byte 0x61) ++ rest) acc =
          rawLinesAux rest (List.replicate n (byte 0x61) ++ acc) := by
      intro n
      induction n with
      | zero => intro rest acc; rfl
      | succ n ih =>
        intro rest acc
        rw [List.replicate_succ, List.cons_append, rawLinesAux,
          if_neg (by decide : ¬ (byte 0x61).val = 0x0A), ih]
        congr 1
        rw [← List.replicate_succ, List.replicate_succ', List.append_assoc]
        rfl
    have hrest : ∀ acc : Bytes, rawLinesAux (lit "\nhost:1\n") acc = [acc.reverse, lit "host:1"] := by
      intro acc
      rfl
    unfold fileLines
    rw [hr, hrest]
    simp only [List.map_cons, List.map_nil, List.mem_cons]
    right
    left
    decide
  · have hs : scanLinesAux (List.replicate 65536 (byte 0x61) ++ lit "\nhost:1\n") [] =
        ([], true) := by
      rw [scanLinesAux_replicate 65536 (byte 0x61) (by decide)]
      have hlen : maxScanTokenSize ≤ (List.replicate 65536 (byte 0x61) ++ ([] : Bytes)).length := by
        rw [List.append_nil, List.length_replicate]
        decide
      have hl : lit "\nhost:1\n" = byte 0x0A :: lit "host:1\n" := by decide
      rw [hl, scanLinesAux, if_pos (by decide), if_pos hlen]
    unfold ImportTargetsFromFile
    rw [hs]
    rfl

/-- C20, amended: for every file in which every line is shorter than 65536
bytes (the buffer of the scanner) and every prior target list,
`ImportTargetsFromFile` returns no error and appends to the target list, in
file order, exactly the whitespace-trimmed lines that are not empty, do not
start with `#` and hold exactly one `:`; the prior targets stay unchanged at
the front.  Whatever the file, the lines considered are the lines the scanner
yields, those before the first line of 65536 bytes or more. -/
theorem C20_import_targets (targets : List Bytes) (content : Bytes) :
    (ImportTargetsFromFile targets content).1 =
      targets ++ ((scanLinesAux content []).1.map TrimSpaceBytes).filter isTargetLine ∧
    ((∀ l ∈ rawLinesAux content [], l.length < maxScanTokenSize) →
      ImportTargetsFromFile targets content =
        (targets ++ ((fileLines content).map TrimSpaceBytes).filter isTargetLine, none)) := by
  constructor
  · unfold ImportTargetsFromFile
    exact foldl_importLine _ _
  · intro h
    unfold ImportTargetsFromFile fileLines
    rw [scanLinesAux_short content [] h, foldl_importLine]
    rfl

/-! ## Batch operations: every entry is delivered once -/

theorem coe_cons_eq_add {α : Type} (a : α) (l : List α) :
    (↑(a :: l) : Multiset α) = {a} + ↑l := by
  rw [← Multiset.cons_coe, Multiset.singleton_add]

theorem coe_append_singleton {α : Type} (l : List α) (a : α) :
    (↑(l ++ [a]) : Multiset α) = ↑l + {a} := by
  rw [← Multiset.coe_add, Multiset.coe_singleton]

theorem coe_eq_add_eraseIdx {α : Type} (l : List α) (k : Nat) (j : α) (h : l[k]? = some j) :
    (↑l : Multiset α) = {j} + ↑(l.eraseIdx k) := by
  induction l generalizing k with
  | nil => simp at h
  | cons a l ih =>
    cases k with
    | zero =>
      simp only [List.getElem?_cons_zero, Option.some.injEq] at h
      subst h
      rw [List.eraseIdx_cons_zero, coe_cons_eq_add]
    | succ k =>
      simp only [List.getElem?_cons_succ] at h
      rw [List.eraseIdx_cons_succ, coe_cons_eq_add, coe_cons_eq_add, ih k h]
      abel

theorem length_eraseIdx_of_getElem? {α : Type} (l : List α) (k : Nat) (j : α)
    (h : l[k]? = some j) : (l.eraseIdx k).length + 1 = l.length := by
  have := congrArg Multiset.card (coe_eq_add_eraseIdx l k j h)
  simp only [Multiset.coe_card, Multiset.card_add, Multiset.card_singleton] at this
  omega

theorem ChanInv_init {α : Type} (M : ChanMachine α) : ChanInv M M.init := by
  refine ⟨?_, ?_, ?_, ?_⟩
  · simp [ChanMachine.init]
  · intro h; simp [ChanMachine.init] at h
  · intro h; simp [ChanMachine.init] at h
  · intro h; simp [ChanMachine.init] at h

theorem not_true_of_false {b : Bool} (h : b = false) : ¬ b = true := by
  rw [h]
  exact Bool.false_ne_true

/-- A step keeps the invariant and uses up at least one of the remaining
steps. -/
theorem chanStep_inv {α : Type} (M : ChanMachine α) (hcb : M.hasCallback = true)
    (s s1 : ChanState α) (e : ChanEvent) (hinv : ChanInv M s) (h : chanStep M s e = some s1) :
    ChanInv M s1 ∧ chanMeasure s1 + 1 ≤ chanMeasure s := by
  obtain ⟨hc, hcl, hdn, hrt⟩ := hinv
  rcases s with ⟨u, r, c, cl, ic, d, cd, rt⟩
  dsimp only at hc hcl hdn hrt
  cases e with
  | spawn =>
    cases u with
    | nil => simp [chanStep] at h
    | cons j js =>
      simp only [chanStep, Option.some.injEq] at h
      subst h
      have hncl : cl = false := by
        cases cl with
        | false => rfl
        | true => exact absurd (hcl rfl).1 (by simp)
      subst hncl
      refine ⟨⟨?_, by simp, fun h => by simpa using (hdn h).1,
        fun h => by simpa using (hrt h).1⟩, ?_⟩
      · rw [← hc]
        dsimp only
        rw [coe_append_singleton, coe_cons_eq_add]
        abel
      · simp only [chanMeasure, List.length_cons, List.length_append, List.length_nil]
        omega
  | send k =>
    cases hk : r[k]? with
    | none => simp [chanStep, hk] at h
    | some j =>
      by_cases hroom : c.length < M.jobs.length
      · simp only [chanStep, hk, if_pos hroom, Option.some.injEq] at h
        subst h
        have hrun : r ≠ [] := by
          intro h0
          rw [h0] at hk
          simp at hk
        have hncl : cl = false := by
          cases cl with
          | false => rfl
          | true => exact absurd (hcl rfl).2 hrun
        subst hncl
        refine ⟨⟨?_, by simp, fun h => by simpa using (hdn h).1,
          fun h => by simpa using (hrt h).1⟩, ?_⟩
        · rw [← hc, coe_eq_add_eraseIdx r k j hk]
          dsimp only
          rw [coe_append_singleton]
          abel
        · have hl := length_eraseIdx_of_getElem? r k j hk
          simp only [chanMeasure, List.length_append, List.length_cons, List.length_nil]
          omega
      · simp [chanStep, hk, hroom] at h
  | close =>
    cases u with
    | cons j js => simp [chanStep] at h
    | nil =>
      cases r with
      | cons j js => simp [chanStep] at h
      | nil =>
        cases cl with
        | true => simp [chanStep] at h
        | false =>
          simp only [chanStep, List.isEmpty_nil, Bool.not_false, Bool.and_self,
            if_true, Option.some.injEq] at h
          subst h
          refine ⟨⟨hc, fun _ => ⟨rfl, rfl⟩, fun h => by simpa using (hdn h).1,
            fun h => by simpa using (hrt h).1⟩, ?_⟩
          simp only [chanMeasure, if_true, Bool.false_eq_true, if_false]
          omega
  | recv =>
    cases cd with
    | true => simp [chanStep] at h
    | false =>
      cases ic with
      | some j0 => simp [chanStep] at h
      | none =>
        cases c with
        | nil => simp [chanStep] at h
        | cons j js =>
          simp only [chanStep, hcb, Option.isSome_none, Bool.or_self,
            Bool.false_eq_true, if_false, if_true, Option.some.injEq] at h
          subst h
          refine ⟨⟨?_, hcl, by simp, hrt⟩, ?_⟩
          · rw [← hc]
            dsimp only [Option.toList]
            simp only [coe_cons_eq_add, Multiset.coe_nil]
            abel
          · simp only [chanMeasure, Option.toList, List.length_cons, List.length_nil]
            omega
  | callbackReturn =>
    cases ic with
    | none => simp [chanStep] at h
    | some j =>
      simp only [chanStep, Option.some.injEq] at h
      subst h
      have hnd : cd = false := by
        cases cd with
        | false => rfl
        | true => exact absurd (hdn rfl).2.2 (by simp)
      subst hnd
      refine ⟨⟨?_, hcl, by simp, hrt⟩, ?_⟩
      · rw [← hc]
        dsimp only [Option.toList]
        simp only [coe_cons_eq_add, coe_append_singleton, Multiset.coe_nil]
        abel
      · simp only [chanMeasure, Option.toList, List.length_cons, List.length_nil]
        omega
  | consumerExit =>
    cases cl with
    | false => simp [chanStep] at h
    | true =>
      cases c with
      | cons j js => simp [chanStep] at h
      | nil =>
        cases ic with
        | some j => simp [chanStep] at h
        | none =>
          cases cd with
          | true => simp [chanStep] at h
          | false =>
            simp only [chanStep, List.isEmpty_nil, Option.isNone_none,
              Bool.not_false, Bool.and_self, if_true, Option.some.injEq] at h
            subst h
            refine ⟨⟨hc, hcl, fun _ => ⟨rfl, rfl, rfl⟩,
              fun h => ⟨(hrt h).1, fun _ => rfl⟩⟩, ?_⟩
            simp only [chanMeasure, if_true, Bool.false_eq_true, if_false]
            omega
  | ret =>
    cases cl with
    | false => simp [chanStep] at h
    | true =>
      cases rt with
      | true => simp [chanStep] at h
      | false =>
        by_cases hw : (!M.waits || cd) = true
        · simp only [chanStep, hw, Bool.not_false, Bool.and_self, if_true,
            Option.some.injEq] at h
          subst h
          refine ⟨⟨hc, hcl, hdn, fun _ => ⟨rfl, fun hwt => ?_⟩⟩, ?_⟩
          · simpa [hwt] using hw
          · simp only [chanMeasure, if_true, Bool.false_eq_true, if_false]
            omega
        · simp [chanStep, hw] at h

/-- Every state of a run satisfies the invariant, and the run is not longer
than the measure allows. -/
theorem chanRun_inv {α : Type} (M : ChanMachine α) (hcb : M.hasCallback = true)
    (events : List ChanEvent) (s s1 : ChanState α) (hinv : ChanInv M s)
    (h : chanRun M s events = some s1) :
    ChanInv M s1 ∧ chanMeasure s1 + events.length ≤ chanMeasure s := by
  induction events generalizing s with
  | nil =>
    simp only [chanRun, Option.some.injEq] at h
    subst h
    exact ⟨hinv, le_refl _⟩
  | cons e es ih =>
    rw [chanRun] at h
    cases hs : chanStep M s e with
    | none => rw [hs] at h; cases h
    | some s2 =>
      rw [hs] at h
      obtain ⟨hinv2, hm2⟩ := chanStep_inv M hcb s s2 e hinv hs
      obtain ⟨hinv1, hm1⟩ := ih s2 hinv2 h
      refine ⟨hinv1, ?_⟩
      rw [List.length_cons]
      omega

theorem chanMeasure_init {α : Type} (M : ChanMachine α) :
    chanMeasure M.init = 4 * M.jobs.length + 3 := by
  simp [chanMeasure, ChanMachine.init]

/-- When no goroutine can take a step, every callback has returned. -/
theorem chan_terminal_delivered {α : Type} (M : ChanMachine α) (s : ChanState α)
    (hinv : ChanInv M s) (ht : s.Terminal M) :
    s.delivered.Perm M.jobs ∧ s.inCallback = none := by
  obtain ⟨hc, hcl, hdn, hrt⟩ := hinv
  rcases s with ⟨u, r, c, cl, ic, d, cd, rt⟩
  dsimp only at hc hcl hdn hrt ⊢
  have hu : u = [] := by
    cases u with
    | nil => rfl
    | cons j js =>
      have := ht .spawn
      simp [chanStep] at this
  subst hu
  have hr : r = [] := by
    cases r with
    | nil => rfl
    | cons j js =>
      have hlen := congrArg Multiset.card hc
      simp only [Multiset.card_add, Multiset.coe_card, List.length_cons, List.length_nil] at hlen
      have := ht (.send 0)
      have hroom : c.length < M.jobs.length := by omega
      simp [chanStep, hroom] at this
  subst hr
  have hcl1 : cl = true := by
    cases cl with
    | true => rfl
    | false =>
      have := ht .close
      simp [chanStep] at this
  subst hcl1
  have hic : ic = none := by
    cases ic with
    | none => rfl
    | some j =>
      have := ht .callbackReturn
      simp [chanStep] at this
  subst hic
  have hch : c = [] := by
    cases cd with
    | true => exact (hdn rfl).2.1
    | false =>
      cases c with
      | nil => rfl
      | cons j js =>
        have := ht .recv
        cases hcb : M.hasCallback <;> simp [chanStep, hcb] at this
  subst hch
  refine ⟨?_, rfl⟩
  apply Multiset.coe_eq_coe.mp
  rw [← hc]
  simp

/-- Every state of a run can be continued to a state in which no goroutine can
take a step: a step uses up at least one of the remaining steps. -/
theorem chan_completes {α : Type} (M : ChanMachine α) (hcb : M.hasCallback = true) (n : Nat)
    (s : ChanState α) (hinv : ChanInv M s) (hn : chanMeasure s ≤ n) :
    ∃ more t, chanRun M s more = some t ∧ t.Terminal M := by
  induction n generalizing s with
  | zero =>
    by_cases ht : s.Terminal M
    · exact ⟨[], s, rfl, ht⟩
    · unfold ChanState.Terminal at ht
      push_neg at ht
      obtain ⟨e, he⟩ := ht
      obtain ⟨s1, hs1⟩ := Option.ne_none_iff_exists'.mp he
      have := (chanStep_inv M hcb s s1 e hinv hs1).2
      omega
  | succ n ih =>
    by_cases ht : s.Terminal M
    · exact ⟨[], s, rfl, ht⟩
    · unfold ChanState.Terminal at ht
      push_neg at ht
      obtain ⟨e, he⟩ := ht
      obtain ⟨s1, hs1⟩ := Option.ne_none_iff_exists'.mp he
      obtain ⟨hinv1, hm⟩ := chanStep_inv M hcb s s1 e hinv hs1
      obtain ⟨more, t, hrun, hterm⟩ := ih s1 hinv1 (by omega)
      refine ⟨e :: more, t, ?_, hterm⟩
      rw [chanRun, hs1]
      exact hrun

/-- An operation through a channel that has a callback delivers the results of
its entries, each once. -/
theorem chan_delivers {α : Type} (M : ChanMachine α) (hcb : M.hasCallback = true) :
    M.Delivers M.jobs := by
  intro events s h
  obtain ⟨hinv, hm⟩ := chanRun_inv M hcb events M.init s (ChanInv_init M) h
  rw [chanMeasure_init] at hm
  refine ⟨?_, by omega, fun ht => chan_terminal_delivered M s hinv ht,
    chan_completes M hcb _ s hinv (le_refl _)⟩
  apply Multiset.coe_le.mp
  rw [← Multiset.coe_add, ← hinv.conserve, add_assoc]
  exact Multiset.le_add_left _ _

/-- An operation through a channel whose caller waits for the delivery
goroutine returns only when every callback has returned: in a state in which
the caller has returned nothing is left in the channel, no callback is running
and every entry has been delivered, so that neither `recv` nor
`callbackReturn` can be taken any more. -/
theorem chan_returned_delivered {α : Type} (M : ChanMachine α) (hcb : M.hasCallback = true)
    (hw : M.waits = true) (events : List ChanEvent) (s : ChanState α)
    (h : chanRun M M.init events = some s) (hret : s.returned = true) :
    s.delivered.Perm M.jobs ∧ chanStep M s .recv = none ∧ chanStep M s .callbackReturn = none := by
  obtain ⟨hinv, _⟩ := chanRun_inv M hcb events M.init s (ChanInv_init M) h
  obtain ⟨hc, hcl, hdn, hrt⟩ := hinv
  have hcd := (hrt hret).2 hw
  obtain ⟨hclosed, hch, hic⟩ := hdn hcd
  obtain ⟨hu, hr⟩ := hcl hclosed
  refine ⟨?_, ?_, ?_⟩
  · apply Multiset.coe_eq_coe.mp
    rw [← hc, hu, hr, hch, hic]
    simp
  · simp [chanStep, hcd]
  · simp [chanStep, hic]

theorem WorkInv_init {α : Type} (M : WorkMachine α) : WorkInv M M.init := by
  refine ⟨?_, ?_⟩
  · simp [WorkMachine.init]
  · intro h; simp [WorkMachine.init] at h

/-- A step of an operation without a channel keeps the invariant and uses up at
least one of the remaining steps. -/
theorem workStep_inv {α : Type} (M : WorkMachine α) (hcb : M.hasCallback = true)
    (s s1 : WorkState α) (e : WorkEvent) (hinv : WorkInv M s) (h : workStep M s e = some s1) :
    WorkInv M s1 ∧ workMeasure s1 + 1 ≤ workMeasure s := by
  obtain ⟨hc, hrt⟩ := hinv
  rcases s with ⟨u, r, ic, d, rt⟩
  dsimp only at hc hrt
  cases e with
  | spawn =>
    cases u with
    | nil => simp [workStep] at h
    | cons j js =>
      simp only [workStep, Option.some.injEq] at h
      subst h
      have hnr : rt = false := by
        cases rt with
        | false => rfl
        | true => exact absurd (hrt rfl).1 (by simp)
      subst hnr
      refine ⟨⟨?_, by simp⟩, ?_⟩
      · rw [← hc]
        dsimp only
        rw [coe_append_singleton, coe_cons_eq_add]
        abel
      · simp only [workMeasure, List.length_cons, List.length_append, List.length_nil]
        omega
  | call k =>
    cases hk : r[k]? with
    | none => simp [workStep, hk] at h
    | some j =>
      simp only [workStep, hk, hcb, if_true, Option.some.injEq] at h
      subst h
      have hrun : r ≠ [] := by
        intro h0
        rw [h0] at hk
        simp at hk
      have hnr : rt = false := by
        cases rt with
        | false => rfl
        | true => exact absurd (hrt rfl).2.1 hrun
      subst hnr
      refine ⟨⟨?_, by simp⟩, ?_⟩
      · rw [← hc, coe_eq_add_eraseIdx r k j hk]
        dsimp only
        rw [coe_append_singleton]
        abel
      · have hl := length_eraseIdx_of_getElem? r k j hk
        simp only [workMeasure, List.length_append, List.length_cons, List.length_nil]
        omega
  | callbackReturn k =>
    cases hk : ic[k]? with
    | none => simp [workStep, hk] at h
    | some j =>
      simp only [workStep, hk, Option.some.injEq] at h
      subst h
      have hin : ic ≠ [] := by
        intro h0
        rw [h0] at hk
        simp at hk
      have hnr : rt = false := by
        cases rt with
        | false => rfl
        | true => exact absurd (hrt rfl).2.2 hin
      subst hnr
      refine ⟨⟨?_, by simp⟩, ?_⟩
      · rw [← hc, coe_eq_add_eraseIdx ic k j hk]
        dsimp only
        rw [coe_append_singleton]
        abel
      · have hl := length_eraseIdx_of_getElem? ic k j hk
        simp only [workMeasure, List.length_append, List.length_cons, List.length_nil]
        omega
  | ret =>
    cases u with
    | cons j js => simp [workStep] at h
    | nil =>
      cases r with
      | cons j js => simp [workStep] at h
      | nil =>
        cases ic with
        | cons j js => simp [workStep] at h
        | nil =>
          cases rt with
          | true => simp [workStep] at h
          | false =>
            simp only [workStep, List.isEmpty_nil, Bool.not_false, Bool.and_self, if_true,
              Option.some.injEq] at h
            subst h
            refine ⟨⟨hc, fun _ => ⟨rfl, rfl, rfl⟩⟩, ?_⟩
            simp only [workMeasure, if_true, Bool.false_eq_true, if_false]
            omega

theorem workRun_inv {α : Type} (M : WorkMachine α) (hcb : M.hasCallback = true)
    (events : List WorkEvent) (s s1 : WorkState α) (hinv : WorkInv M s)
    (h : workRun M s events = some s1) :
    WorkInv M s1 ∧ workMeasure s1 + events.length ≤ workMeasure s := by
  induction events generalizing s with
  | nil =>
    simp only [workRun, Option.some.injEq] at h
    subst h
    exact ⟨hinv, le_refl _⟩
  | cons e es ih =>
    rw [workRun] at h
    cases hs : workStep M s e with
    | none => rw [hs] at h; cases h
    | some s2 =>
      rw [hs] at h
      obtain ⟨hinv2, hm2⟩ := workStep_inv M hcb s s2 e hinv hs
      obtain ⟨hinv1, hm1⟩ := ih s2 hinv2 h
      refine ⟨hinv1, ?_⟩
      rw [List.length_cons]
      omega

theorem workMeasure_init {α : Type} (M : WorkMachine α) :
    workMeasure M.init = 3 * M.jobs.length + 1 := by
  simp [workMeasure, WorkMachine.init]

theorem work_terminal_delivered {α : Type} (M : WorkMachine α) (s : WorkState α)
    (hinv : WorkInv M s) (ht : s.Terminal M) :
    s.delivered.Perm M.jobs ∧ s.inCallback = [] := by
  obtain ⟨hc, hrt⟩ := hinv
  rcases s with ⟨u, r, ic, d, rt⟩
  dsimp only at hc hrt ⊢
  have hu : u = [] := by
    cases u with
    | nil => rfl
    | cons j js =>
      have := ht .spawn
      simp [workStep] at this
  subst hu
  have hr : r = [] := by
    cases r with
    | nil => rfl
    | cons j js =>
      have := ht (.call 0)
      cases hcb : M.hasCallback <;> simp [workStep, hcb] at this
  subst hr
  have hic : ic = [] := by
    cases ic with
    | nil => rfl
    | cons j js =>
      have := ht (.callbackReturn 0)
      simp [workStep] at this
  subst hic
  refine ⟨?_, rfl⟩
  apply Multiset.coe_eq_coe.mp
  rw [← hc]
  simp

theorem work_completes {α : Type} (M : WorkMachine α) (hcb : M.hasCallback = true) (n : Nat)
    (s : WorkState α) (hinv : WorkInv M s) (hn : workMeasure s ≤ n) :
    ∃ more t, workRun M s more = some t ∧ t.Terminal M := by
  induction n generalizing s with
  | zero =>
    by_cases ht : s.Terminal M
    · exact ⟨[], s, rfl, ht⟩
    · unfold WorkState.Terminal at ht
      push_neg at ht
      obtain ⟨e, he⟩ := ht
      obtain ⟨s1, hs1⟩ := Option.ne_none_iff_exists'.mp he
      have := (workStep_inv M hcb s s1 e hinv hs1).2
      omega
  | succ n ih =>
    by_cases ht : s.Terminal M
    · exact ⟨[], s, rfl, ht⟩
    · unfold WorkState.Terminal at ht
      push_neg at ht
      obtain ⟨e, he⟩ := ht
      obtain ⟨s1, hs1⟩ := Option.ne_none_iff_exists'.mp he
      obtain ⟨hinv1, hm⟩ := workStep_inv M hcb s s1 e hinv hs1
      obtain ⟨more, t, hrun, hterm⟩ := ih s1 hinv1 (by omega)
      refine ⟨e :: more, t, ?_, hterm⟩
      rw [workRun, hs1]
      exact hrun

/-- An operation whose goroutines call the callback delivers the results of its
entries, each once. -/
theorem work_delivers {α : Type} (M : WorkMachine α) (hcb : M.hasCallback = true) :
    M.Delivers M.jobs := by
  intro events s h
  obtain ⟨hinv, hm⟩ := workRun_inv M hcb events M.init s (WorkInv_init M) h
  rw [workMeasure_init] at hm
  refine ⟨?_, by omega, fun ht => work_terminal_delivered M s hinv ht,
    work_completes M hcb _ s hinv (le_refl _)⟩
  apply Multiset.coe_le.mp
  rw [← Multiset.coe_add, ← hinv.conserve, add_assoc]
  exact Multiset.le_add_left _ _

/-- An operation whose goroutines call the callback returns only when every
callback has returned. -/
theorem work_returned_delivered {α : Type} (M : WorkMachine α) (hcb : M.hasCallback = true)
    (events : List WorkEvent) (s : WorkState α) (h : workRun M M.init events = some s)
    (hret : s.returned = true) :
    s.delivered.Perm M.jobs ∧ ∀ k, workStep M s (.callbackReturn k) = none := by
  obtain ⟨hinv, _⟩ := workRun_inv M hcb events M.init s (WorkInv_init M) h
  obtain ⟨hc, hrt⟩ := hinv
  obtain ⟨hu, hr, hic⟩ := hrt hret
  refine ⟨?_, ?_⟩
  · apply Multiset.coe_eq_coe.mp
    rw [← hc, hu, hr, hic]
    simp
  · intro k
    simp [workStep, hic]

/-- C18: for every target list and every outcome of the operation on each of
its entries (`ops` pairs every target with the error the operation returns for
it, `cmds` with the output and the error), each of the six batch operations,
called with a callback, makes exactly the callbacks written out here, one for
each entry of the list: for the entry of target `t` and outcome `e` the callback
gets `t` and `e` (for `BatchConnect` with `Success` set when `e` is `nil`, for
`BatchScreenshot` with the file name of `t`), whatever the outcomes of the
other entries are.  Along every interleaving of the goroutines no callback is
made twice and none is made that belongs to no entry (this counts the callback
that is running and those that have returned); the goroutines take at
most `4 * N + 3` steps (`3 * N + 1` without a channel); every run can be
continued until no goroutine can take a step; and then no callback is running
and the callbacks that have returned are those of all `N` entries, in some
order. -/
theorem C18_each_entry_once (ops : List (String × Option GoError))
    (cmds : List (String × Bytes × Option GoError)) (outputDir : String) :
    (BatchConnect ops true).Delivers
      (ops.map fun o => { Target := o.1, Success := o.2.isNone, Error := o.2 }) ∧
    (BatchExecuteCommand cmds true).Delivers
      (cmds.map fun o => { Device := o.1, Output := o.2.1, Error := o.2.2 }) ∧
    (BatchInstallApp ops true).Delivers ops ∧ (BatchUninstallApp ops true).Delivers ops ∧
    (BatchPushFile ops true).Delivers ops ∧
    (BatchScreenshot ops outputDir true).Delivers
      (ops.map fun o => (o.1, screenshotPath outputDir o.1, o.2)) :=
  ⟨chan_delivers _ rfl, chan_delivers _ rfl, work_delivers _ rfl, work_delivers _ rfl,
    work_delivers _ rfl, work_delivers _ rfl⟩

/-- A run of `BatchConnect` on two targets, the second of which fails: both
callbacks are made, the second result first. -/
theorem BatchConnect_run_example :
    (chanRun (BatchConnect [("10.0.0.1:5555", none), ("10.0.0.2:5555", some (.exec "exit 1"))] true)
        (BatchConnect [("10.0.0.1:5555", none), ("10.0.0.2:5555", some (.exec "exit 1"))]
          true).init
        [.spawn, .spawn, .send 1, .recv, .send 0, .callbackReturn, .close, .recv, .callbackReturn,
          .consumerExit, .ret]).map (fun s => (s.returned, s.delivered)) =
      some (true, [⟨"10.0.0.2:5555", false, some (.exec "exit 1")⟩,
        ⟨"10.0.0.1:5555", true, none⟩]) := by
  decide

/-- `BatchConnect` and the four operations without a channel return only when
every callback has returned: in every state of a run in which the caller has
returned, the callbacks that have returned are the results of all entries. -/
theorem batch_returns_after_callbacks (ops : List (String × Option GoError))
    (outputDir : String) :
    (∀ events s, chanRun (BatchConnect ops true) (BatchConnect ops true).init events = some s →
      s.returned = true →
      s.delivered.Perm (ops.map fun o => { Target := o.1, Success := o.2.isNone, Error := o.2 })) ∧
    (∀ events s, workRun (BatchInstallApp ops true) (BatchInstallApp ops true).init events =
      some s → s.returned = true → s.delivered.Perm ops) ∧
    (∀ events s, workRun (BatchScreenshot ops outputDir true)
      (BatchScreenshot ops outputDir true).init events = some s →
      s.returned = true →
      s.delivered.Perm (ops.map fun o => (o.1, screenshotPath outputDir o.1, o.2))) :=
  ⟨fun events s h hr => (chan_returned_delivered _ rfl rfl events s h hr).1,
    fun events s h hr => (work_returned_delivered _ rfl events s h hr).1,
    fun events s h hr => (work_returned_delivered _ rfl events s h hr).1⟩

/-- C19: `BatchExecuteCommand` can return before the callback was invoked.  On
one device, after the goroutine has sent its result and the caller has passed
`wg.Wait()` and closed the channel, the caller returns while the result is
still in the channel and no callback has been made; the callback is made after
the return. -/
theorem C19_execute_returns_before_callback :
    (chanRun (BatchExecuteCommand [("ABC123", lit "ok\n", none)] true)
        (BatchExecuteCommand [("ABC123", lit "ok\n", none)] true).init
        [.spawn, .send 0, .close, .ret]).map
        (fun s => (s.returned, s.delivered, s.inCallback, s.chan)) =
      some (true, [], none, [⟨"ABC123", lit "ok\n", none⟩]) ∧
    (chanRun (BatchExecuteCommand [("ABC123", lit "ok\n", none)] true)
        (BatchExecuteCommand [("ABC123", lit "ok\n", none)] true).init
        [.spawn, .send 0, .close, .ret, .recv]).map
        (fun s => (s.returned, s.delivered, s.inCallback)) =
      some (true, [], some ⟨"ABC123", lit "ok\n", none⟩) := by
  decide

/-- A call of `ExecuteAsRoot` on a bridge without `su` on which `adb root`
works: three subprocesses, the `su` attempt, `adb root` and the plain command,
whose result is returned. -/
theorem ExecuteAsRoot_run_example :
    (ExecuteAsRoot replaceFF noSuBridge NewADBManager [] "ABC123" "ls /data").log.map
        (fun c => c.args) =
      [["-s", "ABC123", "shell", "su -c \"ls /data\""], ["-s", "ABC123", "root"],
        ["-s", "ABC123", "shell", "ls /data"]] ∧
    (ExecuteAsRoot replaceFF noSuBridge NewADBManager [] "ABC123" "ls /data").output =
      lit "data\nsdcard\n" ∧
    (ExecuteAsRoot replaceFF noSuBridge NewADBManager [] "ABC123" "ls /data").err = none := by
  decide

theorem C20_import_targets_witness :
    (∀ l ∈ rawLinesAux (lit "# lab\n\n 10.0.0.1:5555 \r\nfoo\nx:y:z\nhost:\nlast:1") [],
      l.length < maxScanTokenSize) ∧
    ImportTargetsFromFile [lit "a:1"] (lit "# lab\n\n 10.0.0.1:5555 \r\nfoo\nx:y:z\nhost:\nlast:1") =
      ([lit "a:1", lit "10.0.0.1:5555", lit "host:", lit "last:1"], none) ∧
    ImportTargetsFromFile [lit "a:1"] (lit "# lab\n\n 10.0.0.1:5555 \r\nfoo\nx:y:z\nhost:\nlast:1") =
      ([lit "a:1"] ++
        ((fileLines (lit "# lab\n\n 10.0.0.1:5555 \r\nfoo\nx:y:z\nhost:\nlast:1")).map
          TrimSpaceBytes).filter isTargetLine, none) :=
  ⟨by decide, by decide,
    (C20_import_targets [lit "a:1"]
      (lit "# lab\n\n 10.0.0.1:5555 \r\nfoo\nx:y:z\nhost:\nlast:1")).2 (by decide)⟩

/-! ## Lines and tokens of the discovery output -/

theorem mem_splitAux_within (sep : Char) (cs acc : List Char) (l : String)
    (h : l ∈ splitAux sep cs acc) : l.data <:+: acc.reverse ++ cs := by
  induction cs generalizing acc with
  | nil =>
    simp only [splitAux, List.mem_singleton] at h
    subst h
    simp
  | cons c cs ih =>
    rw [splitAux] at h
    split at h
    · rcases List.mem_cons.mp h with h | h
      · subst h
        exact ⟨[], c :: cs, by simp⟩
      · obtain ⟨a, b, hab⟩ := ih [] h
        exact ⟨acc.reverse ++ c :: a, b, by simp at hab; simp [hab]⟩
    · have := ih (c :: acc) h
      simpa using this

theorem trimSpaceChars_within (x : List Char) : trimSpaceChars x <:+: x := by
  unfold trimSpaceChars
  have h1 : (List.dropWhile isSpace (List.dropWhile isSpace x).reverse).reverse <+:
      List.dropWhile isSpace x := by
    have := List.dropWhile_suffix isSpace (l := (List.dropWhile isSpace x).reverse)
    have h2 := List.reverse_prefix.mpr this
    simpa using h2
  exact h1.isInfix.trans (List.dropWhile_suffix isSpace).isInfix

/-- Text that a trimmed line of an output contains is contained in the
output. -/
theorem Contains_of_line (s l sub : String) (hl : l ∈ SplitLines s)
    (h : Contains (TrimSpace l) sub = true) : Contains s sub = true := by
  unfold Contains at h ⊢
  simp only [decide_eq_true_eq] at h ⊢
  have h1 : l.data <:+: s.data := by simpa using mem_splitAux_within '\n' s.data [] l hl
  exact (h.trans (trimSpaceChars_within l.data)).trans h1

theorem extractModel_eq_specModel (tokens : List String) :
    extractModel tokens = specModel tokens := by
  induction tokens with
  | nil => rfl
  | cons t rest ih =>
    unfold specModel at ih ⊢
    rw [extractModel, List.find?_cons]
    cases ht : HasPrefix t "model:"
    · simpa using ih
    · simp only [TrimPrefix, ht, if_true]
      rfl

/-- The per-line parser yields what the specification says on every line in
which the version-conflict text does not occur. -/
theorem parseLine_device (l : String)
    (h : Contains (TrimSpace l) "doesn't match" = false) :
    (parseLine l).device = specLineDevice l := by
  unfold parseLine specLineDevice
  simp only [h, Bool.and_false, Bool.false_eq_true, if_false]
  by_cases h1 : (TrimSpace l = "" || HasPrefix (TrimSpace l) "List of devices") = true
  · rw [if_pos h1]
    have h1' : TrimSpace l = "" ∨ HasPrefix (TrimSpace l) "List of devices" = true := by
      simpa using h1
    split
    · rw [if_pos (by tauto)]; rfl
    · rfl
  · rw [if_neg h1]
    have h1' : ¬ (TrimSpace l = "" ∨ HasPrefix (TrimSpace l) "List of devices" = true) := by
      simpa using h1
    split
    · rename_i p0 p1 rest hf
      by_cases hs : (rest.isEmpty && decide (p0 = "adb") && decide (p1 = "[server]")) = true
      · rw [if_pos hs]
        have : p0 = "adb" := by
          simp only [Bool.and_eq_true, decide_eq_true_eq] at hs
          exact hs.1.2
        rw [if_pos (by tauto)]
        rfl
      · rw [if_neg hs]
        by_cases hk : (decide (p0 = "*") || decide (p0 = "adb") || HasPrefix p1 "[") = true
        · rw [if_pos hk]
          have hk' : p0 = "*" ∨ p0 = "adb" ∨ HasPrefix p1 "[" = true := by
            simpa [or_assoc] using hk
          rw [if_pos (by tauto)]
          rfl
        · rw [if_neg hk]
          have hk' : ¬ (p0 = "*" ∨ p0 = "adb" ∨ HasPrefix p1 "[" = true) := by
            simpa [or_assoc] using hk
          rw [if_neg (by tauto)]
          simp [LineAction.device, extractModel_eq_specModel]
    · rfl

/-- A line takes the version-conflict branch only when it contains both
texts. -/
theorem parseLine_versionLine (l : String) (h : parseLine l = .versionLine) :
    Contains (TrimSpace l) "server version" = true ∧
      Contains (TrimSpace l) "doesn't match" = true := by
  unfold parseLine at h
  dsimp only at h
  split at h
  · exact absurd h (by simp)
  · split at h
    · split at h
      · exact absurd h (by simp)
      · split at h
        · rename_i hc
          simpa using hc
        · split at h <;> exact absurd h (by simp)
    · exact absurd h (by simp)

/-- A record never has the serial `adb` or `*`. -/
theorem parseLine_record_serial (l serial status model : String)
    (h : parseLine l = .record serial status model) : serial ≠ "adb" ∧ serial ≠ "*" := by
  unfold parseLine at h
  dsimp only at h
  split at h
  · exact absurd h (by simp)
  · split at h
    · split at h
      · exact absurd h (by simp)
      · split at h
        · exact absurd h (by simp)
        · split at h
          · exact absurd h (by simp)
          · rename_i hk
            simp only [LineAction.record.injEq] at h
            obtain ⟨rfl, _, _⟩ := h
            simp only [Bool.or_eq_true, decide_eq_true_eq, not_or] at hk
            exact ⟨hk.1.2, hk.1.1⟩
    · exact absurd h (by simp)

/-- What the parse loop does with a line. -/
theorem parseLines_cons (clk : Clock) (idx : Nat) (l : String) (ls : List String)
    (current : DeviceMap) :
    parseLines clk (idx) (l :: ls) current =
      match (parseLine l).device with
      | some (serial, status, model) =>
        parseLines clk (idx + 1) ls
          (current.insert serial ⟨serial, status, model, clk.parsed idx, 0⟩)
      | none =>
        if parseLine l = .skip then parseLines clk (idx + 1) ls current
        else .error .serverRestarted := by
  rw [parseLines]
  cases parseLine l <;> simp [LineAction.device]

/-- C21: on every line of a discovery output that gets to the parse loop (an
output without the version-conflict text), the parser yields no device when the
trimmed line is empty, starts with `List of devices`, has fewer than two
tokens, has first token `*` or `adb`, or has a second token that starts with
`[`, and otherwise yields the device whose serial is the first token, whose
status is the second token and whose model is the text after `model:` in the
first later token that starts with `model:`, empty when there is none
(`specLineDevice`).  The device the line yields is stored in `currentDevices`
under its serial; a line that yields none leaves `currentDevices` as it is. -/
theorem C21_line_device (o : PollOutcome) (h : Contains o.outputStr "doesn't match" = false)
    (l : String) (hl : l ∈ SplitLines o.outputStr) :
    (parseLine l).device = specLineDevice l ∧
    ∀ (clk : Clock) (idx : Nat) (ls : List String) (current : DeviceMap),
      parseLines clk idx (l :: ls) current =
        match specLineDevice l with
        | some (serial, status, model) =>
          parseLines clk (idx + 1) ls
            (current.insert serial ⟨serial, status, model, clk.parsed idx, 0⟩)
        | none =>
          if parseLine l = .skip then parseLines clk (idx + 1) ls current
          else .error .serverRestarted := by
  have hc : Contains (TrimSpace l) "doesn't match" = false := by
    cases hx : Contains (TrimSpace l) "doesn't match"
    · rfl
    · rw [Contains_of_line o.outputStr l _ hl hx] at h
      exact absurd h (by simp)
  have hd := parseLine_device l hc
  refine ⟨hd, ?_⟩
  intro clk idx ls current
  rw [parseLines_cons, hd]

theorem C21_line_device_witness :
    Contains "List of devices attached\nABC123  device usb:1 model:Pixel_7 device:x\n"
      "doesn't match" = false ∧
    "ABC123  device usb:1 model:Pixel_7 device:x" ∈
      SplitLines "List of devices attached\nABC123  device usb:1 model:Pixel_7 device:x\n" ∧
    specLineDevice "ABC123  device usb:1 model:Pixel_7 device:x" =
      some ("ABC123", "device", "Pixel_7") ∧
    (parseLine "ABC123  device usb:1 model:Pixel_7 device:x").device =
      specLineDevice "ABC123  device usb:1 model:Pixel_7 device:x" :=
  ⟨by decide, by decide, by decide,
    (C21_line_device ⟨"List of devices attached\nABC123  device usb:1 model:Pixel_7 device:x\n", false⟩
      (by decide) "ABC123  device usb:1 model:Pixel_7 device:x" (by decide)).1⟩

/-- Outside the outputs that get to the parse loop the per-line parser and the
specification differ: on a line with the version-conflict text the parser
takes the branch of lines 136 to 148. -/
theorem parseLine_versionLine_example :
    parseLine "emulator-5554 server version doesn't match" = .versionLine ∧
    specLineDevice "emulator-5554 server version doesn't match" =
      some ("emulator-5554", "server", "") := by
  decide

/-- C29: the branch of lines 136 to 148 is not reached.  When a line of the
output would take it, the output contains the version-conflict text, and
`ListDevices` returns at its first test, with the snapshot of the registry
it was given and the version-conflict error; the parse loop is not run. -/
theorem C29_version_branch_unreachable (m : ADBManager) (o : PollOutcome) (clk : Clock)
    (l : String) (hl : l ∈ SplitLines o.outputStr) (hv : parseLine l = .versionLine) :
    Contains o.outputStr "doesn't match" = true ∧
    (ListDevices m o clk).mgr = m ∧ (ListDevices m o clk).devices = getDeviceList m ∧
    (ListDevices m o clk).err = some .versionConflict := by
  have hc := Contains_of_line o.outputStr l _ hl (parseLine_versionLine l hv).2
  unfold ListDevices
  rw [if_pos hc]
  exact ⟨hc, rfl, rfl, rfl⟩

theorem C29_version_branch_unreachable_witness :
    "adb server version (41) doesn't match this client (39)" ∈
      SplitLines "adb server version (41) doesn't match this client (39)\n" ∧
    parseLine "adb server version (41) doesn't match this client (39)" =
      .versionLine ∧
    (Contains "adb server version (41) doesn't match this client (39)\n"
        "doesn't match" = true ∧
      (ListDevices sampleManager
        ⟨"adb server version (41) doesn't match this client (39)\n", false⟩
        (Clock.const 9)).mgr = sampleManager ∧
      (ListDevices sampleManager
        ⟨"adb server version (41) doesn't match this client (39)\n", false⟩
        (Clock.const 9)).devices = getDeviceList sampleManager ∧
      (ListDevices sampleManager
        ⟨"adb server version (41) doesn't match this client (39)\n", false⟩
        (Clock.const 9)).err = some .versionConflict) :=
  ⟨by decide, by decide,
    C29_version_branch_unreachable sampleManager
      ⟨"adb server version (41) doesn't match this client (39)\n", false⟩
      (Clock.const 9) "adb server version (41) doesn't match this client (39)"
      (by decide) (by decide)⟩

/-- The first token of a string that starts with a rune that is no space starts
with the runes gathered so far. -/
theorem fieldsAux_acc (cs acc : List Char) (hacc : acc ≠ []) :
    ∃ tail rest, fieldsAux cs acc = ⟨acc.reverse ++ tail⟩ :: rest := by
  induction cs generalizing acc with
  | nil =>
    refine ⟨[], [], ?_⟩
    cases acc with
    | nil => exact absurd rfl hacc
    | cons a as => simp [fieldsAux]
  | cons c cs ih =>
    rw [fieldsAux]
    split
    · cases acc with
      | nil => exact absurd rfl hacc
      | cons a as => exact ⟨[], fieldsAux cs [], by simp⟩
    · obtain ⟨tail, rest, h⟩ := ih (c :: acc) (by simp)
      exact ⟨c :: tail, rest, by simpa using h⟩

/-- The first token of the banner line starts with `L`. -/
theorem Fields_banner (line : String) (h : HasPrefix line "List of devices" = true) :
    ∃ tail rest, Fields line = ⟨'L' :: tail⟩ :: rest := by
  unfold HasPrefix at h
  obtain ⟨t, ht⟩ := List.isPrefixOf_iff_prefix.mp h
  have hd : line.data = 'L' :: ("ist of devices".data ++ t) := by rw [← ht]; rfl
  unfold Fields
  rw [hd, fieldsAux, if_neg (by decide)]
  exact fieldsAux_acc _ ['L'] (by simp)

/-- A line whose tokens are `adb` and `[server]` and no more takes the branch of
lines 121 to 133. -/
theorem parseLine_sentinel (l : String) (h : Fields (TrimSpace l) = ["adb", "[server]"]) :
    parseLine l = .sentinel := by
  have h1 : ¬ (TrimSpace l = "" || HasPrefix (TrimSpace l) "List of devices") = true := by
    intro hc
    simp only [Bool.or_eq_true, decide_eq_true_eq] at hc
    rcases hc with hc | hc
    · rw [hc] at h
      exact absurd h (by decide)
    · obtain ⟨tail, rest, hf⟩ := Fields_banner _ hc
      rw [hf] at h
      simp only [List.cons.injEq] at h
      have := congrArg String.data h.1
      simp at this
  unfold parseLine
  simp only [h1, if_false, h]
  rfl

/-- The parse loop stops with an error when a line takes the branch of lines
121 to 133. -/
theorem parseLines_sentinel (clk : Clock) (ls : List String) (idx : Nat) (current : DeviceMap)
    (l : String) (hl : l ∈ ls) (hs : parseLine l = .sentinel) :
    parseLines clk idx ls current = .error .serverRestarted := by
  induction ls generalizing idx current with
  | nil => exact absurd hl (List.not_mem_nil l)
  | cons x xs ih =>
    rw [parseLines]
    rcases List.mem_cons.mp hl with hx | hx
    · subst hx
      rw [hs]
    · cases parseLine x with
      | skip => exact ih _ _ hx
      | sentinel => rfl
      | versionLine => rfl
      | record serial status model => exact ih _ _ hx

/-- C22, as stated, fails: the line `adb [server] restarting` has the first two
tokens `adb` and `[server]`, and the poll with this output returns no error. -/
theorem C22_counterexample :
    "adb [server] restarting" ∈ SplitLines "adb [server] restarting\n" ∧
    (Fields (TrimSpace "adb [server] restarting")).take 2 = ["adb", "[server]"] ∧
    (ListDevices NewADBManager ⟨"adb [server] restarting\n", false⟩ (Clock.const 0)).err =
      none := by
  decide

/-- C22, amended: when a line of the discovery output has exactly the two
tokens `adb` and `[server]`, `ListDevices` returns an error and leaves the
registry as it was; when moreover the output has no version-conflict text and
the subprocess succeeded, the error is the one of the restarted server. -/
theorem C22_sentinel_error (m : ADBManager) (o : PollOutcome) (clk : Clock) (l : String)
    (hl : l ∈ SplitLines o.outputStr) (hs : Fields (TrimSpace l) = ["adb", "[server]"]) :
    (ListDevices m o clk).err ≠ none ∧ (ListDevices m o clk).mgr = m ∧
    (Contains o.outputStr "doesn't match" = false → o.failed = false →
      (ListDevices m o clk).err = some .serverRestarted) := by
  have hp := parseLines_sentinel clk (SplitLines o.outputStr) 0 ∅ l hl (parseLine_sentinel l hs)
  have herr : (ListDevices m o clk).err ≠ none := by
    unfold ListDevices
    split
    · simp
    · split
      · simp
      · rw [hp]
        simp
  refine ⟨herr, ListDevices_mgr_of_err m o clk herr, ?_⟩
  intro hc hf
  unfold ListDevices
  rw [hc, hf, hp]
  rfl

theorem C22_sentinel_error_witness :
    " adb [server] " ∈ SplitLines "List of devices attached\nABC123 device\n adb [server] \n" ∧
    Fields (TrimSpace " adb [server] ") = ["adb", "[server]"] ∧
    ((ListDevices sampleManager ⟨"List of devices attached\nABC123 device\n adb [server] \n", false⟩
        (Clock.const 9)).err ≠ none ∧
      (ListDevices sampleManager ⟨"List of devices attached\nABC123 device\n adb [server] \n", false⟩
        (Clock.const 9)).mgr = sampleManager ∧
      (Contains "List of devices attached\nABC123 device\n adb [server] \n" "doesn't match" =
          false → false = false →
        (ListDevices sampleManager
          ⟨"List of devices attached\nABC123 device\n adb [server] \n", false⟩
          (Clock.const 9)).err = some .serverRestarted)) :=
  ⟨by decide, by decide,
    C22_sentinel_error sampleManager
      ⟨"List of devices attached\nABC123 device\n adb [server] \n", false⟩ (Clock.const 9)
      " adb [server] " (by decide) (by decide)⟩

/-! ## Removing a device -/

/-- C23: `RemoveDevice` on an identifier that is in the registry returns no
error, removes the entry of that identifier and leaves every other entry and
the other fields of the manager as they were; on an identifier that is not in
the registry it returns an error and leaves the manager as it was. -/
theorem C23_remove_device (m : ADBManager) (serial : String) :
    (serial ∈ m.managedDevices →
      (RemoveDevice m serial).2 = false ∧
      (RemoveDevice m serial).1.managedDevices.lookup serial = none ∧
      (∀ k, k ≠ serial →
        (RemoveDevice m serial).1.managedDevices.lookup k = m.managedDevices.lookup k) ∧
      { (RemoveDevice m serial).1 with managedDevices := m.managedDevices } = m) ∧
    (serial ∉ m.managedDevices →
      (RemoveDevice m serial).2 = true ∧ (RemoveDevice m serial).1 = m) := by
  unfold RemoveDevice
  constructor
  · intro h
    rw [if_pos h]
    refine ⟨rfl, ?_, ?_, rfl⟩
    · simp
    · intro k hk
      simp [AList.lookup_erase_ne hk]
  · intro h
    rw [if_neg h]
    exact ⟨rfl, rfl⟩

/-- Removing `ABC123` from a registry that holds `ABC123` and `a`, and removing
an identifier that it does not hold. -/
theorem RemoveDevice_example :
    (RemoveDevice { sampleManager with
        managedDevices := sampleManager.managedDevices.insert "a" (deviceNamed "a") }
      "ABC123").2 = false ∧
    (RemoveDevice { sampleManager with
        managedDevices := sampleManager.managedDevices.insert "a" (deviceNamed "a") }
      "ABC123").1.managedDevices.entries = [⟨"a", deviceNamed "a"⟩] ∧
    (RemoveDevice sampleManager "XYZ").2 = true ∧
    (RemoveDevice sampleManager "XYZ").1.managedDevices.entries = [⟨"ABC123", sampleDevice⟩] := by
  decide

/-! ## The order of a snapshot -/

/-- The snapshot of `getDeviceList` is in the order in which the loop visits
the map. -/
theorem getDeviceList_serials (m : ADBManager) :
    (getDeviceList m).map (fun d => d.Serial) =
      m.managedDevices.entries.map (fun e => e.2.Serial) := by
  simp [getDeviceList, Function.comp_def]

/-- C24: `getDeviceList` does not sort.  The registries `registryAB` and
`registryBA` are the same map (the same entries, visited in two orders); the
snapshot of one lists `a` before `b` and the snapshot of the other lists `b`
before `a`, which is not in the order of the serials (the order of Go strings,
byte by byte, which on UTF-8 is the order rune by rune). -/
theorem C24_snapshot_not_sorted :
    registryAB.managedDevices.entries.Perm registryBA.managedDevices.entries ∧
    (getDeviceList registryAB).map (fun d => d.Serial) = ["a", "b"] ∧
    (getDeviceList registryBA).map (fun d => d.Serial) = ["b", "a"] ∧
    ¬ ((getDeviceList registryBA).map (fun d => d.Serial)).Pairwise
      (fun x y => x.data ≤ y.data) := by
  decide

/-! ## Screenshot file names -/

/-- C25: the file names of `BatchScreenshot` for the two devices
`10.0.0.1:5555` and `10.0.0.1_5555` are the same, in every output directory. -/
theorem C25_screenshot_names_collide (outputDir : String) :
    "10.0.0.1:5555" ≠ "10.0.0.1_5555" ∧
    screenshotPath outputDir "10.0.0.1:5555" = screenshotPath outputDir "10.0.0.1_5555" ∧
    (BatchScreenshot [("10.0.0.1:5555", none), ("10.0.0.1_5555", none)] outputDir true).jobs.map
        (fun j => j.2.1) =
      [outputDir ++ "/10.0.0.1_5555_screenshot.png",
        outputDir ++ "/10.0.0.1_5555_screenshot.png"] := by
  refine ⟨by decide, rfl, ?_⟩
  simp only [BatchScreenshot, screenshotPath, List.map_cons, List.map_nil, String.append_assoc]
  rfl

/-! ## Adding a target -/

theorem targetExists_iff (target : Bytes) (targets : List Bytes) :
    targetExists target targets = true ↔ target ∈ targets := by
  induction targets with
  | nil => simp [targetExists]
  | cons t rest ih =>
    rw [targetExists]
    by_cases h : t = target
    · simp [h]
    · rw [if_neg h, ih]
      simp [Ne.symm h]

/-- C26: `AddTarget` leaves the list as it is when the target is in it and
otherwise appends the target at the end; adding the same target twice is adding
it once, and a list without duplicates stays without duplicates. -/
theorem C26_add_target (targets : List Bytes) (target : Bytes) :
    (target ∈ targets → AddTarget targets target = targets) ∧
    (target ∉ targets → AddTarget targets target = targets ++ [target]) ∧
    AddTarget (AddTarget targets target) target = AddTarget targets target ∧
    (targets.Nodup → (AddTarget targets target).Nodup) := by
  have hin : target ∈ targets → AddTarget targets target = targets := by
    intro h
    unfold AddTarget
    rw [if_pos ((targetExists_iff _ _).mpr h)]
  have hout : target ∉ targets → AddTarget targets target = targets ++ [target] := by
    intro h
    unfold AddTarget
    rw [if_neg (fun hc => h ((targetExists_iff _ _).mp hc))]
  refine ⟨hin, hout, ?_, ?_⟩
  · by_cases h : target ∈ targets
    · rw [hin h, hin h]
    · rw [hout h]
      unfold AddTarget
      rw [if_pos ((targetExists_iff _ _).mpr (by simp))]
  · intro hnd
    by_cases h : target ∈ targets
    · rw [hin h]
      exact hnd
    · rw [hout h]
      exact List.Nodup.append hnd (List.nodup_singleton _) (by simpa using h)

/-- Adding a new target, then the same target again, then one that is already
in the list. -/
theorem AddTarget_example :
    AddTarget [lit "10.0.0.1:5555"] (lit "10.0.0.2:5555") =
      [lit "10.0.0.1:5555", lit "10.0.0.2:5555"] ∧
    AddTarget (AddTarget [lit "10.0.0.1:5555"] (lit "10.0.0.2:5555")) (lit "10.0.0.2:5555") =
      [lit "10.0.0.1:5555", lit "10.0.0.2:5555"] ∧
    AddTarget [lit "10.0.0.1:5555", lit "10.0.0.2:5555"] (lit "10.0.0.1:5555") =
      [lit "10.0.0.1:5555", lit "10.0.0.2:5555"] := by
  decide

/-! ## The busybox prefix -/

theorem HasPrefix_append (pre s : String) : HasPrefix (pre ++ s) pre = true := by
  unfold HasPrefix
  rw [List.isPrefixOf_iff_prefix, String.data_append]
  exact List.prefix_append _ _

/-- C28: `wrapCommandWithBusybox` is idempotent; it leaves a command that
starts with `busybox ` as it is, and with the flag off it leaves every command
as it is. -/
theorem C28_wrap_idempotent (m : ADBManager) (command : String) :
    wrapCommandWithBusybox m (wrapCommandWithBusybox m command) =
      wrapCommandWithBusybox m command ∧
    (HasPrefix command "busybox " = true → wrapCommandWithBusybox m command = command) ∧
    (m.useBusybox = false → wrapCommandWithBusybox m command = command) := by
  have hpre : HasPrefix command "busybox " = true → wrapCommandWithBusybox m command = command := by
    intro h
    unfold wrapCommandWithBusybox
    simp [h]
  have hoff : m.useBusybox = false → wrapCommandWithBusybox m command = command := by
    intro h
    unfold wrapCommandWithBusybox
    simp [h]
  refine ⟨?_, hpre, hoff⟩
  by_cases hw : (m.useBusybox && !HasPrefix command "busybox ") = true
  · have he : wrapCommandWithBusybox m command = "busybox " ++ command := by
      unfold wrapCommandWithBusybox
      rw [if_pos hw]
    rw [he]
    unfold wrapCommandWithBusybox
    simp [HasPrefix_append]
  · have he : wrapCommandWithBusybox m command = command := by
      unfold wrapCommandWithBusybox
      rw [if_neg hw]
    rw [he, he]

/-- With the flag on, `ls` is wrapped once, and wrapping the result again
changes nothing. -/
theorem wrapCommandWithBusybox_example :
    wrapCommandWithBusybox (SetBusyboxEnabled NewADBManager true) "ls /data" =
      "busybox ls /data" ∧
    wrapCommandWithBusybox (SetBusyboxEnabled NewADBManager true) "busybox ls /data" =
      "busybox ls /data" ∧
    wrapCommandWithBusybox NewADBManager "ls /data" = "ls /data" := by
  decide

/-! ## Lines whose first token is `adb` or `*` -/

/-- No line yields a record under the serial `adb` or `*`. -/
theorem currentDevices_reserved (o : PollOutcome) (clk : Clock) (s : String)
    (hsa : s = "adb" ∨ s = "*") : (currentDevices o clk).lookup s = none := by
  cases hc : (currentDevices o clk).lookup s with
  | none => rfl
  | some c =>
    obtain ⟨i, l, status, model, _, hp, _⟩ := currentDevices_lookup_line o clk s c hc
    have := parseLine_record_serial l s status model hp
    rcases hsa with h | h
    · exact absurd h this.1
    · exact absurd h this.2

/-- A line whose first token is `adb` or `*` yields no record. -/
theorem parseLine_reserved (l s : String) (hsa : s = "adb" ∨ s = "*")
    (h : (Fields (TrimSpace l)).head? = some s) : (parseLine l).device = none := by
  cases hp : parseLine l with
  | skip => rfl
  | sentinel => rfl
  | versionLine => rfl
  | record serial status model =>
    exfalso
    have hne := parseLine_record_serial l serial status model hp
    unfold parseLine at hp
    dsimp only at hp
    split at hp
    · exact absurd hp (by simp)
    · split at hp
      · rename_i p0 p1 rest hf
        rw [hf] at h
        simp only [List.head?_cons, Option.some.injEq] at h
        split at hp
        · exact absurd hp (by simp)
        · split at hp
          · exact absurd hp (by simp)
          · split at hp
            · exact absurd hp (by simp)
            · simp only [LineAction.record.injEq] at hp
              have hs : serial = s := hp.1.symm.trans h
              rcases hsa with h1 | h1
              · exact hne.1 (hs.trans h1)
              · exact hne.2 (hs.trans h1)
      · exact absurd hp (by simp)

/-- The parse loop ends without an error when no line takes the sentinel branch
or the version-conflict branch. -/
theorem parseLines_ok (clk : Clock) (ls : List String) (idx : Nat) (current : DeviceMap)
    (h : ∀ l ∈ ls, parseLine l ≠ .sentinel ∧ parseLine l ≠ .versionLine) :
    ∃ cur, parseLines clk idx ls current = .ok cur := by
  induction ls generalizing idx current with
  | nil => exact ⟨current, rfl⟩
  | cons x xs ih =>
    have hx := h x (List.mem_cons_self x xs)
    have ht : ∀ l ∈ xs, parseLine l ≠ .sentinel ∧ parseLine l ≠ .versionLine :=
      fun l hl => h l (List.mem_cons_of_mem x hl)
    rw [parseLines]
    cases hp : parseLine x with
    | skip => exact ih _ _ ht
    | sentinel => exact absurd hp hx.1
    | versionLine => exact absurd hp hx.2
    | record serial status model => exact ih _ _ ht

/-- The error of a poll whose output is clean: that of the subprocess. -/
theorem ListDevices_err_clean (m : ADBManager) (o : PollOutcome) (clk : Clock)
    (h : CleanOutput o) :
    (ListDevices m o clk).err = if o.failed then some .execFailed else none := by
  have hls : ∀ l ∈ SplitLines o.outputStr,
      parseLine l ≠ .sentinel ∧ parseLine l ≠ .versionLine := by
    intro l hl
    refine ⟨h.2 l hl, fun hv => ?_⟩
    have := Contains_of_line o.outputStr l _ hl (parseLine_versionLine l hv).2
    rw [h.1] at this
    exact absurd this (by simp)
  obtain ⟨cur, hcur⟩ := parseLines_ok clk (SplitLines o.outputStr) 0 ∅ hls
  unfold ListDevices
  rw [h.1]
  cases hf : o.failed
  · simp [hcur]
  · simp

/-- The entry under a serial that no poll discovers is gone after enough
successful polls: each of them adds a miss or deletes the entry. -/
theorem lookup_runCalls_missing (s : String) (polls : List (PollOutcome × Clock))
    (m : ADBManager) (hinv : Inv m)
    (hok : ∀ p ∈ polls, ∀ m1, (ListDevices m1 p.1 p.2).err = none)
    (hc : ∀ p ∈ polls, (currentDevices p.1 p.2).lookup s = none)
    (hn : ∀ d, m.managedDevices.lookup s = some d → 3 ≤ d.FailedChecks + polls.length) :
    (runCalls m polls).managedDevices.lookup s = none := by
  induction polls generalizing m with
  | nil =>
    rw [runCalls]
    cases hd : m.managedDevices.lookup s with
    | none => rfl
    | some d =>
      have h1 := hn d hd
      have h2 := (Inv_lookup hinv hd).2.2
      simp only [List.length_nil, Nat.cast_zero, add_zero] at h1
      omega
  | cons p ps ih =>
    rw [runCalls]
    have hokp := hok p (List.mem_cons_self p ps) m
    have hcp := hc p (List.mem_cons_self p ps)
    apply ih _ (Inv_ListDevices m p.1 p.2 hinv)
      (fun q hq => hok q (List.mem_cons_of_mem p hq))
      (fun q hq => hc q (List.mem_cons_of_mem p hq))
    intro d1 hd1
    cases hd : m.managedDevices.lookup s with
    | none =>
      rw [lookup_ListDevices_unknown m p.1 p.2 hokp s hcp hd] at hd1
      exact absurd hd1 (by simp)
    | some d =>
      have hnd := hn d hd
      simp only [List.length_cons, Nat.cast_add, Nat.cast_one] at hnd
      by_cases he : d.FailedChecks + 1 ≥ 3 ∨ p.2.now - d.LastSeen > m.deviceOfflineTimeout
      · rw [lookup_missing_evicted m hinv p.1 p.2 hokp s d hcp hd he] at hd1
        exact absurd hd1 (by simp)
      · rw [not_or] at he
        rw [lookup_missing_kept m hinv p.1 p.2 hokp s d hcp hd (by omega) (by omega)] at hd1
        simp only [Option.some.injEq] at hd1
        subst hd1
        dsimp only
        omega

/-- C30: for a registry state that `ListDevices` can leave and a discovery
output without the sentinel line and without the version-conflict text, a line
whose first token is `adb` or `*` is passed over, whatever follows the first
token, and no record is stored under that identifier; the only error the call
can return is that of a failed subprocess, which leaves the registry as it
was; and a call that returns no error treats an
existing entry under that identifier as missed: the entry is deleted when this
is its third miss or it was last seen longer ago than the offline timeout, and
otherwise stays with one more miss.  After three such successful polls the
entry is gone. -/
theorem C30_reserved_serial_missed (m : ADBManager) (hinv : Inv m) (s : String)
    (hsa : s = "adb" ∨ s = "*") :
    (∀ (o : PollOutcome) (clk : Clock), CleanOutput o →
      (∀ l ∈ SplitLines o.outputStr, (Fields (TrimSpace l)).head? = some s →
        parseLine l = .skip) ∧
      (currentDevices o clk).lookup s = none ∧
      (ListDevices m o clk).err = (if o.failed then some .execFailed else none) ∧
      (ListDevices m o clk).mgr.managedDevices.lookup s =
        if o.failed then m.managedDevices.lookup s
        else
          match m.managedDevices.lookup s with
          | some d =>
            if d.FailedChecks + 1 ≥ 3 ∨ clk.now - d.LastSeen > m.deviceOfflineTimeout then none
            else some { d with FailedChecks := d.FailedChecks + 1 }
          | none => none) ∧
    (∀ polls : List (PollOutcome × Clock),
      (∀ p ∈ polls, CleanOutput p.1 ∧ p.1.failed = false) → 3 ≤ polls.length →
      (runCalls m polls).managedDevices.lookup s = none) := by
  constructor
  · intro o clk hclean
    have hcur := currentDevices_reserved o clk s hsa
    have herr := ListDevices_err_clean m o clk hclean
    refine ⟨?_, hcur, herr, ?_⟩
    · intro l hl hhead
      have hdev := parseLine_reserved l s hsa hhead
      cases hp : parseLine l with
      | skip => rfl
      | sentinel => exact absurd hp (hclean.2 l hl)
      | versionLine =>
        have := Contains_of_line o.outputStr l _ hl (parseLine_versionLine l hp).2
        rw [hclean.1] at this
        exact absurd this (by simp)
      | record serial status model =>
        rw [hp] at hdev
        exact absurd hdev (by simp [LineAction.device])
    · cases hf : o.failed
      · rw [hf] at herr
        simp only [Bool.false_eq_true, if_false] at herr ⊢
        cases hd : m.managedDevices.lookup s with
        | none => exact lookup_ListDevices_unknown m o clk herr s hcur hd
        | some d =>
          dsimp only
          by_cases he : d.FailedChecks + 1 ≥ 3 ∨ clk.now - d.LastSeen > m.deviceOfflineTimeout
          · rw [if_pos he]
            exact lookup_missing_evicted m hinv o clk herr s d hcur hd he
          · rw [if_neg he]
            rw [not_or] at he
            exact lookup_missing_kept m hinv o clk herr s d hcur hd (by omega) (by omega)
      · rw [hf] at herr
        simp only [if_true] at herr ⊢
        rw [ListDevices_mgr_of_err m o clk (by rw [herr]; simp)]
  · intro polls hp hlen
    apply lookup_runCalls_missing s polls m hinv
    · intro p hpm m1
      have := ListDevices_err_clean m1 p.1 p.2 (hp p hpm).1
      rw [(hp p hpm).2] at this
      simpa using this
    · intro p _
      exact currentDevices_reserved p.1 p.2 s hsa
    · intro d hd
      have := (Inv_lookup hinv hd).2.1
      omega

theorem C30_reserved_serial_missed_witness :
    Inv adbNamedManager ∧
    CleanOutput ⟨"List of devices attached\nadb device model:X\n", false⟩ ∧
    (ListDevices adbNamedManager ⟨"List of devices attached\nadb device model:X\n", false⟩
      (Clock.const 9)).mgr.managedDevices.lookup "adb" = some ⟨"adb", "device", "X", 5, 1⟩ ∧
    ((∀ (o : PollOutcome) (clk : Clock), CleanOutput o →
        (∀ l ∈ SplitLines o.outputStr, (Fields (TrimSpace l)).head? = some "adb" →
          parseLine l = .skip) ∧
        (currentDevices o clk).lookup "adb" = none ∧
        (ListDevices adbNamedManager o clk).err = (if o.failed then some .execFailed else none) ∧
        (ListDevices adbNamedManager o clk).mgr.managedDevices.lookup "adb" =
          if o.failed then adbNamedManager.managedDevices.lookup "adb"
          else
            match adbNamedManager.managedDevices.lookup "adb" with
            | some d =>
              if d.FailedChecks + 1 ≥ 3 ∨
                  clk.now - d.LastSeen > adbNamedManager.deviceOfflineTimeout then none
              else some { d with FailedChecks := d.FailedChecks + 1 }
            | none => none) ∧
      (∀ polls : List (PollOutcome × Clock),
        (∀ p ∈ polls, CleanOutput p.1 ∧ p.1.failed = false) → 3 ≤ polls.length →
        (runCalls adbNamedManager polls).managedDevices.lookup "adb" = none)) :=
  ⟨by decide, by decide, by decide,
    C30_reserved_serial_missed adbNamedManager (by decide) "adb" (Or.inl rfl)⟩

/-! ## Trimming a string that ends with a space -/

/-- The bytes of a rune after its first byte are not ASCII. -/
theorem DecodeRuneInString_cont (s : Bytes) (j : Nat) (h1 : 1 ≤ j)
    (hj : j < (DecodeRuneInString s).2) : ∃ b, s[j]? = some b ∧ 0x80 ≤ b.val := by
  unfold DecodeRuneInString at hj
  split at hj
  · simp at hj
  · rename_i s0 rest
    split at hj
    · dsimp only at hj; omega
    · split at hj
      · dsimp only at hj; omega
      · split at hj
        · dsimp only at hj; omega
        · split at hj
          · dsimp only at hj; omega
          · split at hj
            · dsimp only at hj; omega
            · rename_i hacc
              have hb := accept_bounds hacc
              split at hj
              · dsimp only at hj
                have : j = 1 := by omega
                subst this
                simpa using hb.1
              · split at hj
                · dsimp only at hj; omega
                · split at hj
                  · dsimp only at hj; omega
                  · rename_i hc2
                    have hb2 := isCont_bounds hc2
                    split at hj
                    · dsimp only at hj
                      have : j = 1 ∨ j = 2 := by omega
                      rcases this with rfl | rfl
                      · simpa using hb.1
                      · simpa using hb2.1
                    · split at hj
                      · dsimp only at hj; omega
                      · split at hj
                        · dsimp only at hj; omega
                        · rename_i hc3
                          have hb3 := isCont_bounds hc3
                          dsimp only at hj
                          have : j = 1 ∨ j = 2 ∨ j = 3 := by omega
                          rcases this with rfl | rfl | rfl
                          · simpa using hb.1
                          · simpa using hb2.1
                          · simpa using hb3.1

/-- The width of the first rune of a string of two or more bytes that ends
with an ASCII byte is less than the length of the string. -/
theorem DecodeRuneInString_width_lt (b d : Byte) (mid : Bytes) (hd : d.val < 0x80) :
    (DecodeRuneInString (b :: (mid ++ [d]))).2 < mid.length + 2 := by
  by_contra hc
  have hj : mid.length + 1 < (DecodeRuneInString (b :: (mid ++ [d]))).2 := by omega
  obtain ⟨x, hx, hx80⟩ := DecodeRuneInString_cont _ (mid.length + 1) (by omega) hj
  rw [List.getElem?_cons_succ, List.getElem?_append_right (le_refl _)] at hx
  simp only [Nat.sub_self, List.getElem?_cons_zero, Option.some.injEq] at hx
  subst hx
  omega

theorem lastRuneCandidate_ne_nil (before acc : Bytes) (steps : Nat) (cand : Bytes)
    (h : lastRuneCandidate before acc steps = some cand) : cand ≠ [] := by
  induction steps generalizing before acc with
  | zero => simp [lastRuneCandidate] at h
  | succ n ih =>
    cases before with
    | nil => simp [lastRuneCandidate] at h
    | cons b before =>
      rw [lastRuneCandidate] at h
      split at h
      · simp only [Option.some.injEq] at h
        subst h
        simp
      · exact ih _ _ h

/-- The last rune of a string that is not empty has at least one byte. -/
theorem DecodeLastRuneInString_width (s : Bytes) (hs : s ≠ []) :
    1 ≤ (DecodeLastRuneInString s).2 := by
  unfold DecodeLastRuneInString
  split
  · rename_i h
    exact absurd (List.reverse_eq_nil_iff.mp h) hs
  · split
    · exact le_refl _
    · split
      · rename_i cand hcand
        split
        · rename_i hw
          rw [hw]
          have := lastRuneCandidate_ne_nil _ _ _ _ hcand
          exact Nat.one_le_iff_ne_zero.mpr (fun h0 => this (List.length_eq_zero.mp h0))
        · exact le_refl _
      · exact le_refl _

/-- The index `lastIndexNonSpace` returns lies before the end it started
from. -/
theorem lastIndexNonSpace_lt (s : Bytes) (fuel i idx : Nat) (hi : i ≤ s.length)
    (h : lastIndexNonSpace s i fuel = some idx) : idx < i := by
  induction fuel generalizing i with
  | zero => simp [lastIndexNonSpace] at h
  | succ n ih =>
    rw [lastIndexNonSpace] at h
    split at h
    · simp at h
    · rename_i hi0
      have hne : s.take i ≠ [] := by
        intro hc
        have := congrArg List.length hc
        simp only [List.length_take, List.length_nil] at this
        omega
      have hw := DecodeLastRuneInString_width _ hne
      split at h
      · have := ih (i - (DecodeLastRuneInString (s.take i)).2) (by omega) h
        omega
      · simp only [Option.some.injEq] at h
        omega

theorem trimRightSpace_length_le (s : Bytes) : (trimRightSpace s).length ≤ s.length := by
  unfold trimRightSpace
  split
  · simp
  · split
    · simp
    · split <;> simp

/-- Trimming on the right takes the last byte away when it is an ASCII space. -/
theorem trimRightSpace_length_lt (z : Bytes) (d : Byte) (hd : d.val < 0x80)
    (hsp : IsSpace d.val = true) :
    (trimRightSpace (z ++ [d])).length < (z ++ [d]).length := by
  have hlast : DecodeLastRuneInString (z ++ [d]) = (d.val, 1) := by
    unfold DecodeLastRuneInString
    simp [hd]
  unfold trimRightSpace
  have hstep : lastIndexNonSpace (z ++ [d]) (z ++ [d]).length (z ++ [d]).length =
      lastIndexNonSpace (z ++ [d]) z.length z.length := by
    have hl : (z ++ [d]).length = z.length + 1 := by simp
    rw [hl, lastIndexNonSpace, if_neg (by omega), ← hl, List.take_length, hlast]
    simp [hsp]
  rw [hstep]
  split
  · simp
  · rename_i idx hidx
    have hlt := lastIndexNonSpace_lt (z ++ [d]) z.length z.length idx (by simp) hidx
    have hdrop : (z ++ [d]).drop idx = z.drop idx ++ [d] := by
      rw [List.drop_append_of_le_length (by omega)]
    rw [hdrop]
    cases hz : z.drop idx with
    | nil =>
      have := congrArg List.length hz
      simp only [List.length_drop, List.length_nil] at this
      omega
    | cons b mid =>
      have hmid : mid.length + 1 = z.length - idx := by
        have := congrArg List.length hz
        simp only [List.length_drop, List.length_cons] at this
        omega
      have hw := DecodeRuneInString_width_lt b d mid hd
      simp only [List.cons_append]
      split <;> simp only [List.length_take, List.length_append, List.length_singleton] <;> omega

theorem trimLeftSpace_suffix (k : Nat) (z : Bytes) : trimLeftSpace k z <:+ z := by
  induction z generalizing k with
  | nil =>
    cases k <;> simp [trimLeftSpace]
  | cons b rest ih =>
    cases k with
    | zero =>
      rw [trimLeftSpace]
      split
      · exact (ih _).trans (List.suffix_cons b rest)
      · exact List.suffix_refl _
    | succ k =>
      rw [trimLeftSpace]
      exact (ih k).trans (List.suffix_cons b rest)

theorem suffix_concat_cases {α : Type} (x u : List α) (d : α) (h : x <:+ u ++ [d]) :
    x = [] ∨ ∃ v, x = v ++ [d] ∧ v <:+ u := by
  rcases List.eq_nil_or_concat x with hx | ⟨v, e, hx⟩
  · exact Or.inl hx
  · right
    obtain ⟨pre, hpre⟩ := h
    subst hx
    rw [List.concat_eq_append, ← List.append_assoc] at hpre
    obtain ⟨h1, h2⟩ := List.append_inj' hpre rfl
    simp only [List.cons.injEq, and_true] at h2
    subst h2
    exact ⟨v, by simp, ⟨pre, h1⟩⟩

theorem IsSpace_of_asciiSpace (d : Byte) (h : asciiSpace d = true) : IsSpace d.val = true := by
  unfold asciiSpace at h
  unfold IsSpace
  simp only [Bool.or_eq_true, beq_iff_eq] at h
  simp only [Bool.or_eq_true, beq_iff_eq, Bool.and_eq_true, decide_eq_true_eq]
  omega

/-- Trimming takes the last byte of a string away when it is an ASCII space. -/
theorem TrimSpaceBytes_length_lt (u : Bytes) (d : Byte) (hd : d.val < 0x80)
    (hsp : asciiSpace d = true) :
    (TrimSpaceBytes (u ++ [d])).length < (u ++ [d]).length := by
  have hP : (decide (d.val < 0x80) && asciiSpace d) = true := by simp [hd, hsp]
  have hIs := IsSpace_of_asciiSpace d hsp
  unfold TrimSpaceBytes
  split
  · simp
  · rename_i c rest heq
    have hsuf : c :: rest <:+ u ++ [d] := by
      rw [← heq]
      exact List.dropWhile_suffix _
    rcases suffix_concat_cases _ _ _ hsuf with hnil | ⟨v, hv, hvu⟩
    · exact absurd hnil (by simp)
    · have hvlen : v.length ≤ u.length := hvu.length_le
      rw [hv]
      split
      · rcases suffix_concat_cases _ _ _ (trimLeftSpace_suffix 0 (v ++ [d])) with hx | ⟨w, hw, hwv⟩
        · rw [hx]
          have := trimRightSpace_length_le []
          simp only [List.length_nil, Nat.le_zero] at this
          rw [this]
          simp
        · rw [hw]
          have h1 := trimRightSpace_length_lt w d hd hIs
          have h2 := hwv.length_le
          simp only [List.length_append, List.length_singleton] at h1 ⊢
          omega
      · have hy : (List.dropWhile (fun b => decide (b.val < 0x80) && asciiSpace b)
            (v ++ [d]).reverse).length ≤ v.length := by
          rw [List.reverse_append, List.reverse_singleton, List.singleton_append,
            List.dropWhile_cons, if_pos hP]
          have := (List.dropWhile_suffix (fun b => decide (b.val < 0x80) && asciiSpace b)
            (l := v.reverse)).length_le
          simpa using this
        split
        · simp
        · rename_i d1 before heq1
          rw [heq1] at hy
          split
          · have := trimRightSpace_length_le (d1 :: before).reverse
            simp only [List.length_reverse, List.length_append, List.length_singleton] at this hy ⊢
            omega
          · simp only [List.length_reverse, List.length_append, List.length_singleton] at hy ⊢
            omega

/-- A string that trimming leaves as it is does not end with `\r`. -/
theorem dropCR_of_trimmed (t : Bytes) (h : TrimSpaceBytes t = t) : dropCR t = t := by
  unfold dropCR
  split
  · rfl
  · rename_i c before hrev
    split
    · rename_i hc
      exfalso
      have ht : t = before.reverse ++ [c] := by
        have := congrArg List.reverse hrev
        simpa using this
      have hlt := TrimSpaceBytes_length_lt before.reverse c (by omega) (by
        unfold asciiSpace
        simp [hc])
      rw [← ht, h] at hlt
      exact absurd hlt (lt_irrefl _)
    · rfl

/-! ## Exporting and importing targets -/

theorem rawLinesAux_line (t rest acc : Bytes) (h : byte 0x0A ∉ t) :
    rawLinesAux (t ++ byte 0x0A :: rest) acc = (acc.reverse ++ t) :: rawLinesAux rest [] := by
  induction t generalizing acc with
  | nil =>
    rw [List.nil_append, rawLinesAux, if_pos (by decide), List.append_nil]
  | cons b t ih =>
    have hb : ¬ b.val = 0x0A := by
      intro hc
      apply h
      have : b = byte 0x0A := Fin.ext hc
      rw [this]
      exact List.mem_cons_self _ _
    rw [List.cons_append, rawLinesAux, if_neg hb, ih _ (fun hm => h (List.mem_cons_of_mem b hm))]
    simp

/-- The lines of an exported file are the targets, when no target holds a line
feed. -/
theorem rawLinesAux_export (targets : List Bytes) (h : ∀ t ∈ targets, byte 0x0A ∉ t) :
    rawLinesAux (ExportTargetsToFile targets) [] = targets := by
  induction targets with
  | nil => rfl
  | cons t rest ih =>
    rw [ExportTargetsToFile, List.append_assoc, List.singleton_append,
      rawLinesAux_line t _ [] (h t (List.mem_cons_self t rest)),
      ih (fun x hx => h x (List.mem_cons_of_mem t hx))]
    simp

/-- Trimming leaves a string that starts and ends with ASCII bytes that are no
spaces as it is. -/
theorem TrimSpaceBytes_ascii (c d : Byte) (mid : Bytes) (hc : c.val < 0x80)
    (hcs : asciiSpace c = false) (hd : d.val < 0x80) (hds : asciiSpace d = false) :
    TrimSpaceBytes (c :: (mid ++ [d])) = c :: (mid ++ [d]) := by
  unfold TrimSpaceBytes
  rw [List.dropWhile_cons, if_neg (by simp [hcs])]
  dsimp only
  rw [if_neg (by omega)]
  have hrev : (c :: (mid ++ [d])).reverse = d :: (mid.reverse ++ [c]) := by simp
  rw [hrev, List.dropWhile_cons, if_neg (by simp [hds])]
  dsimp only
  rw [if_neg (by omega)]
  simp

theorem longTarget_eq :
    longTarget = byte 0x68 :: ((byte 0x3A :: List.replicate 65535 (byte 0x61)) ++ [byte 0x61]) := by
  have hlit : lit "h:" = [byte 0x68, byte 0x3A] := by decide
  unfold longTarget
  rw [hlit, show (65536 : Nat) = 65535 + 1 from rfl, List.replicate_succ']
  rfl

/-- C27, as stated, fails: the target `longTarget` has one `:`, no space at
either end, no line feed and no `#` at its start, and importing the file that
exporting it writes returns an error and an empty target list. -/
theorem C27_counterexample :
    (∀ t ∈ [longTarget], t.count (byte 0x3A) = 1 ∧ TrimSpaceBytes t = t ∧ byte 0x0A ∉ t ∧
      HasPrefixBytes t (lit "#") = false) ∧
    ImportTargetsFromFile [] (ExportTargetsToFile [longTarget]) =
      ([], some (.readFailed (.exec "bufio.Scanner: token too long"))) ∧
    ImportTargetsFromFile [] (ExportTargetsToFile [longTarget]) ≠ ([longTarget], none) := by
  have himp : ImportTargetsFromFile [] (ExportTargetsToFile [longTarget]) =
      ([], some (.readFailed (.exec "bufio.Scanner: token too long"))) := by
    have hlit : lit "h:" = [byte 0x68, byte 0x3A] := by decide
    have hexp : ExportTargetsToFile [longTarget] =
        byte 0x68 :: byte 0x3A :: (List.replicate 65536 (byte 0x61) ++ [byte 0x0A]) := by
      unfold longTarget
      rw [hlit, ExportTargetsToFile, ExportTargetsToFile, List.append_nil, List.append_assoc]
      rfl
    have hlen : maxScanTokenSize ≤
        (List.replicate 65536 (byte 0x61) ++ [byte 0x3A, byte 0x68]).length := by
      rw [List.length_append, List.length_replicate]
      decide
    have hs : scanLinesAux (ExportTargetsToFile [longTarget]) [] = ([], true) := by
      rw [hexp, scanLinesAux, if_neg (by decide), scanLinesAux, if_neg (by decide),
        scanLinesAux_replicate _ _ (by decide), scanLinesAux, if_pos (by decide), if_pos hlen]
    unfold ImportTargetsFromFile
    rw [hs]
    rfl
  refine ⟨?_, himp, ?_⟩
  · intro t ht
    rw [List.mem_singleton] at ht
    subst ht
    refine ⟨?_, ?_, ?_, ?_⟩
    · rw [longTarget_eq]
      simp only [List.count_cons, List.count_append, List.count_replicate, List.count_nil]
      decide
    · rw [longTarget_eq]
      exact TrimSpaceBytes_ascii _ _ _ (by decide) (by decide) (by decide) (by decide)
    · rw [longTarget_eq]
      simp only [List.mem_cons, List.mem_append, List.mem_replicate, List.not_mem_nil]
      decide
    · rw [longTarget_eq]
      rfl
  · rw [himp]
    simp

/-- C27, amended: for every target list in which each target holds exactly one
`:`, has no space at either end, holds no line feed, does not start with `#`
and is shorter than 65536 bytes, importing the file that `ExportTargetsToFile`
writes into an empty target list returns no error and gives the same list in
the same order. -/
theorem C27_export_import (targets : List Bytes)
    (h : ∀ t ∈ targets, t.count (byte 0x3A) = 1 ∧ TrimSpaceBytes t = t ∧ byte 0x0A ∉ t ∧
      HasPrefixBytes t (lit "#") = false ∧ t.length < maxScanTokenSize) :
    ImportTargetsFromFile [] (ExportTargetsToFile targets) = (targets, none) := by
  have hraw := rawLinesAux_export targets (fun t ht => (h t ht).2.2.1)
  have hscan := scanLinesAux_short (ExportTargetsToFile targets) []
    (by rw [hraw]; exact fun t ht => (h t ht).2.2.2.2)
  have hcr : targets.map dropCR = targets := by
    conv_rhs => rw [← List.map_id targets]
    exact List.map_congr_left (fun t ht => dropCR_of_trimmed t (h t ht).2.1)
  have htrim : targets.map TrimSpaceBytes = targets := by
    conv_rhs => rw [← List.map_id targets]
    exact List.map_congr_left (fun t ht => (h t ht).2.1)
  have hfil : targets.filter isTargetLine = targets := by
    rw [List.filter_eq_self]
    intro t ht
    obtain ⟨h1, _, _, h4, _⟩ := h t ht
    have hne : t ≠ [] := by
      intro hc
      rw [hc] at h1
      simp at h1
    simp [isTargetLine, hne, h4, h1]
  unfold ImportTargetsFromFile
  rw [hscan, hraw, hcr, foldl_importLine, htrim, hfil]
  rfl

theorem C27_export_import_witness :
    (∀ t ∈ [lit "10.0.0.1:5555", lit "emulator\r:x y"],
      t.count (byte 0x3A) = 1 ∧ TrimSpaceBytes t = t ∧ byte 0x0A ∉ t ∧
        HasPrefixBytes t (lit "#") = false ∧ t.length < maxScanTokenSize) ∧
    ExportTargetsToFile [lit "10.0.0.1:5555", lit "emulator\r:x y"] =
      lit "10.0.0.1:5555\nemulator\r:x y\n" ∧
    ImportTargetsFromFile [] (ExportTargetsToFile [lit "10.0.0.1:5555", lit "emulator\r:x y"]) =
      ([lit "10.0.0.1:5555", lit "emulator\r:x y"], none) :=
  ⟨by decide, by decide,
    C27_export_import [lit "10.0.0.1:5555", lit "emulator\r:x y"] (by decide)⟩

/-! ## Screenshot file names of identifiers without `_` -/

theorem map_colon_injective (a b : List Char) (ha : '_' ∉ a) (hb : '_' ∉ b)
    (h : a.map (fun c => if c = ':' then '_' else c) = b.map (fun c => if c = ':' then '_' else c)) :
    a = b := by
  induction a generalizing b with
  | nil =>
    cases b with
    | nil => rfl
    | cons y ys => simp at h
  | cons x xs ih =>
    cases b with
    | nil => simp at h
    | cons y ys =>
      simp only [List.map_cons, List.cons.injEq] at h
      have hx : x ≠ '_' := fun hc => ha (by simp [hc])
      have hy : y ≠ '_' := fun hc => hb (by simp [hc])
      have hxy : x = y := by
        have h1 := h.1
        by_cases hxc : x = ':' <;> by_cases hyc : y = ':'
        · rw [hxc, hyc]
        · rw [if_pos hxc, if_neg hyc] at h1
          exact absurd h1.symm hy
        · rw [if_neg hxc, if_pos hyc] at h1
          exact absurd h1 hx
        · rw [if_neg hxc, if_neg hyc] at h1
          exact h1
      rw [hxy, ih ys (fun hc => ha (List.mem_cons_of_mem x hc))
        (fun hc => hb (List.mem_cons_of_mem y hc)) h.2]

/-- The file names of two distinct devices differ when no `_` occurs in their
identifiers. -/
theorem screenshotPath_injective (outputDir d1 d2 : String) (h1 : '_' ∉ d1.data)
    (h2 : '_' ∉ d2.data) (h : screenshotPath outputDir d1 = screenshotPath outputDir d2) :
    d1 = d2 := by
  unfold screenshotPath at h
  have hd := congrArg String.data h
  simp only [String.data_append, List.append_assoc, List.append_cancel_left_eq,
    List.append_cancel_right_eq] at hd
  exact String.ext (map_colon_injective _ _ h1 h2 hd)

end AdbManager
